import Mathlib

/-!
Verification of the mcp-playbook synchronization engine.

This file gives a shallow embedding of the GitHub-backed document
synchronization code of the repository (src/utils/githubApi.ts, the
handlers in src/handlers/, and the older combined src/handlers.ts) and
proves or refutes the frozen claims about it.

The remote backend (the GitHub git database) is not part of the
repository; its semantics (one-level tree listings, base-tree
inheritance in createTree, the non-force ref update precondition) are
modelled from the specification, as noted on each primitive.
-/

namespace McpPlaybook

/-- Association-list lookup by numeric key (object ids). -/
def lookupA {α : Type} (l : List (Nat × α)) (k : Nat) : Option α :=
  (l.find? (fun p => p.1 = k)).map (·.2)

/-- Association-list lookup by string key (ref names). -/
def lookupS {α : Type} (l : List (String × α)) (k : String) : Option α :=
  (l.find? (fun p => p.1 = k)).map (·.2)

/-- Point update of a string-keyed association list (used by updateRef). -/
def setS (l : List (String × Nat)) (k : String) (v : Nat) : List (String × Nat) :=
  l.map (fun p => if p.1 = k then (p.1, v) else p)

/-- One entry of a git tree object, as in the GitHub tree API
(`GitHubCreateTreeItem` in src/utils/githubApi.ts): a path binding with a
mode, an object type ("blob" or "tree") and an object id. -/
structure TreeEntry where
  path : String
  mode : String
  type : String
  sha : Nat
deriving Repr, DecidableEq

/-- A git commit object: tree id, single parent id, message
(the engine only ever creates single-parent commits). -/
structure CommitObj where
  treeSha : Nat
  parentSha : Nat
  message : String
deriving Repr, DecidableEq

/-- A pull request as far as the handlers observe it: number, head
branch, base branch, title, body. -/
structure PullObj where
  number : Nat
  headRef : String
  baseRef : String
  title : String
  body : String
deriving Repr, DecidableEq

/-- Remote calls recorded in an observation trace: reads, and the
mutating calls with the payload the claims inspect. -/
inductive Ev where
  | getMeE
  | readE
  | branchE (name : String)
  | blobE (content : String)
  | treeE
  | commitE
  | refE (refName : String)
  | putE (branch targetPath content : String)
  | prE (number : Nat)
deriving Repr, DecidableEq

/-- Whether an event is a mutating remote call. -/
def Ev.isWrite : Ev → Bool
  | .getMeE => false
  | .readE => false
  | _ => true

/-- Errors surfaced by the remote primitives: octokit RequestError 404
(notFound), the non-fast-forward ref update rejection (conflict), any
other transport/HTTP failure (remoteFault), and a zod validation error. -/
inductive GhError where
  | notFound
  | conflict
  | remoteFault
  | validation (msg : String)
deriving Repr, DecidableEq

/-- The state of one remote repository plus the instrumentation the
claims need: the content stores, the refs, the pull requests, fresh-id
counters, the authenticated user, a transport-failure oracle (`failures`:
the head decides whether the next remote call fails), and the event
trace. -/
structure RemoteState where
  blobs : List (Nat × String)
  trees : List (Nat × List TreeEntry)
  commits : List (Nat × CommitObj)
  refs : List (String × Nat)
  pulls : List PullObj
  nextSha : Nat
  nextPr : Nat
  authUser : String
  failures : List Bool
  events : List Ev
deriving Repr

/-- Consume one transport-failure decision (default: the call succeeds). -/
def RemoteState.consume (st : RemoteState) : Bool × RemoteState :=
  match st.failures with
  | [] => (false, st)
  | b :: rest => (b, { st with failures := rest })

/-- The state effect shared by every remote call: one oracle decision is
consumed and the call's event is recorded. -/
def RemoteState.stamp (st : RemoteState) (e : Ev) : RemoteState :=
  { st with failures := st.failures.tail, events := st.events ++ [e] }

/-- Record one remote call's event. -/
def RemoteState.log (st : RemoteState) (e : Ev) : RemoteState :=
  { st with events := st.events ++ [e] }

/-! ### Structural string helpers

The JS string operations used by the handlers, written as structural
recursion over the character list so that concrete runs reduce. -/

/-- JS `String.prototype.split` on a one-character separator (the
semantics of `splitOn`): never returns an empty list. -/
def splitCharAux (sep : Char) : List Char → List Char → List String
  | [], acc => [String.mk acc.reverse]
  | c :: rest, acc =>
    if c = sep then String.mk acc.reverse :: splitCharAux sep rest []
    else splitCharAux sep rest (c :: acc)

/-- Split a string at every occurrence of the separator character. -/
def strSplitChar (sep : Char) (s : String) : List String :=
  splitCharAux sep s.data []

/-- JS `String.prototype.startsWith`. -/
def strStartsWith (s pre : String) : Bool :=
  pre.data.isPrefixOf s.data

/-- JS `String.prototype.endsWith`. -/
def strEndsWith (s post : String) : Bool :=
  post.data.isSuffixOf s.data

/-- JS `Array.prototype.join`. -/
def strIntercalate (sep : String) : List String → String
  | [] => ""
  | [x] => x
  | x :: y :: rest => x ++ sep ++ strIntercalate sep (y :: rest)

/-! ### Path handling (node `path.posix.join`) -/

/-- Segment normalization of `path.posix.normalize`: "." and empty
segments are dropped, ".." pops a preceding real segment. -/
def normSegsStep (acc : List String) (s : String) : List String :=
  if s = "" ∨ s = "." then acc
  else if s = ".." then
    match acc.getLast? with
    | some t => if t = ".." then acc ++ [s] else acc.dropLast
    | none => acc ++ [s]
  else acc ++ [s]

/-- `path.posix.join`: join the non-empty parts with "/" and normalize.
Relative inputs stay relative; an empty result is ".". -/
def posixJoin (parts : List String) : String :=
  let segs := (parts.filter (· ≠ "")).foldl
    (fun acc part => (strSplitChar '/' part).foldl normSegsStep acc) []
  if segs = [] then "." else strIntercalate "/" segs

/-- Split a repo-relative slash path into segments (tree item paths of
`createTree` are slash-separated relative paths; the split never returns
an empty list, so the first branch is unreachable and only makes that
fact structural). -/
def splitPath (p : String) : List String :=
  match strSplitChar '/' p with
  | [] => [p]
  | l => l

/-! ### Tree object store operations -/

/-- Resolve a slash path from a list of tree entries, descending through
subtree objects of the store.  Mirrors how git binds a path inside a
commit's tree. -/
def resolve (store : List (Nat × List TreeEntry)) (entries : List TreeEntry) :
    List String → Option TreeEntry
  | [] => none
  | p :: rest =>
    match entries.find? (fun e => e.path = p) with
    | none => none
    | some e =>
      match rest with
      | [] => some e
      | _ :: _ =>
        if e.type = "tree" then
          match lookupA store e.sha with
          | some child => resolve store child rest
          | none => none
        else none

/-- Replace the binding of path `p` in a one-level entry list (or append
it when absent). -/
def replaceEntry (entries : List TreeEntry) (p m t : String) (s : Nat) : List TreeEntry :=
  if entries.any (fun e => e.path = p) then
    entries.map (fun e => if e.path = p then ⟨p, m, t, s⟩ else e)
  else entries ++ [⟨p, m, t, s⟩]

/-- Modelled from the spec: how the backend's `createTree` folds one
slash-path item into a base tree — "when `baseTreeId` is supplied,
entries not explicitly listed are inherited unchanged from the base".
Descending into a path allocates rebuilt subtree objects; an existing
subtree's unlisted entries are kept. -/
def insertSegs (st : RemoteState) (entries : List TreeEntry) :
    List String → String → String → Nat → List TreeEntry × RemoteState
  | [], _, _, _ => (entries, st)
  | [p], m, t, s => (replaceEntry entries p m t s, st)
  | p :: q :: rest, m, t, s =>
    let childEntries :=
      match entries.find? (fun e => e.path = p) with
      | some e => if e.type = "tree" then (lookupA st.trees e.sha).getD [] else []
      | none => []
    let r := insertSegs st childEntries (q :: rest) m t s
    let newSha := r.2.nextSha
    let st₂ := { r.2 with trees := (newSha, r.1) :: r.2.trees, nextSha := newSha + 1 }
    (replaceEntry entries p "040000" "tree" newSha, st₂)

/-- Fold a list of tree items into an entry list (the body of the
backend's createTree). -/
def foldItems (items : List TreeEntry) (acc : List TreeEntry × RemoteState) :
    List TreeEntry × RemoteState :=
  items.foldl (fun acc it => insertSegs acc.2 acc.1 (splitPath it.path) it.mode it.type it.sha) acc

/-! ### The Content Object Client primitives (src/utils/githubApi.ts)

Each primitive consumes the transport oracle, records its event, and
either fails (`remoteFault`, re-thrown by the source wrappers) or
performs the backend action. -/

/-- `getRef`: look up a ref's head commit id.  The source re-throws every
octokit error, including 404 (src/utils/githubApi.ts getRef). -/
def getRef (refName : String) (st : RemoteState) : Except GhError Nat × RemoteState :=
  let c := st.consume
  let st := c.2.log .readE
  if c.1 then (.error .remoteFault, st)
  else
    match lookupS st.refs refName with
    | some sha => (.ok sha, st)
    | none => (.error .notFound, st)

/-- `getCommit`: fetch a commit object (the handlers use `.tree.sha` and
`.sha`). -/
def getCommit (sha : Nat) (st : RemoteState) : Except GhError CommitObj × RemoteState :=
  let c := st.consume
  let st := c.2.log .readE
  if c.1 then (.error .remoteFault, st)
  else
    match lookupA st.commits sha with
    | some obj => (.ok obj, st)
    | none => (.error .notFound, st)

/-- `getTree`: fetch a tree object.  The source never passes `recursive`,
so — modelled from the spec's description of the backend — the listing
contains only the tree's own one-level entries. -/
def getTree (sha : Nat) (st : RemoteState) : Except GhError (List TreeEntry) × RemoteState :=
  let c := st.consume
  let st := c.2.log .readE
  if c.1 then (.error .remoteFault, st)
  else
    match lookupA st.trees sha with
    | some entries => (.ok entries, st)
    | none => (.error .notFound, st)

/-- `createBlob`: store content, returning a fresh object id. -/
def createBlob (content : String) (st : RemoteState) : Except GhError Nat × RemoteState :=
  let c := st.consume
  let st := c.2.log (.blobE content)
  if c.1 then (.error .remoteFault, st)
  else
    let sha := st.nextSha
    (.ok sha, { st with blobs := (sha, content) :: st.blobs, nextSha := sha + 1 })

/-- `createTree`: modelled from the spec — build a new tree from the base
tree (when given) with the listed items folded in, returning a fresh root
tree id. -/
def createTree (items : List TreeEntry) (baseSha : Option Nat) (st : RemoteState) :
    Except GhError Nat × RemoteState :=
  let c := st.consume
  let st := c.2.log .treeE
  if c.1 then (.error .remoteFault, st)
  else
    match baseSha with
    | some b =>
      match lookupA st.trees b with
      | none => (.error .notFound, st)
      | some base =>
        let r := foldItems items (base, st)
        let rootSha := r.2.nextSha
        (.ok rootSha, { r.2 with trees := (rootSha, r.1) :: r.2.trees, nextSha := rootSha + 1 })
    | none =>
      let r := foldItems items ([], st)
      let rootSha := r.2.nextSha
      (.ok rootSha, { r.2 with trees := (rootSha, r.1) :: r.2.trees, nextSha := rootSha + 1 })

/-- `createCommit`: store a single-parent commit, returning a fresh id. -/
def createCommit (message : String) (treeSha parentSha : Nat) (st : RemoteState) :
    Except GhError Nat × RemoteState :=
  let c := st.consume
  let st := c.2.log .commitE
  if c.1 then (.error .remoteFault, st)
  else
    let sha := st.nextSha
    (.ok sha,
      { st with commits := (sha, ⟨treeSha, parentSha, message⟩) :: st.commits, nextSha := sha + 1 })

/-- `updateRef` without force.  Modelled from the spec: the backend
rejects the update unless the branch's current head equals the parent the
new commit was built on. -/
def updateRef (refName : String) (newSha : Nat) (st : RemoteState) :
    Except GhError Unit × RemoteState :=
  let c := st.consume
  let st := c.2.log (.refE refName)
  if c.1 then (.error .remoteFault, st)
  else
    match lookupS st.refs refName with
    | none => (.error .notFound, st)
    | some cur =>
      match lookupA st.commits newSha with
      | none => (.error .notFound, st)
      | some obj =>
        if obj.parentSha = cur then
          (.ok (), { st with refs := setS st.refs refName newSha })
        else (.error .conflict, st)

/-- `createBranch`: read the source branch's head and create the new ref
pointing at it (a create-ref call; a pre-existing ref or a missing source
branch is a backend error re-thrown by the source wrapper). -/
def createBranch (branch fromBranch : String) (st : RemoteState) :
    Except GhError Unit × RemoteState :=
  let c := st.consume
  let st := c.2.log (.branchE branch)
  if c.1 then (.error .remoteFault, st)
  else
    match lookupS st.refs ("heads/" ++ fromBranch) with
    | none => (.error .notFound, st)
    | some sha =>
      match lookupS st.refs ("heads/" ++ branch) with
      | some _ => (.error .remoteFault, st)
      | none => (.ok (), { st with refs := ("heads/" ++ branch, sha) :: st.refs })

/-- `getPullRequest`: fetch a pull request by number (the handlers use
`.head.ref`). -/
def getPullRequest (n : Nat) (st : RemoteState) : Except GhError PullObj × RemoteState :=
  let c := st.consume
  let st := c.2.log .readE
  if c.1 then (.error .remoteFault, st)
  else
    match st.pulls.find? (fun q => q.number = n) with
    | some q => (.ok q, st)
    | none => (.error .notFound, st)

/-- `createPullRequest`: open a pull request, allocating a fresh number. -/
def createPullRequest (title head base body : String) (st : RemoteState) :
    Except GhError PullObj × RemoteState :=
  let c := st.consume
  let n := c.2.nextPr
  let st := c.2.log (.prE n)
  if c.1 then (.error .remoteFault, st)
  else
    let q : PullObj := ⟨n, head, base, title, body⟩
    (.ok q, { st with pulls := st.pulls ++ [q], nextPr := n + 1 })

/-- `getMe`: the authenticated user's login. -/
def getMe (st : RemoteState) : Except GhError String × RemoteState :=
  let c := st.consume
  let st := c.2.log .getMeE
  if c.1 then (.error .remoteFault, st)
  else (.ok st.authUser, st)

/-- `createOrUpdateFileInRepo`: the single-file contents PUT.  The write
is recorded in the trace with its branch, path and content; the backend's
resulting convenience commit is not inspected by any handler. -/
def createOrUpdateFileInRepo (targetPath content message branch : String)
    (sha : Option Nat) (st : RemoteState) : Except GhError Unit × RemoteState :=
  let c := st.consume
  let st := c.2.log (.putE branch targetPath content)
  if c.1 then (.error .remoteFault, st)
  else (.ok (), st)

/-- What the contents GET returns: a single file (with id and decoded
content) or a directory listing.  The source's `getContents` wrapper
turns a 404 into an empty listing. -/
inductive ContentsResp where
  | file (sha : Nat) (content : String)
  | listing (entries : List String)
deriving Repr, DecidableEq

/-- Resolve the content of a path on a branch: head ref → commit → tree →
path binding → blob. -/
def contentLookup (st : RemoteState) (branch targetPath : String) : Option (Nat × String) :=
  match lookupS st.refs ("heads/" ++ branch) with
  | none => none
  | some head =>
    match lookupA st.commits head with
    | none => none
    | some cobj =>
      match lookupA st.trees cobj.treeSha with
      | none => none
      | some entries =>
        match resolve st.trees entries (splitPath targetPath) with
        | some e =>
          if e.type = "blob" then
            match lookupA st.blobs e.sha with
            | some content => some (e.sha, content)
            | none => none
          else none
        | none => none

/-- `getContents`: the source wrapper returns the file (or listing) on
success and catches a 404, returning an empty array "for consistency";
every other error is re-thrown. -/
def getContents (targetPath branch : String) (st : RemoteState) :
    Except GhError ContentsResp × RemoteState :=
  let c := st.consume
  let st := c.2.log .readE
  if c.1 then (.error .remoteFault, st)
  else
    match contentLookup st branch targetPath with
    | some fc => (.ok (.file fc.1 fc.2), st)
    | none => (.ok (.listing []), st)

/-! ### Frontmatter author injection (src/utils/frontmatterUtils.ts) -/

/-- The whitespace class of the source's regexes, for the characters that
occur in markdown content. -/
def isWsChar (c : Char) : Bool :=
  c = ' ' ∨ c = '\t' ∨ c = '\n' ∨ c = '\r' ∨ c = '\x0b' ∨ c = '\x0c'

/-- JS `String.prototype.trim` (over the regex whitespace class). -/
def strTrim (s : String) : String :=
  String.mk (((s.data.dropWhile isWsChar).reverse.dropWhile isWsChar).reverse)

/-- End positions (greedy first) at which `\s*\n` anchored at the head of
`l` can stop. -/
def wsNlEnds (l : List Char) : List Nat :=
  ((List.range (l.length + 1)).filter
    (fun p => p != 0 && (l.take (p - 1)).all isWsChar && (l.drop (p - 1)).head? == some '\n')).reverse

/-- Match the tail of `/^---\s*\n([\s\S]*?)\n---\s*\n/` after the opening
dashes: greedy `\s*\n`, lazy capture, `\n---`, greedy `\s*\n`.  Returns
the captured block and the remainder after the whole match. -/
def fmTail (l : List Char) : Option (List Char × List Char) :=
  (wsNlEnds l).findSome? (fun a =>
    let l₁ := l.drop a
    (List.range (l₁.length + 1)).findSome? (fun q =>
      let rest := l₁.drop q
      if rest.take 4 = ['\n', '-', '-', '-'] then
        match (wsNlEnds (rest.drop 4)).head? with
        | some d => some (l₁.take q, (rest.drop 4).drop d)
        | none => none
      else none))

/-- `replace(/^['"]|['"]$/g, "")`: strip one leading and one trailing
quote. -/
def stripQuotes (s : String) : String :=
  let isQ : Char → Bool := fun c => c = '"' ∨ c = '\''
  let l := s.data
  let l₁ := match l with
    | c :: rest => if isQ c then rest else l
    | [] => []
  let l₂ := match l₁.getLast? with
    | some c => if isQ c then l₁.dropLast else l₁
    | none => l₁
  String.mk l₂

/-- Body of a JSON string literal (common escapes). -/
def jsonStringBody (fuel : Nat) (l : List Char) (acc : List Char) :
    Option (String × List Char) :=
  match fuel, l with
  | 0, _ => none
  | _, [] => none
  | fuel + 1, c :: rest =>
    if c = '"' then some (String.mk acc.reverse, rest)
    else if c = '\\' then
      match rest with
      | [] => none
      | e :: rest₂ =>
        let d : Option Char :=
          if e = '"' then some '"'
          else if e = '\\' then some '\\'
          else if e = '/' then some '/'
          else if e = 'n' then some '\n'
          else if e = 't' then some '\t'
          else if e = 'r' then some '\r'
          else if e = 'b' then some '\x08'
          else if e = 'f' then some '\x0c'
          else none
        match d with
        | some dc => jsonStringBody fuel rest₂ (dc :: acc)
        | none => none
    else jsonStringBody fuel rest (c :: acc)

/-- Items of a JSON array of strings, after the opening bracket. -/
def jsonArrayItems (fuel : Nat) (l : List Char) (acc : List String) :
    Option (List String × List Char) :=
  match fuel with
  | 0 => none
  | fuel + 1 =>
    match l.dropWhile isWsChar with
    | '"' :: rest =>
      match jsonStringBody (rest.length + 1) rest [] with
      | none => none
      | some (s, rest₂) =>
        match rest₂.dropWhile isWsChar with
        | ',' :: rest₃ => jsonArrayItems fuel rest₃ (acc ++ [s])
        | ']' :: rest₃ => some (acc ++ [s], rest₃)
        | _ => none
    | _ => none

/-- `JSON.parse` restricted to the shape the authors field carries: a
JSON array of strings.  Any other input fails, sending the caller to the
same single-author fallback the source uses for a parse failure or a
non-array parse. -/
def parseJsonStringArray (s : String) : Option (List String) :=
  match s.data.dropWhile isWsChar with
  | '[' :: rest =>
    match rest.dropWhile isWsChar with
    | ']' :: rest₂ => if rest₂.dropWhile isWsChar = [] then some [] else none
    | _ =>
      match jsonArrayItems (rest.length + 1) rest [] with
      | some (items, rest₂) => if rest₂.dropWhile isWsChar = [] then some items else none
      | none => none
  | _ => none

/-- `JSON.stringify` escaping of one string (common characters). -/
def jsonEscape (s : String) : String :=
  String.mk (s.data.foldr (fun c acc =>
    if c = '"' then '\\' :: '"' :: acc
    else if c = '\\' then '\\' :: '\\' :: acc
    else if c = '\n' then '\\' :: 'n' :: acc
    else if c = '\t' then '\\' :: 't' :: acc
    else if c = '\r' then '\\' :: 'r' :: acc
    else c :: acc) [])

/-- `JSON.stringify` of an array of strings. -/
def jsonStringifyArr (xs : List String) : String :=
  "[" ++ strIntercalate "," (xs.map (fun s => "\"" ++ jsonEscape s ++ "\"")) ++ "]"

/-- src/utils/frontmatterUtils.ts `injectAuthorIntoFrontmatter`: parse
the frontmatter block and add `username` to the `authors` field,
creating the field or the whole block when missing. -/
def injectAuthorIntoFrontmatter (content username : String) : String :=
  let noFm := "---\nauthors: [\"" ++ username ++ "\"]\n---\n\n" ++ content
  match content.data with
  | '-' :: '-' :: '-' :: t =>
    match fmTail t with
    | some br =>
      let block := String.mk br.1
      let contentAfter := String.mk br.2
      let lines := strSplitChar '\n' block
      let idx := lines.findIdx? (fun l => strStartsWith l "authors:")
      let currentAuthors : List String :=
        match idx with
        | some i =>
          let cap := String.mk (((lines.getD i "").data.drop 8).dropWhile isWsChar)
          if cap = "" then []
          else
            let trimmed := strTrim cap
            match parseJsonStringArray trimmed with
            | some arr => arr
            | none => [stripQuotes trimmed]
        | none => []
      let updatedAuthors :=
        if currentAuthors.contains username then currentAuthors
        else currentAuthors ++ [username]
      let updatedLine := "authors: " ++ jsonStringifyArr updatedAuthors
      let block₂ :=
        match idx with
        | some i => strIntercalate "\n"
            (lines.mapIdx (fun j l => if j = i then updatedLine else l))
        | none => block ++ "\n" ++ updatedLine
      "---\n" ++ block₂ ++ "\n---\n" ++ contentAfter
    | none => noFm
  | _ => noFm

/-! ### Slug generation (shared regex pipeline of the handlers) -/

mutual
/-- `replace(/\s+/g, "-")`: each maximal whitespace run becomes one dash. -/
def collapseWs : List Char → List Char
  | [] => []
  | c :: rest => if isWsChar c then '-' :: skipWsRun rest else c :: collapseWs rest

/-- Consume the rest of a whitespace run. -/
def skipWsRun : List Char → List Char
  | [] => []
  | c :: rest => if isWsChar c then skipWsRun rest else c :: collapseWs rest
end

/-- The slug pipeline used by the handlers: lower-case, whitespace runs
to dashes, strip characters outside [a-z0-9_-], first 50 characters. -/
def slugify (s : String) : String :=
  let dashed := collapseWs (s.data.map Char.toLower)
  let kept := dashed.filter (fun c =>
    ('a' ≤ c ∧ c ≤ 'z') ∨ ('0' ≤ c ∧ c ≤ '9') ∨ c = '_' ∨ c = '-')
  String.mk (kept.take 50)

/-- `content.match(/^#\s+(.*)/m)`: the first line beginning with a hash
and whitespace; the capture is the rest of the line after the whitespace
run. -/
def extractTitle (content : String) : Option String :=
  (strSplitChar '\n' content).findSome? (fun l =>
    match l.data with
    | '#' :: c :: rest =>
      if isWsChar c then some (String.mk (rest.dropWhile isWsChar)) else none
    | _ => none)

/-- The runbook filename slug: from the first markdown heading when one
exists (a JS truthiness check skips an empty capture), otherwise the
timestamped fallback. -/
def genSlug (contentToUse : String) (now : Nat) : String :=
  match extractTitle contentToUse with
  | some tt => if tt = "" then "runbook-entry-" ++ toString now else slugify tt
  | none => "runbook-entry-" ++ toString now

/-- JS `a || b` for an optional string argument (empty string is falsy). -/
def orDefault (o : Option String) (d : String) : String :=
  match o with
  | some s => if s = "" then d else s
  | none => d

/-- Map a typed failure to the text interpolated into the handlers' error
messages. -/
def ghErrMsg : GhError → String
  | .notFound => "Not Found"
  | .conflict => "Reference update failed"
  | .remoteFault => "Request failed"
  | .validation m => m

/-! ### sync_prompt (src/handlers/handleSyncPrompt.ts) -/

/-- Raw arguments of the sync_prompt tool; `none` stands for an absent
field, which the zod schema rejects. -/
structure SyncPromptArgs where
  projectName : Option String
  promptName : Option String
  promptContent : Option String
deriving Repr, DecidableEq

/-- `validateArgs(SyncPromptArgsSchema, args)`
(src/utils/validationUtils.ts): the schema requires the three string
fields and nothing more; a missing field throws a validation error. -/
def validateSyncPromptArgs (a : SyncPromptArgs) :
    Except GhError (String × String × String) :=
  match a.projectName, a.promptName, a.promptContent with
  | some pn, some pm, some pc => .ok (pn, pm, pc)
  | _, _, _ => .error (.validation "Validation failed: Required")

/-- The flat result object of handleSyncPrompt. -/
structure SyncPromptResult where
  status : String
  github_path : Option String
  github_url : Option String
  commit_sha : Option Nat
  message : String
deriving Repr, DecidableEq

/-- The catch-all error result of handleSyncPrompt. -/
def syncPromptErr (e : GhError) : SyncPromptResult :=
  { status := "error", github_path := none, github_url := none, commit_sha := none,
    message := "Failed to sync prompt: " ++ ghErrMsg e }

/-- src/handlers/handleSyncPrompt.ts: validate, read the existing file's
id, then blob → tree (on the base tree) → commit → ref update on `main`
of dwarvesf/prompt-db. -/
def handleSyncPrompt (args : SyncPromptArgs) (st₀ : RemoteState) :
    SyncPromptResult × RemoteState :=
  match validateSyncPromptArgs args with
  | .error e => (syncPromptErr e, st₀)
  | .ok (projectName, promptName, promptContent) =>
    let targetFilePath := posixJoin ["synced_prompts", projectName, promptName ++ ".md"]
    match getContents targetFilePath "main" st₀ with
    | (.error e, st) => (syncPromptErr e, st)
    | (.ok resp, st) =>
      let existingFileSha : Option Nat :=
        match resp with
        | .file sha _ => some sha
        | .listing _ => none
      match getRef "heads/main" st with
      | (.error e, st) => (syncPromptErr e, st)
      | (.ok latestCommitSha, st) =>
        match getCommit latestCommitSha st with
        | (.error e, st) => (syncPromptErr e, st)
        | (.ok latestCommit, st) =>
          match createBlob promptContent st with
          | (.error e, st) => (syncPromptErr e, st)
          | (.ok blobSha, st) =>
            match createTree [⟨targetFilePath, "100644", "blob", blobSha⟩]
                (some latestCommit.treeSha) st with
            | (.error e, st) => (syncPromptErr e, st)
            | (.ok newTreeSha, st) =>
              let commitMessage :=
                if existingFileSha.isSome then
                  "sync: update prompt " ++ projectName ++ "/" ++ promptName
                else "sync: add new prompt " ++ projectName ++ "/" ++ promptName
              match createCommit commitMessage newTreeSha latestCommitSha st with
              | (.error e, st) => (syncPromptErr e, st)
              | (.ok newCommitSha, st) =>
                match updateRef "heads/main" newCommitSha st with
                | (.error e, st) => (syncPromptErr e, st)
                | (.ok _, st) =>
                  ({ status := "success",
                     github_path := some targetFilePath,
                     github_url := some ("https://github.com/dwarvesf/prompt-db/blob/main/"
                       ++ targetFilePath),
                     commit_sha := some newCommitSha,
                     message :=
                       if existingFileSha.isSome then
                         "Successfully updated prompt " ++ projectName ++ "/" ++ promptName
                       else
                         "Successfully synced prompt " ++ projectName ++ "/" ++ promptName }, st)

/-! ### save_and_upload_chat_log, tree-sync variant (src/handlers.ts) -/

/-- The flat result object of the tree-sync chat-log handler. -/
structure ChatSyncResult where
  status : String
  message : String
  commit_sha : Option Nat
  commit_url : Option String
deriving Repr, DecidableEq

/-- The catch-all error result of the chat-log sync. -/
def chatLogErr (e : GhError) : ChatSyncResult :=
  { status := "error",
    message := "An error occurred during chat log sync: " ++ ghErrMsg e,
    commit_sha := none, commit_url := none }

/-- The handler's per-file loop: create a blob for each local chat file
and collect the new tree items at their remote paths. -/
def createBlobsLoop (remoteChatDir : String) :
    List (String × String) → RemoteState → Except GhError (List TreeEntry) × RemoteState
  | [], st => (.ok [], st)
  | f :: rest, st =>
    match createBlob f.2 st with
    | (.error e, st) => (.error e, st)
    | (.ok sha, st) =>
      match createBlobsLoop remoteChatDir rest st with
      | (.error e, st) => (.error e, st)
      | (.ok items, st) =>
        (.ok (⟨posixJoin [remoteChatDir, f.1], "100644", "blob", sha⟩ :: items), st)

/-- src/handlers.ts `handleSaveAndUploadChatLog`: sync the local `.chat`
files into `project/user/.chat/` of dwarvesf/prompt-log on `main` through
the git database API.  The local filesystem scaffolding is out of scope:
the caller hands over the project name and the listed `(filename,
content)` pairs. -/
def handleSaveAndUploadChatLog (projectName userId : String)
    (localFiles : List (String × String)) (st₀ : RemoteState) :
    ChatSyncResult × RemoteState :=
  let ref := "heads/main"
  let remoteChatDir := posixJoin [projectName, userId, ".chat"]
  let files := localFiles.filter (fun f => strEndsWith f.1 ".chat")
  if files.isEmpty then
    ({ status := "success", message := "No chat log files found locally to sync.",
       commit_sha := none, commit_url := none }, st₀)
  else
    match getRef ref st₀ with
    | (.error e, st) => (chatLogErr e, st)
    | (.ok latestCommitSha, st) =>
      match getCommit latestCommitSha st with
      | (.error e, st) => (chatLogErr e, st)
      | (.ok latestCommit, st) =>
        match getTree latestCommit.treeSha st with
        | (.error e, st) => (chatLogErr e, st)
        | (.ok baseTree, st) =>
          let filesToKeep := baseTree.filter
            (fun item => ! strStartsWith item.path (remoteChatDir ++ "/"))
          match createBlobsLoop remoteChatDir files st with
          | (.error e, st) => (chatLogErr e, st)
          | (.ok newFileItems, st) =>
            let newTreeItems := filesToKeep ++ newFileItems
            match createTree newTreeItems (some latestCommit.treeSha) st with
            | (.error e, st) => (chatLogErr e, st)
            | (.ok newTreeSha, st) =>
              let commitMessage := "Sync chat logs from " ++ projectName ++ " for " ++ userId
              match createCommit commitMessage newTreeSha latestCommitSha st with
              | (.error e, st) => (chatLogErr e, st)
              | (.ok newCommitSha, st) =>
                match updateRef ref newCommitSha st with
                | (.error e, st) => (chatLogErr e, st)
                | (.ok _, st) =>
                  ({ status := "success",
                     message := "Chat log sync complete. Committed changes to main.",
                     commit_sha := some newCommitSha,
                     commit_url := some ("https://github.com/dwarvesf/prompt-log/commit/"
                       ++ toString newCommitSha) }, st)

/-! ### suggest_runbook (src/handlers/handleSuggestRunbook.ts) -/

/-- Raw arguments of the suggest_runbook tool. -/
structure SuggestRunbookArgs where
  content : Option String
  target_folder : Option String
  filename_slug : Option String
  pr_number : Option Nat
  branch_name : Option String
  commit_message : Option String
  pr_title : Option String
  pr_body : Option String
deriving Repr, DecidableEq

/-- The target-folder allow list (enum of src/tools/suggestRunbook.ts). -/
def allowedFolders : List String :=
  ["technical-patterns", "operational-state-reporting", "human-escalation-protocols",
   "diagnostic-and-information-gathering", "automations", "action-policies-and-constraints"]

/-- The suggest_runbook argument schema: content and a listed
target_folder are required. -/
def validateSuggestRunbookArgs (a : SuggestRunbookArgs) :
    Except GhError (String × String) :=
  match a.content, a.target_folder with
  | some c, some tf =>
    if allowedFolders.contains tf then .ok (c, tf)
    else .error (.validation "Validation failed: Invalid enum value")
  | _, _ => .error (.validation "Validation failed: Required")

/-- The flat result object of the PR-opening handlers. -/
structure PrResult where
  status : String
  pr_number : Option Nat
  pr_url : Option String
  message : String
deriving Repr, DecidableEq

/-- The catch-all error result of handleSuggestRunbook. -/
def suggestErr (e : GhError) : PrResult :=
  { status := "error", pr_number := none, pr_url := none,
    message := "Failed to suggest runbook entry: " ++ ghErrMsg e }

/-- The default body of a new runbook suggestion PR. -/
def defaultRunbookPrBody (target_folder : String) : String :=
  "This PR suggests a new runbook entry for the " ++ target_folder ++ " folder."

/-- src/handlers/handleSuggestRunbook.ts: validate, fetch the
authenticated user and inject it into the frontmatter, then either create
a branch, push the file and open a PR (no `pr_number` given), or fetch
the PR's head branch, read the existing file id and push the file there
(`pr_number` given).  `now` stands for `Date.now()`. -/
def handleSuggestRunbook (args : SuggestRunbookArgs) (now : Nat) (st₀ : RemoteState) :
    PrResult × RemoteState :=
  match validateSuggestRunbookArgs args with
  | .error e => (suggestErr e, st₀)
  | .ok (content, target_folder) =>
    match getMe st₀ with
    | (.error e, st) => (suggestErr e, st)
    | (.ok username, st) =>
      let contentToUse := injectAuthorIntoFrontmatter content username
      let finalFilenameSlug :=
        match args.filename_slug with
        | some s => if s = "" then genSlug contentToUse now else s
        | none => genSlug contentToUse now
      let targetFilePath := posixJoin [target_folder, finalFilenameSlug ++ ".md"]
      let finalCommitMessage :=
        orDefault args.commit_message ("Add/update runbook entry: " ++ finalFilenameSlug)
      match args.pr_number with
      | none =>
        let headBranch := orDefault args.branch_name ("suggest-runbook-" ++ toString now)
        match createBranch headBranch "main" st with
        | (.error e, st) => (suggestErr e, st)
        | (.ok _, st) =>
          match createOrUpdateFileInRepo targetFilePath contentToUse finalCommitMessage
              headBranch none st with
          | (.error e, st) => (suggestErr e, st)
          | (.ok _, st) =>
            let finalPrTitle :=
              orDefault args.pr_title ("feat: Add runbook entry for " ++ finalFilenameSlug)
            let finalPrBody := orDefault args.pr_body (defaultRunbookPrBody target_folder)
            match createPullRequest finalPrTitle headBranch "main" finalPrBody st with
            | (.error e, st) => (suggestErr e, st)
            | (.ok newPr, st) =>
              ({ status := "success", pr_number := some newPr.number,
                 pr_url := some ("https://github.com/dwarvesf/runbook/pull/"
                   ++ toString newPr.number),
                 message := "Successfully created PR #" ++ toString newPr.number }, st)
      | some n =>
        match getPullRequest n st with
        | (.error e, st) => (suggestErr e, st)
        | (.ok pr, st) =>
          let headBranch := pr.headRef
          match getContents targetFilePath headBranch st with
          | (.error e, st) => (suggestErr e, st)
          | (.ok resp, st) =>
            let existingFileSha : Option Nat :=
              match resp with
              | .file sha _ => some sha
              | .listing _ => none
            match createOrUpdateFileInRepo targetFilePath contentToUse finalCommitMessage
                headBranch existingFileSha st with
            | (.error e, st) => (suggestErr e, st)
            | (.ok _, st) =>
              ({ status := "success", pr_number := some n,
                 pr_url := some ("https://github.com/dwarvesf/runbook/pull/" ++ toString n),
                 message := "Successfully updated PR #" ++ toString n }, st)

/-! ### create_spec (src/handlers/handleCreateSpec.ts) -/

/-- Raw arguments of the create_spec tool. -/
structure CreateSpecArgs where
  spec_name : Option String
  content : Option String
  branch_name : Option String
  commit_message : Option String
  pr_title : Option String
  pr_body : Option String
deriving Repr, DecidableEq

/-- The create_spec argument schema: spec_name and content are required. -/
def validateCreateSpecArgs (a : CreateSpecArgs) : Except GhError (String × String) :=
  match a.spec_name, a.content with
  | some sn, some c => .ok (sn, c)
  | _, _ => .error (.validation "Validation failed: Required")

/-- The catch-all error result of handleCreateSpec. -/
def createSpecErr (e : GhError) : PrResult :=
  { status := "error", pr_number := none, pr_url := none,
    message := "Failed to create spec file and open PR: " ++ ghErrMsg e }

/-- src/handlers/handleCreateSpec.ts: validate, fetch the authenticated
user and inject it into the frontmatter, create a branch off `main`, then
blob → tree → commit → ref update on the new branch and open a PR against
inloopstudio/inloop-private-docs. -/
def handleCreateSpec (args : CreateSpecArgs) (st₀ : RemoteState) :
    PrResult × RemoteState :=
  match validateCreateSpecArgs args with
  | .error e => (createSpecErr e, st₀)
  | .ok (spec_name, content) =>
    match getMe st₀ with
    | (.error e, st) => (createSpecErr e, st)
    | (.ok username, st) =>
      let contentToUse := injectAuthorIntoFrontmatter content username
      let slug := slugify spec_name
      let newFilename := slug ++ ".md"
      let targetFilePath :=
        posixJoin ["src/content/docs/product_engineering/specs", newFilename]
      let headBranch := orDefault args.branch_name ("docs/add-spec-" ++ slug)
      match createBranch headBranch "main" st with
      | (.error e, st) => (createSpecErr e, st)
      | (.ok _, st) =>
        match getRef "heads/main" st with
        | (.error e, st) => (createSpecErr e, st)
        | (.ok refSha, st) =>
          match getCommit refSha st with
          | (.error e, st) => (createSpecErr e, st)
          | (.ok baseCommit, st) =>
            match createBlob contentToUse st with
            | (.error e, st) => (createSpecErr e, st)
            | (.ok blobSha, st) =>
              match createTree [⟨targetFilePath, "100644", "blob", blobSha⟩]
                  (some baseCommit.treeSha) st with
              | (.error e, st) => (createSpecErr e, st)
              | (.ok treeSha, st) =>
                let finalCommitMessage :=
                  orDefault args.commit_message ("docs: add spec " ++ newFilename)
                match createCommit finalCommitMessage treeSha refSha st with
                | (.error e, st) => (createSpecErr e, st)
                | (.ok newCommitSha, st) =>
                  match updateRef ("heads/" ++ headBranch) newCommitSha st with
                  | (.error e, st) => (createSpecErr e, st)
                  | (.ok _, st) =>
                    let finalPrTitle := orDefault args.pr_title ("docs: Add spec " ++ newFilename)
                    let finalPrBody := orDefault args.pr_body
                      ("This PR suggests a new specification document:\n\n" ++ contentToUse
                        ++ "\n\nThis entry was created using the mcp-playbook tool.")
                    match createPullRequest finalPrTitle headBranch "main" finalPrBody st with
                    | (.error e, st) => (createSpecErr e, st)
                    | (.ok newPr, st) =>
                      ({ status := "success", pr_number := some newPr.number,
                         pr_url := some ("https://github.com/inloopstudio/inloop-private-docs/pull/"
                           ++ toString newPr.number),
                         message := "Successfully created spec file and opened PR #"
                           ++ toString newPr.number }, st)

/-! ### save_and_upload_chat_log, single-file PUT variant
(src/handlers/handleSaveAndUploadChatLog.ts) -/

/-- The outcome of the single upload PUT of the current chat-log handler. -/
inductive UploadOutcome where
  | okResp
  | httpFail (statusText errBody : String)
  | throws (msg : String)
deriving Repr, DecidableEq

/-- The abstracted collaborators of the current chat-log handler: the
editor type argument, whether the parser produced usable history, whether
the local filesystem save throws, whether the token is configured, and
the upload outcome. -/
structure SaveUploadEnv where
  editorType : String
  historyFound : Bool
  localSaveThrows : Bool
  tokenPresent : Bool
  upload : UploadOutcome
deriving Repr, DecidableEq

/-- The status-and-message part of the current handler's result. -/
structure UploadResult where
  status : String
  message : String
deriving Repr, DecidableEq

/-- The result-shaping control flow of
src/handlers/handleSaveAndUploadChatLog.ts: every return branch of the
handler with the status string it produces.  Parser, filesystem and HTTP
effects are abstracted into the environment record; the branch structure
and status strings are the source's. -/
def saveAndUploadChatLogStatus (env : SaveUploadEnv) : UploadResult :=
  if env.editorType ≠ "cursor" ∧ env.editorType ≠ "zed" ∧ env.editorType ≠ "cline" then
    { status := "error", message := "Unsupported editor type: " ++ env.editorType }
  else if ¬ env.historyFound then
    { status := "error",
      message := "Could not retrieve or found no relevant conversation history." }
  else if env.localSaveThrows then
    { status := "error", message := "An unexpected error occurred" }
  else if ¬ env.tokenPresent then
    { status := "success",
      message := "Chat log saved locally. GitHub upload skipped due to missing token." }
  else
    match env.upload with
    | .okResp =>
      { status := "success",
        message := "Chat log saved locally and uploaded to GitHub using standardized path." }
    | .httpFail stx body =>
      { status := "partial_success",
        message := "Chat log saved locally, but GitHub upload failed: " ++ stx
          ++ ". Error: " ++ body }
    | .throws m =>
      { status := "error", message := "An unexpected error occurred: " ++ m }

/-! ### search_runbook (src/handlers/handleSearchRunbook.ts, the
concurrent variant reporting total_count) -/

/-- One item of the code-search response. -/
structure SearchItem where
  path : String
  fragment : Option String
  html_url : String
deriving Repr, DecidableEq

/-- The code-search response: total match count and the items. -/
structure SearchResults where
  total_count : Nat
  items : List SearchItem
deriving Repr, DecidableEq

/-- The outcome of the per-item content fetch. -/
inductive FetchOutcome where
  | fileContent (s : String)
  | notFile
  | fetchError (msg : String)
deriving Repr, DecidableEq

/-- One processed search result. -/
structure ProcessedResult where
  path : String
  snippet : String
  full_content : Option String
  url : String
  message : Option String
deriving Repr, DecidableEq

/-- The result object of handleSearchRunbook. -/
structure SearchRunbookResult where
  results : List ProcessedResult
  total_count : Option Nat
  message : String
deriving Repr, DecidableEq

/-- The per-item mapper of handleSearchRunbook: fetch the file content and
return it, or a per-item failure note. -/
def processItem (fetch : String → FetchOutcome) (item : SearchItem) : ProcessedResult :=
  let snippet := item.fragment.getD "No snippet available"
  match fetch item.path with
  | .fileContent c =>
    { path := item.path, snippet := snippet, full_content := some c,
      url := item.html_url, message := none }
  | .notFile =>
    { path := item.path, snippet := snippet, full_content := none,
      url := item.html_url,
      message := some "Could not fetch full content. Unexpected response type or missing content." }
  | .fetchError m =>
    { path := item.path, snippet := snippet, full_content := none,
      url := item.html_url, message := some ("Error fetching content: " ++ m) }

/-- src/handlers/handleSearchRunbook.ts: slice the search response to the
first five items, fetch each item's content concurrently, and report the
processed results together with the backend's total match count. -/
def handleSearchRunbook (fetch : String → FetchOutcome)
    (searchOutcome : Except String SearchResults) : SearchRunbookResult :=
  match searchOutcome with
  | .error m =>
    { results := [], total_count := none,
      message := "An error occurred during runbook search: " ++ m }
  | .ok searchResults =>
    let itemsToProcess := searchResults.items.take 5
    let processedResults := itemsToProcess.map (processItem fetch)
    { results := processedResults, total_count := some searchResults.total_count,
      message := "Found and processed " ++ toString processedResults.length
        ++ " results out of " ++ toString searchResults.total_count ++ " total." }

/-! ### Invariants and observation helpers -/

/-- All entry ids of a one-level entry list lie below `n`. -/
def EntriesLt (entries : List TreeEntry) (n : Nat) : Prop :=
  ∀ e ∈ entries, e.sha < n

/-- Every stored tree id, and every id referenced from a stored tree,
lies below the allocation counter. -/
def TreesLt (st : RemoteState) : Prop :=
  ∀ p ∈ st.trees, p.1 < st.nextSha ∧ EntriesLt p.2 st.nextSha

/-- Well-formedness of a remote state: every allocated id is below the
allocation counter and every pull number below the pull counter. -/
def WF (st : RemoteState) : Prop :=
  (∀ p ∈ st.blobs, p.1 < st.nextSha) ∧
  TreesLt st ∧
  (∀ p ∈ st.commits, p.1 < st.nextSha) ∧
  (∀ p ∈ st.refs, p.2 < st.nextSha) ∧
  (∀ q ∈ st.pulls, q.number < st.nextPr)

/-- Two segment paths neither of which leads into the other (in
particular they are distinct and neither is empty). -/
def SegDisjoint (a b : List String) : Prop :=
  a ≠ b.take a.length ∧ b ≠ a.take b.length

instance : DecidablePred (fun ab : List String × List String => SegDisjoint ab.1 ab.2) :=
  fun _ => by unfold SegDisjoint; infer_instance

/-- The document bodies pushed to the remote in a trace: contents-API PUT
bodies and git blob contents. -/
def uploadedBodies (evs : List Ev) : List String :=
  evs.filterMap (fun e =>
    match e with
    | .putE _ _ c => some c
    | .blobE c => some c
    | _ => none)

/-- The branches targeted by contents-API PUT calls in a trace. -/
def putBranches (evs : List Ev) : List String :=
  evs.filterMap (fun e =>
    match e with
    | .putE b _ _ => some b
    | _ => none)

/-- Whether some mutating call occurs before the first getMe call of a
trace. -/
def writesBeforeGetMe : List Ev → Bool
  | [] => false
  | e :: rest =>
    if e = .getMeE then false
    else if e.isWrite then true
    else writesBeforeGetMe rest

/-- Decidability of segment-path disjointness, for concrete checks. -/
instance segDisjointDecidable (a b : List String) : Decidable (SegDisjoint a b) := by
  unfold SegDisjoint
  infer_instance

/-- A small concrete remote: `main` points at commit 10 whose root tree 0
holds `proj/` (tree 1) and `README.md`; `proj/user/.chat/old.chat`
resolves to blob 4. -/
def cexState : RemoteState :=
  { blobs := [(4, "old content")],
    trees := [(0, [⟨"proj", "040000", "tree", 1⟩, ⟨"README.md", "100644", "blob", 9⟩]),
              (1, [⟨"user", "040000", "tree", 2⟩]),
              (2, [⟨".chat", "040000", "tree", 3⟩]),
              (3, [⟨"old.chat", "100644", "blob", 4⟩])],
    commits := [(10, ⟨0, 5, "init"⟩)],
    refs := [("heads/main", 10)],
    pulls := [],
    nextSha := 20,
    nextPr := 7,
    authUser := "bob",
    failures := [],
    events := [] }

/-- Concrete suggest_runbook arguments for witness runs. -/
def cexSuggestArgs : SuggestRunbookArgs :=
  ⟨some "body", some "automations", some "slug", none, none, none, none, none⟩

/-- Concrete create_spec arguments for witness runs. -/
def cexSpecArgs : CreateSpecArgs :=
  ⟨some "My Spec", some "content", none, none, none, none⟩

/-! ## Theorems -/

/-! ### Lookup and stamp basics -/

theorem lookupA_cons_self {α : Type} (l : List (Nat × α)) (k : Nat) (v : α) :
    lookupA ((k, v) :: l) k = some v := by
  simp [lookupA, List.find?_cons]

theorem lookupA_cons_ne {α : Type} (l : List (Nat × α)) {k k' : Nat} (v : α)
    (h : k' ≠ k) : lookupA ((k, v) :: l) k' = lookupA l k' := by
  simp [lookupA, List.find?_cons, Ne.symm h]

theorem lookupA_append_ge {α : Type} {l m : List (Nat × α)} {n k : Nat}
    (hl : ∀ p ∈ l, n ≤ p.1) (hk : k < n) : lookupA (l ++ m) k = lookupA m k := by
  unfold lookupA
  rw [List.find?_append]
  have hnone : l.find? (fun p => p.1 = k) = none := by
    rw [List.find?_eq_none]
    intro x hx
    have := hl x hx
    simp only [decide_eq_true_eq]
    omega
  rw [hnone]
  simp

theorem lookupA_mem {α : Type} {l : List (Nat × α)} {k : Nat} {v : α}
    (h : lookupA l k = some v) : (k, v) ∈ l := by
  unfold lookupA at h
  rcases hf : l.find? (fun p => p.1 = k) with _ | p
  · rw [hf] at h; simp at h
  · rw [hf] at h
    simp at h
    have hmem := List.mem_of_find?_eq_some hf
    have hp := List.find?_some hf
    simp at hp
    rcases p with ⟨k', v'⟩
    simp at hp h
    subst hp; subst h
    exact hmem

theorem lookupS_setS_self {l : List (String × Nat)} {k : String} {x : Nat} (v : Nat)
    (h : lookupS l k = some x) : lookupS (setS l k v) k = some v := by
  induction l with
  | nil => simp [lookupS] at h
  | cons a l ih =>
    rcases a with ⟨k', x'⟩
    by_cases hk : k' = k
    · subst hk
      simp [lookupS, setS, List.find?_cons]
    · simp [lookupS, setS, List.find?_cons, hk] at h ⊢
      have := ih (by simpa [lookupS] using h)
      simpa [lookupS, setS] using this

theorem setS_lt {l : List (String × Nat)} {k : String} {v n : Nat}
    (hl : ∀ p ∈ l, p.2 < n) (hv : v < n) : ∀ p ∈ setS l k v, p.2 < n := by
  intro p hp
  unfold setS at hp
  rcases List.mem_map.1 hp with ⟨q, hq, hmap⟩
  by_cases h : q.1 = k <;> simp [h] at hmap <;> subst hmap
  · simpa using hv
  · exact hl q hq

theorem stamp_fields (st : RemoteState) (e : Ev) :
    (st.stamp e).refs = st.refs ∧ (st.stamp e).trees = st.trees ∧
    (st.stamp e).blobs = st.blobs ∧ (st.stamp e).commits = st.commits ∧
    (st.stamp e).pulls = st.pulls ∧ (st.stamp e).nextSha = st.nextSha ∧
    (st.stamp e).nextPr = st.nextPr ∧ (st.stamp e).authUser = st.authUser ∧
    (st.stamp e).events = st.events ++ [e] := by
  simp [RemoteState.stamp]

/-! ### Primitive bookkeeping -/

theorem getRef_snd (r : String) (st : RemoteState) :
    (getRef r st).2 = st.stamp .readE := by
  unfold getRef RemoteState.consume RemoteState.log RemoteState.stamp
  cases hf : st.failures with
  | nil => simp [hf]; split <;> rfl
  | cons b rest => cases b <;> simp [hf] <;> split <;> rfl

theorem getRef_ok_lookup {r : String} {st st' : RemoteState} {v : Nat}
    (h : getRef r st = (.ok v, st')) : lookupS st.refs r = some v := by
  unfold getRef RemoteState.consume RemoteState.log at h
  cases hf : st.failures with
  | nil =>
    simp [hf] at h
    rcases hls : lookupS st.refs r with _ | w <;> rw [hls] at h <;> simp at h
    rw [h.1]
  | cons b rest =>
    cases b <;> simp [hf] at h
    rcases hls : lookupS st.refs r with _ | w <;> simp [hls] at h
    rw [h.1]

theorem getCommit_snd (sha : Nat) (st : RemoteState) :
    (getCommit sha st).2 = st.stamp .readE := by
  unfold getCommit RemoteState.consume RemoteState.log RemoteState.stamp
  cases hf : st.failures with
  | nil => simp [hf]; split <;> rfl
  | cons b rest => cases b <;> simp [hf] <;> split <;> rfl

theorem getCommit_ok_lookup {sha : Nat} {st st' : RemoteState} {obj : CommitObj}
    (h : getCommit sha st = (.ok obj, st')) : lookupA st.commits sha = some obj := by
  unfold getCommit RemoteState.consume RemoteState.log at h
  cases hf : st.failures with
  | nil =>
    simp [hf] at h
    rcases hls : lookupA st.commits sha with _ | w <;> rw [hls] at h <;> simp at h
    rw [h.1]
  | cons b rest =>
    cases b <;> simp [hf] at h
    rcases hls : lookupA st.commits sha with _ | w <;> simp [hls] at h
    rw [h.1]

theorem getTree_snd (sha : Nat) (st : RemoteState) :
    (getTree sha st).2 = st.stamp .readE := by
  unfold getTree RemoteState.consume RemoteState.log RemoteState.stamp
  cases hf : st.failures with
  | nil => simp [hf]; split <;> rfl
  | cons b rest => cases b <;> simp [hf] <;> split <;> rfl

theorem getTree_ok_lookup {sha : Nat} {st st' : RemoteState} {entries : List TreeEntry}
    (h : getTree sha st = (.ok entries, st')) : lookupA st.trees sha = some entries := by
  unfold getTree RemoteState.consume RemoteState.log at h
  cases hf : st.failures with
  | nil =>
    simp [hf] at h
    rcases hls : lookupA st.trees sha with _ | w <;> rw [hls] at h <;> simp at h
    rw [h.1]
  | cons b rest =>
    cases b <;> simp [hf] at h
    rcases hls : lookupA st.trees sha with _ | w <;> simp [hls] at h
    rw [h.1]

theorem getContents_snd (p b : String) (st : RemoteState) :
    (getContents p b st).2 = st.stamp .readE := by
  unfold getContents RemoteState.consume RemoteState.log RemoteState.stamp
  cases hf : st.failures with
  | nil => simp [hf]; split <;> rfl
  | cons bb rest => cases bb <;> simp [hf] <;> split <;> rfl

theorem getMe_snd (st : RemoteState) :
    (getMe st).2 = st.stamp .getMeE := by
  unfold getMe RemoteState.consume RemoteState.log RemoteState.stamp
  cases hf : st.failures with
  | nil => simp [hf]
  | cons b rest => cases b <;> simp [hf]

theorem getMe_ok_user {st st' : RemoteState} {u : String}
    (h : getMe st = (.ok u, st')) : u = st.authUser := by
  unfold getMe RemoteState.consume RemoteState.log at h
  cases hf : st.failures with
  | nil => simp [hf] at h; exact h.1.symm
  | cons b rest => cases b <;> simp [hf] at h; exact h.1.symm

theorem getPullRequest_snd (n : Nat) (st : RemoteState) :
    (getPullRequest n st).2 = st.stamp .readE := by
  unfold getPullRequest RemoteState.consume RemoteState.log RemoteState.stamp
  cases hf : st.failures with
  | nil => simp [hf]; split <;> rfl
  | cons b rest => cases b <;> simp [hf] <;> split <;> rfl

theorem getPullRequest_ok_find {n : Nat} {st st' : RemoteState} {q : PullObj}
    (h : getPullRequest n st = (.ok q, st')) :
    st.pulls.find? (fun x => x.number = n) = some q := by
  unfold getPullRequest RemoteState.consume RemoteState.log at h
  cases hf : st.failures with
  | nil =>
    simp [hf] at h
    rcases hls : st.pulls.find? (fun x => x.number = n) with _ | w <;> rw [hls] at h <;> simp at h
    rw [hls, h.1]
  | cons b rest =>
    cases b <;> simp [hf] at h
    rcases hls : st.pulls.find? (fun x => x.number = n) with _ | w <;> simp [hls] at h
    rw [hls, h.1]


/-! ### replaceEntry and resolve stability -/

theorem find?_map_replace_self {entries : List TreeEntry} {p : String} (m t : String) (s : Nat)
    (hany : entries.any (fun e => e.path = p)) :
    (entries.map (fun e => if e.path = p then ⟨p, m, t, s⟩ else e)).find?
      (fun e => e.path = p) = some ⟨p, m, t, s⟩ := by
  induction entries with
  | nil => simp at hany
  | cons e rest ih =>
    by_cases hp : e.path = p
    · rw [List.map_cons, if_pos hp, List.find?_cons_of_pos _ (by simp)]
    · have hrest : rest.any (fun e => e.path = p) := by
        rw [List.any_cons, Bool.or_eq_true] at hany
        rcases hany with h | h
        · exact absurd (of_decide_eq_true h) hp
        · exact h
      rw [List.map_cons, if_neg hp, List.find?_cons_of_neg _ (by simpa using hp)]
      exact ih hrest

theorem find?_map_replace_other (entries : List TreeEntry) (p m t : String) (s : Nat)
    {q : String} (hq : q ≠ p) :
    (entries.map (fun e => if e.path = p then ⟨p, m, t, s⟩ else e)).find?
      (fun e => e.path = q) = entries.find? (fun e => e.path = q) := by
  induction entries with
  | nil => simp
  | cons e rest ih =>
    by_cases hp : e.path = p
    · have h2 : ¬ (e.path = q) := by rw [hp]; exact Ne.symm hq
      rw [List.map_cons, if_pos hp,
        List.find?_cons_of_neg _ (by simpa using Ne.symm hq),
        List.find?_cons_of_neg _ (by simpa using h2)]
      exact ih
    · rw [List.map_cons, if_neg hp]
      by_cases heq : e.path = q
      · rw [List.find?_cons_of_pos _ (by simpa using heq),
          List.find?_cons_of_pos _ (by simpa using heq)]
      · rw [List.find?_cons_of_neg _ (by simpa using heq),
          List.find?_cons_of_neg _ (by simpa using heq)]
        exact ih

theorem replaceEntry_find_self (entries : List TreeEntry) (p m t : String) (s : Nat) :
    (replaceEntry entries p m t s).find? (fun e => e.path = p) =
      some ⟨p, m, t, s⟩ := by
  unfold replaceEntry
  by_cases hany : entries.any (fun e => e.path = p)
  · rw [if_pos hany]
    exact find?_map_replace_self m t s hany
  · rw [if_neg hany]
    rw [List.find?_append]
    have hnone : entries.find? (fun e => e.path = p) = none := by
      rw [List.find?_eq_none]
      intro x hx hc
      simp only [List.any_eq_true] at hany
      exact hany ⟨x, hx, hc⟩
    rw [hnone]
    simp [List.find?_cons]

theorem replaceEntry_find_other (entries : List TreeEntry) (p m t : String) (s : Nat)
    {q : String} (hq : q ≠ p) :
    (replaceEntry entries p m t s).find? (fun e => e.path = q) =
      entries.find? (fun e => e.path = q) := by
  unfold replaceEntry
  by_cases hany : entries.any (fun e => e.path = p)
  · rw [if_pos hany]
    exact find?_map_replace_other entries p m t s hq
  · rw [if_neg hany]
    rw [List.find?_append]
    have hnone : (([⟨p, m, t, s⟩] : List TreeEntry)).find? (fun e => e.path = q) = none := by
      simp [List.find?_cons, Ne.symm hq]
    rw [hnone]
    cases entries.find? (fun e => e.path = q) <;> rfl

theorem mem_replaceEntry {entries : List TreeEntry} {p m t : String} {s : Nat} {x : TreeEntry}
    (hx : x ∈ replaceEntry entries p m t s) : x ∈ entries ∨ x = ⟨p, m, t, s⟩ := by
  unfold replaceEntry at hx
  by_cases hany : entries.any (fun e => e.path = p)
  · rw [if_pos hany] at hx
    rcases List.mem_map.1 hx with ⟨e, he, hmap⟩
    by_cases hp : e.path = p
    · right; rw [← hmap, if_pos hp]
    · left; rw [← hmap, if_neg hp]; exact he
  · rw [if_neg hany] at hx
    simpa using hx

theorem resolve_append_ge {l store : List (Nat × List TreeEntry)} {n : Nat}
    (hl : ∀ p ∈ l, n ≤ p.1)
    (hstore : ∀ p ∈ store, p.1 < n ∧ EntriesLt p.2 n) :
    ∀ segs entries, EntriesLt entries n →
      resolve (l ++ store) entries segs = resolve store entries segs := by
  intro segs
  induction segs with
  | nil => intro entries _; rfl
  | cons p rest ih =>
    intro entries hE
    unfold resolve
    cases hf : entries.find? (fun e => e.path = p) with
    | none => rfl
    | some e =>
      cases rest with
      | nil => rfl
      | cons q rest' =>
        by_cases ht : e.type = "tree"
        · simp only [ht, if_true]
          have hesha : e.sha < n := hE e (List.mem_of_find?_eq_some hf)
          rw [lookupA_append_ge hl hesha]
          cases hc : lookupA store e.sha with
          | none => rfl
          | some child =>
            have hchild : EntriesLt child n := (hstore _ (lookupA_mem hc)).2
            exact ih child hchild
        · simp only [ht, if_false]

/-! ### insertSegs: state evolution, well-formedness, hit and frame -/

theorem insertSegs_state (segs : List String) :
    ∀ (st : RemoteState) (entries : List TreeEntry) (m t : String) (s : Nat)
      {es' : List TreeEntry} {st' : RemoteState},
      insertSegs st entries segs m t s = (es', st') →
      st'.blobs = st.blobs ∧ st'.commits = st.commits ∧ st'.refs = st.refs ∧
      st'.pulls = st.pulls ∧ st'.nextPr = st.nextPr ∧ st'.authUser = st.authUser ∧
      st'.events = st.events ∧ st'.failures = st.failures ∧
      st.nextSha ≤ st'.nextSha ∧
      ∃ l, st'.trees = l ++ st.trees ∧ ∀ p ∈ l, st.nextSha ≤ p.1 ∧ p.1 < st'.nextSha := by
  induction segs with
  | nil =>
    intro st entries m t s es' st' h
    unfold insertSegs at h
    simp only [Prod.mk.injEq] at h
    obtain ⟨h1, h2⟩ := h
    subst h2
    exact ⟨rfl, rfl, rfl, rfl, rfl, rfl, rfl, rfl, le_refl _, [], by simp, by simp⟩
  | cons p tail ih =>
    cases tail with
    | nil =>
      intro st entries m t s es' st' h
      unfold insertSegs at h
      simp only [Prod.mk.injEq] at h
      obtain ⟨h1, h2⟩ := h
      subst h2
      exact ⟨rfl, rfl, rfl, rfl, rfl, rfl, rfl, rfl, le_refl _, [], by simp, by simp⟩
    | cons q rest =>
      intro st entries m t s es' st' h
      unfold insertSegs at h
      generalize hCE : (match entries.find? (fun e => e.path = p) with
        | some e => if e.type = "tree" then (lookupA st.trees e.sha).getD [] else []
        | none => []) = CE at h
      rcases hr : insertSegs st CE (q :: rest) m t s with ⟨child, stR⟩
      simp only [hr, Prod.mk.injEq] at h
      obtain ⟨h1, h2⟩ := h
      subst h1
      subst h2
      obtain ⟨hb, hc, hrf, hp2, hnp, hau, hev, hfl, hle, l, htr, hbound⟩ := ih st CE m t s hr
      refine ⟨hb, hc, hrf, hp2, hnp, hau, hev, hfl, ?_, (stR.nextSha, child) :: l, ?_, ?_⟩
      · simp only []
        omega
      · simp [htr]
      · intro pr hpr
        rcases List.mem_cons.1 hpr with h' | h'
        · subst h'
          exact ⟨hle, Nat.lt_succ_self _⟩
        · exact ⟨(hbound pr h').1, Nat.lt_succ_of_lt (hbound pr h').2⟩

theorem EntriesLt_mono {es : List TreeEntry} {n n' : Nat} (h : n ≤ n')
    (he : EntriesLt es n) : EntriesLt es n' :=
  fun e hm => lt_of_lt_of_le (he e hm) h

theorem insertSegs_wf (segs : List String) :
    ∀ (st : RemoteState) (entries : List TreeEntry) (m t : String) (s : Nat)
      {es' : List TreeEntry} {st' : RemoteState},
      insertSegs st entries segs m t s = (es', st') →
      TreesLt st → EntriesLt entries st.nextSha → s < st.nextSha →
      TreesLt st' ∧ EntriesLt es' st'.nextSha := by
  induction segs with
  | nil =>
    intro st entries m t s es' st' h hT hE hs
    unfold insertSegs at h
    simp only [Prod.mk.injEq] at h
    obtain ⟨h1, h2⟩ := h
    subst h1; subst h2
    exact ⟨hT, hE⟩
  | cons p tail ih =>
    cases tail with
    | nil =>
      intro st entries m t s es' st' h hT hE hs
      unfold insertSegs at h
      simp only [Prod.mk.injEq] at h
      obtain ⟨h1, h2⟩ := h
      subst h1; subst h2
      refine ⟨hT, ?_⟩
      intro e he
      rcases mem_replaceEntry he with hm | hm
      · exact hE e hm
      · subst hm; exact hs
    | cons q rest =>
      intro st entries m t s es' st' h hT hE hs
      unfold insertSegs at h
      have hCEb : EntriesLt (match entries.find? (fun e => e.path = p) with
          | some e => if e.type = "tree" then (lookupA st.trees e.sha).getD [] else []
          | none => []) st.nextSha := by
        rcases hfind : entries.find? (fun e => e.path = p) with _ | e <;>
          simp only [hfind]
        · intro x hx; simp at hx
        · by_cases ht : e.type = "tree"
          · simp only [ht, if_true]
            rcases hlk : lookupA st.trees e.sha with _ | child <;>
              simp only [hlk, Option.getD_none, Option.getD_some]
            · intro x hx; simp at hx
            · simpa using (hT _ (lookupA_mem hlk)).2
          · simp only [ht, if_false]
            intro x hx; simp at hx
      generalize hCE : (match entries.find? (fun e => e.path = p) with
        | some e => if e.type = "tree" then (lookupA st.trees e.sha).getD [] else []
        | none => []) = CE at h hCEb
      rcases hr : insertSegs st CE (q :: rest) m t s with ⟨child, stR⟩
      simp only [hr, Prod.mk.injEq] at h
      obtain ⟨h1, h2⟩ := h
      subst h1; subst h2
      obtain ⟨hTR, hER⟩ := ih st CE m t s hr hT hCEb hs
      have hle : st.nextSha ≤ stR.nextSha :=
        (insertSegs_state (q :: rest) st CE m t s hr).2.2.2.2.2.2.2.2.1
      constructor
      · intro pr hpr
        rcases List.mem_cons.1 hpr with h' | h'
        · subst h'
          exact ⟨Nat.lt_succ_self _, EntriesLt_mono (Nat.le_succ _) hER⟩
        · obtain ⟨hk, hes⟩ := hTR pr h'
          exact ⟨Nat.lt_succ_of_lt hk, EntriesLt_mono (Nat.le_succ _) hes⟩
      · intro e he
        rcases mem_replaceEntry he with hm | hm
        · exact lt_of_lt_of_le (hE e hm) (Nat.le_succ_of_le hle)
        · subst hm
          exact Nat.lt_succ_self _


theorem resolve_congr_head {store : List (Nat × List TreeEntry)}
    {e1 e2 : List TreeEntry} {h₂ : String} {t₂ : List String}
    (hf : e1.find? (fun e => e.path = h₂) = e2.find? (fun e => e.path = h₂)) :
    resolve store e1 (h₂ :: t₂) = resolve store e2 (h₂ :: t₂) := by
  simp only [resolve, hf]

theorem resolve_nil_entries (store : List (Nat × List TreeEntry)) (h₂ : String)
    (t₂ : List String) : resolve store [] (h₂ :: t₂) = none := by
  simp [resolve]

theorem insertSegs_hit (segs : List String) :
    ∀ (st : RemoteState) (entries : List TreeEntry) (m t : String) (s : Nat)
      {es' : List TreeEntry} {st' : RemoteState} {lastSeg : String},
      insertSegs st entries segs m t s = (es', st') →
      TreesLt st → EntriesLt entries st.nextSha → s < st.nextSha →
      segs.getLast? = some lastSeg →
      resolve st'.trees es' segs = some ⟨lastSeg, m, t, s⟩ := by
  induction segs with
  | nil =>
    intro st entries m t s es' st' lastSeg h hT hE hs hlast
    simp at hlast
  | cons p tail ih =>
    cases tail with
    | nil =>
      intro st entries m t s es' st' lastSeg h hT hE hs hlast
      unfold insertSegs at h
      simp only [Prod.mk.injEq] at h
      obtain ⟨h1, h2⟩ := h
      subst h1; subst h2
      have hp : p = lastSeg := by simpa using hlast
      subst hp
      simp only [resolve, replaceEntry_find_self]
    | cons q rest =>
      intro st entries m t s es' st' lastSeg h hT hE hs hlast
      unfold insertSegs at h
      have hCEb : EntriesLt (match entries.find? (fun e => e.path = p) with
          | some e => if e.type = "tree" then (lookupA st.trees e.sha).getD [] else []
          | none => []) st.nextSha := by
        rcases hfind : entries.find? (fun e => e.path = p) with _ | e <;>
          simp only [hfind]
        · intro x hx; simp at hx
        · by_cases ht : e.type = "tree"
          · simp only [ht, if_true]
            rcases hlk : lookupA st.trees e.sha with _ | child <;>
              simp only [hlk, Option.getD_none, Option.getD_some]
            · intro x hx; simp at hx
            · simpa using (hT _ (lookupA_mem hlk)).2
          · simp only [ht, if_false]
            intro x hx; simp at hx
      generalize hCE : (match entries.find? (fun e => e.path = p) with
        | some e => if e.type = "tree" then (lookupA st.trees e.sha).getD [] else []
        | none => []) = CE at h hCEb
      rcases hr : insertSegs st CE (q :: rest) m t s with ⟨child, stR⟩
      simp only [hr, Prod.mk.injEq] at h
      obtain ⟨h1, h2⟩ := h
      subst h1; subst h2
      have hlast' : (q :: rest).getLast? = some lastSeg := by
        rw [← hlast]; exact List.getLast?_cons_cons.symm
      have IH := ih st CE m t s hr hT hCEb hs hlast'
      obtain ⟨hTR, hER⟩ := insertSegs_wf (q :: rest) st CE m t s hr hT hCEb hs
      have hstep : resolve ((stR.nextSha, child) :: stR.trees) child (q :: rest)
          = resolve stR.trees child (q :: rest) := by
        have := @resolve_append_ge [(stR.nextSha, child)] stR.trees
          stR.nextSha (by simp) hTR (q :: rest) child hER
        simpa using this
      have hfold : resolve ((stR.nextSha, child) :: stR.trees) child (q :: rest)
          = some ⟨lastSeg, m, t, s⟩ := by rw [hstep]; exact IH
      simp only [resolve, replaceEntry_find_self, lookupA_cons_self, if_true]
      exact hfold

theorem segDisjoint_ne_nil {a b : List String} (h : SegDisjoint a b) :
    a ≠ [] ∧ b ≠ [] := by
  constructor <;> rintro rfl
  · exact h.1 (by simp)
  · exact h.2 (by simp)

theorem segDisjoint_cons {p : String} {a b : List String}
    (h : SegDisjoint (p :: a) (p :: b)) : SegDisjoint a b := by
  constructor
  · intro hc
    apply h.1
    simp only [List.length_cons, List.take_succ_cons, List.cons.injEq]
    exact ⟨trivial, hc⟩
  · intro hc
    apply h.2
    simp only [List.length_cons, List.take_succ_cons, List.cons.injEq]
    exact ⟨trivial, hc⟩

theorem segDisjoint_head_ne {p : String} {b : List String}
    (h : SegDisjoint [p] b) : ∀ t₂, b = p :: t₂ → False := by
  rintro t₂ rfl
  exact h.1 (by simp)

theorem insertSegs_frame (segs : List String) :
    ∀ (st : RemoteState) (entries : List TreeEntry) (m t : String) (s : Nat)
      {es' : List TreeEntry} {st' : RemoteState},
      insertSegs st entries segs m t s = (es', st') →
      TreesLt st → EntriesLt entries st.nextSha → s < st.nextSha →
      ∀ segs₂, SegDisjoint segs segs₂ →
      resolve st'.trees es' segs₂ = resolve st.trees entries segs₂ := by
  induction segs with
  | nil =>
    intro st entries m t s es' st' h hT hE hs segs₂ hd
    exact absurd rfl (segDisjoint_ne_nil hd).1
  | cons p tail ih =>
    cases tail with
    | nil =>
      intro st entries m t s es' st' h hT hE hs segs₂ hd
      unfold insertSegs at h
      simp only [Prod.mk.injEq] at h
      obtain ⟨h1, h2⟩ := h
      subst h1; subst h2
      rcases segs₂ with _ | ⟨h₂, t₂⟩
      · exact absurd rfl (segDisjoint_ne_nil hd).2
      · by_cases hph : h₂ = p
        · subst hph
          exact absurd rfl (segDisjoint_head_ne hd t₂)
        · exact resolve_congr_head (replaceEntry_find_other entries p m t s hph)
    | cons q rest =>
      intro st entries m t s es' st' h hT hE hs segs₂ hd
      unfold insertSegs at h
      have hCEb : EntriesLt (match entries.find? (fun e => e.path = p) with
          | some e => if e.type = "tree" then (lookupA st.trees e.sha).getD [] else []
          | none => []) st.nextSha := by
        rcases hfind : entries.find? (fun e => e.path = p) with _ | e <;>
          simp only [hfind]
        · intro x hx; simp at hx
        · by_cases ht : e.type = "tree"
          · simp only [ht, if_true]
            rcases hlk : lookupA st.trees e.sha with _ | child <;>
              simp only [hlk, Option.getD_none, Option.getD_some]
            · intro x hx; simp at hx
            · simpa using (hT _ (lookupA_mem hlk)).2
          · simp only [ht, if_false]
            intro x hx; simp at hx
      generalize hCE : (match entries.find? (fun e => e.path = p) with
        | some e => if e.type = "tree" then (lookupA st.trees e.sha).getD [] else []
        | none => []) = CE at h hCEb
      rcases hr : insertSegs st CE (q :: rest) m t s with ⟨child, stR⟩
      simp only [hr, Prod.mk.injEq] at h
      obtain ⟨h1, h2⟩ := h
      subst h1; subst h2
      obtain ⟨hTR, hER⟩ := insertSegs_wf (q :: rest) st CE m t s hr hT hCEb hs
      obtain ⟨_, _, _, _, _, _, _, _, hle, lext, hlext, hlbound⟩ :=
        insertSegs_state (q :: rest) st CE m t s hr
      rcases segs₂ with _ | ⟨h₂, t₂⟩
      · exact absurd rfl (segDisjoint_ne_nil hd).2
      · by_cases hph : h₂ = p
        · rw [hph] at hd ⊢
          have hd' : SegDisjoint (q :: rest) t₂ := segDisjoint_cons hd
          rcases t₂ with _ | ⟨u, t₃⟩
          · exact absurd rfl (segDisjoint_ne_nil hd').2
          · -- left side: descend into the rebuilt subtree, then frame inductively
            have hstep : resolve ((stR.nextSha, child) :: stR.trees) child (u :: t₃)
                = resolve stR.trees child (u :: t₃) := by
              have := @resolve_append_ge [(stR.nextSha, child)] stR.trees
                stR.nextSha (by simp) hTR (u :: t₃) child hER
              simpa using this
            have hihres : resolve stR.trees child (u :: t₃)
                = resolve st.trees CE (u :: t₃) :=
              ih st CE m t s hr hT hCEb hs (u :: t₃) hd'
            have hfold : resolve ((stR.nextSha, child) :: stR.trees) child (u :: t₃)
                = resolve st.trees CE (u :: t₃) := by rw [hstep, hihres]
            -- compute both sides through the head binding of p
            rcases hfind0 : entries.find? (fun e => e.path = p) with _ | e
            · rw [hfind0] at hCE
              have hCE' : ([] : List TreeEntry) = CE := hCE
              subst hCE'
              have hfin := hfold.trans (resolve_nil_entries _ _ _)
              simp only [resolve, replaceEntry_find_self, lookupA_cons_self, if_true,
                hfind0]
              exact hfin
            · rw [hfind0] at hCE
              have hCE' : (if e.type = "tree" then (lookupA st.trees e.sha).getD []
                  else []) = CE := hCE
              by_cases ht : e.type = "tree"
              · rw [if_pos ht] at hCE'
                rcases hlk : lookupA st.trees e.sha with _ | child₀
                · rw [hlk] at hCE'
                  have hCE'' : ([] : List TreeEntry) = CE := hCE'
                  subst hCE''
                  have hfin := hfold.trans (resolve_nil_entries _ _ _)
                  simp only [resolve, replaceEntry_find_self, lookupA_cons_self, if_true,
                    hfind0, ht, hlk]
                  exact hfin
                · rw [hlk] at hCE'
                  have hCE'' : child₀ = CE := hCE'
                  subst hCE''
                  simp only [resolve, replaceEntry_find_self, lookupA_cons_self, if_true,
                    hfind0, ht, hlk]
                  exact hfold
              · rw [if_neg ht] at hCE'
                subst hCE'
                have hfin := hfold.trans (resolve_nil_entries _ _ _)
                simp only [resolve, replaceEntry_find_self, lookupA_cons_self, if_true,
                  hfind0, ht, if_false]
                exact hfin
        · -- other head: the binding of h₂ and everything reachable from it
          -- are untouched
          have hcongr : resolve ((stR.nextSha, child) :: stR.trees)
              (replaceEntry entries p "040000" "tree" stR.nextSha) (h₂ :: t₂)
              = resolve ((stR.nextSha, child) :: stR.trees) entries (h₂ :: t₂) :=
            resolve_congr_head (replaceEntry_find_other entries p "040000" "tree" stR.nextSha hph)
          have hext : resolve ((stR.nextSha, child) :: stR.trees) entries (h₂ :: t₂)
              = resolve st.trees entries (h₂ :: t₂) := by
            have hall : ∀ pr ∈ (stR.nextSha, child) :: lext, st.nextSha ≤ pr.1 := by
              intro pr hpr
              rcases List.mem_cons.1 hpr with h' | h'
              · subst h'; exact hle
              · exact (hlbound pr h').1
            have := @resolve_append_ge ((stR.nextSha, child) :: lext)
              st.trees st.nextSha hall hT (h₂ :: t₂) entries hE
            rw [hlext]
            exact this
          exact hcongr.trans hext

/-! ### foldItems: state, well-formedness, frame and hit -/

theorem foldItems_state (items : List TreeEntry) :
    ∀ (entries : List TreeEntry) (st : RemoteState) {es' : List TreeEntry}
      {st' : RemoteState},
      foldItems items (entries, st) = (es', st') →
      st'.blobs = st.blobs ∧ st'.commits = st.commits ∧ st'.refs = st.refs ∧
      st'.pulls = st.pulls ∧ st'.nextPr = st.nextPr ∧ st'.authUser = st.authUser ∧
      st'.events = st.events ∧ st'.failures = st.failures ∧
      st.nextSha ≤ st'.nextSha ∧
      ∃ l, st'.trees = l ++ st.trees ∧ ∀ p ∈ l, st.nextSha ≤ p.1 := by
  induction items with
  | nil =>
    intro entries st es' st' h
    unfold foldItems at h
    simp only [List.foldl_nil, Prod.mk.injEq] at h
    obtain ⟨h1, h2⟩ := h
    subst h2
    exact ⟨rfl, rfl, rfl, rfl, rfl, rfl, rfl, rfl, le_refl _, [], by simp, by simp⟩
  | cons a rest ih =>
    intro entries st es' st' h
    unfold foldItems at h
    simp only [List.foldl_cons] at h
    rcases h1 : insertSegs st entries (splitPath a.path) a.mode a.type a.sha with ⟨e₁, st₁⟩
    rw [h1] at h
    obtain ⟨hb, hc, hrf, hp2, hnp, hau, hev, hfl, hle, l₁, htr₁, hb₁⟩ :=
      insertSegs_state _ _ _ _ _ _ h1
    obtain ⟨hb', hc', hrf', hp2', hnp', hau', hev', hfl', hle', l₂, htr₂, hb₂⟩ :=
      ih e₁ st₁ h
    refine ⟨hb'.trans hb, hc'.trans hc, hrf'.trans hrf, hp2'.trans hp2,
      hnp'.trans hnp, hau'.trans hau, hev'.trans hev, hfl'.trans hfl,
      le_trans hle hle', l₂ ++ l₁, ?_, ?_⟩
    · rw [htr₂, htr₁, List.append_assoc]
    · intro p hp
      rcases List.mem_append.1 hp with hp | hp
      · exact le_trans hle (hb₂ p hp)
      · exact (hb₁ p hp).1

theorem foldItems_wf (items : List TreeEntry) :
    ∀ (entries : List TreeEntry) (st : RemoteState) {es' : List TreeEntry}
      {st' : RemoteState},
      foldItems items (entries, st) = (es', st') →
      TreesLt st → EntriesLt entries st.nextSha →
      (∀ it ∈ items, it.sha < st.nextSha) →
      TreesLt st' ∧ EntriesLt es' st'.nextSha := by
  induction items with
  | nil =>
    intro entries st es' st' h hT hE _
    unfold foldItems at h
    simp only [List.foldl_nil, Prod.mk.injEq] at h
    obtain ⟨h1, h2⟩ := h
    subst h1; subst h2
    exact ⟨hT, hE⟩
  | cons a rest ih =>
    intro entries st es' st' h hT hE hsha
    unfold foldItems at h
    simp only [List.foldl_cons] at h
    rcases h1 : insertSegs st entries (splitPath a.path) a.mode a.type a.sha with ⟨e₁, st₁⟩
    rw [h1] at h
    obtain ⟨hT₁, hE₁⟩ := insertSegs_wf _ _ _ _ _ _ h1 hT hE (hsha a (by simp))
    have hle : st.nextSha ≤ st₁.nextSha :=
      (insertSegs_state _ _ _ _ _ _ h1).2.2.2.2.2.2.2.2.1
    exact ih e₁ st₁ h hT₁ hE₁
      (fun it hit => lt_of_lt_of_le (hsha it (by simp [hit])) hle)

theorem foldItems_frame (items : List TreeEntry) :
    ∀ (entries : List TreeEntry) (st : RemoteState) {es' : List TreeEntry}
      {st' : RemoteState},
      foldItems items (entries, st) = (es', st') →
      TreesLt st → EntriesLt entries st.nextSha →
      (∀ it ∈ items, it.sha < st.nextSha) →
      ∀ segs₂, (∀ it ∈ items, SegDisjoint (splitPath it.path) segs₂) →
      resolve st'.trees es' segs₂ = resolve st.trees entries segs₂ := by
  induction items with
  | nil =>
    intro entries st es' st' h _ _ _ segs₂ _
    unfold foldItems at h
    simp only [List.foldl_nil, Prod.mk.injEq] at h
    obtain ⟨h1, h2⟩ := h
    subst h1; subst h2
    rfl
  | cons a rest ih =>
    intro entries st es' st' h hT hE hsha segs₂ hdis
    unfold foldItems at h
    simp only [List.foldl_cons] at h
    rcases h1 : insertSegs st entries (splitPath a.path) a.mode a.type a.sha with ⟨e₁, st₁⟩
    rw [h1] at h
    obtain ⟨hT₁, hE₁⟩ := insertSegs_wf _ _ _ _ _ _ h1 hT hE (hsha a (by simp))
    have hle : st.nextSha ≤ st₁.nextSha :=
      (insertSegs_state _ _ _ _ _ _ h1).2.2.2.2.2.2.2.2.1
    have hrec := ih e₁ st₁ h hT₁ hE₁
      (fun it hit => lt_of_lt_of_le (hsha it (by simp [hit])) hle) segs₂
      (fun it hit => hdis it (by simp [hit]))
    have hone := insertSegs_frame _ _ _ _ _ _ h1 hT hE (hsha a (by simp)) segs₂
      (hdis a (by simp))
    exact hrec.trans hone

theorem foldItems_hit (pre : List TreeEntry) :
    ∀ (items : List TreeEntry) (entries : List TreeEntry) (st : RemoteState)
      {es' : List TreeEntry} {st' : RemoteState},
      foldItems items (entries, st) = (es', st') →
      TreesLt st → EntriesLt entries st.nextSha →
      (∀ it ∈ items, it.sha < st.nextSha) →
      ∀ {it : TreeEntry} {post : List TreeEntry},
      items = pre ++ it :: post →
      (∀ it₂ ∈ post, SegDisjoint (splitPath it₂.path) (splitPath it.path)) →
      ∀ {lastSeg : String}, (splitPath it.path).getLast? = some lastSeg →
      resolve st'.trees es' (splitPath it.path) =
        some ⟨lastSeg, it.mode, it.type, it.sha⟩ := by
  induction pre with
  | nil =>
    intro items entries st es' st' h hT hE hsha it post hsplit hdis lastSeg hlast
    subst hsplit
    unfold foldItems at h
    simp only [List.nil_append, List.foldl_cons] at h
    rcases h1 : insertSegs st entries (splitPath it.path) it.mode it.type it.sha
      with ⟨e₁, st₁⟩
    rw [h1] at h
    obtain ⟨hT₁, hE₁⟩ := insertSegs_wf _ _ _ _ _ _ h1 hT hE (hsha it (by simp))
    have hle : st.nextSha ≤ st₁.nextSha :=
      (insertSegs_state _ _ _ _ _ _ h1).2.2.2.2.2.2.2.2.1
    have hhit := insertSegs_hit _ _ _ _ _ _ h1 hT hE (hsha it (by simp)) hlast
    have hframe := foldItems_frame post e₁ st₁ h hT₁ hE₁
      (fun it₂ hit₂ => lt_of_lt_of_le (hsha it₂ (by simp [hit₂])) hle)
      (splitPath it.path) hdis
    rw [hframe, hhit]
  | cons a pre' ih =>
    intro items entries st es' st' h hT hE hsha it post hsplit hdis lastSeg hlast
    subst hsplit
    unfold foldItems at h
    simp only [List.cons_append, List.foldl_cons] at h
    rcases h1 : insertSegs st entries (splitPath a.path) a.mode a.type a.sha with ⟨e₁, st₁⟩
    rw [h1] at h
    obtain ⟨hT₁, hE₁⟩ := insertSegs_wf _ _ _ _ _ _ h1 hT hE (hsha a (by simp))
    have hle : st.nextSha ≤ st₁.nextSha :=
      (insertSegs_state _ _ _ _ _ _ h1).2.2.2.2.2.2.2.2.1
    exact ih (pre' ++ it :: post) e₁ st₁ h hT₁ hE₁
      (fun it₂ hit₂ => lt_of_lt_of_le (hsha it₂ (by simp [hit₂])) hle)
      rfl hdis hlast

/-! ### Write-primitive bookkeeping -/

theorem createBlob_ok {c : String} {st st' : RemoteState} {v : Nat}
    (h : createBlob c st = (.ok v, st')) :
    v = st.nextSha ∧
    st' = { (st.stamp (Ev.blobE c)) with
            blobs := (st.nextSha, c) :: st.blobs,
            nextSha := st.nextSha + 1 } := by
  unfold createBlob RemoteState.consume RemoteState.log at h
  unfold RemoteState.stamp
  cases hf : st.failures with
  | nil =>
    simp [hf] at h
    exact ⟨h.1.symm, h.2.symm⟩
  | cons b rest =>
    cases b <;> simp [hf] at h
    exact ⟨h.1.symm, h.2.symm⟩

theorem createBlob_err {c : String} {st st' : RemoteState} {e : GhError}
    (h : createBlob c st = (.error e, st')) : st' = st.stamp (.blobE c) := by
  unfold createBlob RemoteState.consume RemoteState.log at h
  unfold RemoteState.stamp
  cases hf : st.failures with
  | nil => simp [hf] at h
  | cons b rest =>
    cases b <;> simp [hf] at h
    exact h.2.symm

theorem createCommit_ok {msg : String} {tSha pSha : Nat} {st st' : RemoteState} {v : Nat}
    (h : createCommit msg tSha pSha st = (.ok v, st')) :
    v = st.nextSha ∧
    st' = { (st.stamp Ev.commitE) with
            commits := (st.nextSha, ⟨tSha, pSha, msg⟩) :: st.commits,
            nextSha := st.nextSha + 1 } := by
  unfold createCommit RemoteState.consume RemoteState.log at h
  unfold RemoteState.stamp
  cases hf : st.failures with
  | nil =>
    simp [hf] at h
    exact ⟨h.1.symm, h.2.symm⟩
  | cons b rest =>
    cases b <;> simp [hf] at h
    exact ⟨h.1.symm, h.2.symm⟩

theorem createCommit_err {msg : String} {tSha pSha : Nat} {st st' : RemoteState}
    {e : GhError} (h : createCommit msg tSha pSha st = (.error e, st')) :
    st' = st.stamp .commitE := by
  unfold createCommit RemoteState.consume RemoteState.log at h
  unfold RemoteState.stamp
  cases hf : st.failures with
  | nil => simp [hf] at h
  | cons b rest =>
    cases b <;> simp [hf] at h
    exact h.2.symm

theorem createTree_eq (items : List TreeEntry) (b : Nat) (st : RemoteState) :
    createTree items (some b) st =
      if st.failures.headD false then (.error .remoteFault, st.stamp .treeE)
      else
        match lookupA st.trees b with
        | none => (.error .notFound, st.stamp .treeE)
        | some base =>
          let r := foldItems items (base, st.stamp .treeE)
          (.ok r.2.nextSha, { r.2 with
            trees := (r.2.nextSha, r.1) :: r.2.trees,
            nextSha := r.2.nextSha + 1 }) := by
  obtain ⟨b1, t1, c1, r1, p1, ns, np, au, fl, ev⟩ := st
  cases fl with
  | nil =>
    cases hlk : lookupA t1 b <;>
      simp [createTree, RemoteState.consume, RemoteState.log, RemoteState.stamp, hlk]
  | cons x rest =>
    cases x <;> cases hlk : lookupA t1 b <;>
      simp [createTree, RemoteState.consume, RemoteState.log, RemoteState.stamp, hlk]

theorem createTree_ok {items : List TreeEntry} {b : Nat} {st st' : RemoteState}
    {root : Nat} (h : createTree items (some b) st = (.ok root, st')) :
    ∃ base es' stF, lookupA st.trees b = some base ∧
      foldItems items (base, st.stamp .treeE) = (es', stF) ∧
      root = stF.nextSha ∧
      st' = { stF with trees := (root, es') :: stF.trees, nextSha := root + 1 } := by
  rw [createTree_eq] at h
  cases hhd : st.failures.headD false
  · rw [hhd, if_neg Bool.false_ne_true] at h
    rcases hlk : lookupA st.trees b with _ | base
    · rw [hlk] at h
      simp at h
    · rw [hlk] at h
      rcases hfd : foldItems items (base, st.stamp .treeE) with ⟨es', stF⟩
      simp only [hfd, Prod.mk.injEq, Except.ok.injEq] at h
      obtain ⟨h1, h2⟩ := h
      subst h1
      exact ⟨base, es', stF, rfl, hfd, rfl, h2.symm⟩
  · rw [hhd, if_pos rfl] at h
    simp at h

theorem createTree_err {items : List TreeEntry} {b : Nat} {st st' : RemoteState}
    {e : GhError} (h : createTree items (some b) st = (.error e, st')) :
    st' = st.stamp .treeE := by
  rw [createTree_eq] at h
  cases hhd : st.failures.headD false
  · rw [hhd, if_neg Bool.false_ne_true] at h
    rcases hlk : lookupA st.trees b with _ | base
    · rw [hlk] at h
      simp only [Prod.mk.injEq] at h
      exact h.2.symm
    · rw [hlk] at h
      rcases hfd : foldItems items (base, st.stamp .treeE) with ⟨es', stF⟩
      simp only [hfd, Prod.mk.injEq] at h
      exact absurd h.1 (by simp)
  · rw [hhd, if_pos rfl] at h
    simp only [Prod.mk.injEq] at h
    exact h.2.symm

theorem updateRef_eq (r : String) (v : Nat) (st : RemoteState) :
    updateRef r v st =
      if st.failures.headD false then (.error .remoteFault, st.stamp (.refE r))
      else
        match lookupS st.refs r with
        | none => (.error .notFound, st.stamp (.refE r))
        | some cur =>
          match lookupA st.commits v with
          | none => (.error .notFound, st.stamp (.refE r))
          | some obj =>
            if obj.parentSha = cur then
              (.ok (), { (st.stamp (Ev.refE r)) with refs := setS st.refs r v })
            else (.error .conflict, st.stamp (.refE r)) := by
  obtain ⟨b1, t1, c1, r1, p1, ns, np, au, fl, ev⟩ := st
  cases fl with
  | nil =>
    rcases hl1 : lookupS r1 r with _ | cur <;>
      rcases hl2 : lookupA c1 v with _ | obj <;>
      simp [updateRef, RemoteState.consume, RemoteState.log, RemoteState.stamp, hl1, hl2]
  | cons x rest =>
    cases x <;>
      rcases hl1 : lookupS r1 r with _ | cur <;>
      rcases hl2 : lookupA c1 v with _ | obj <;>
      simp [updateRef, RemoteState.consume, RemoteState.log, RemoteState.stamp, hl1, hl2]

theorem updateRef_ok {r : String} {v : Nat} {st st' : RemoteState} {u : Unit}
    (h : updateRef r v st = (.ok u, st')) :
    ∃ cur obj, lookupS st.refs r = some cur ∧ lookupA st.commits v = some obj ∧
      obj.parentSha = cur ∧
      st' = { (st.stamp (Ev.refE r)) with refs := setS st.refs r v } := by
  rw [updateRef_eq] at h
  cases hhd : st.failures.headD false
  · rw [hhd, if_neg Bool.false_ne_true] at h
    rcases hl1 : lookupS st.refs r with _ | cur
    · rw [hl1] at h
      simp at h
    · rw [hl1] at h
      rcases hl2 : lookupA st.commits v with _ | obj
      · rw [hl2] at h
        simp at h
      · rw [hl2] at h
        by_cases hpar : obj.parentSha = cur
        · simp only [hpar, if_true, Prod.mk.injEq] at h
          exact ⟨cur, obj, rfl, rfl, hpar, h.2.symm⟩
        · simp only [hpar, if_false, Prod.mk.injEq] at h
          exact absurd h.1 (by simp)
  · rw [hhd, if_pos rfl] at h
    simp at h

theorem updateRef_err {r : String} {v : Nat} {st st' : RemoteState} {e : GhError}
    (h : updateRef r v st = (.error e, st')) : st' = st.stamp (.refE r) := by
  rw [updateRef_eq] at h
  cases hhd : st.failures.headD false
  · rw [hhd, if_neg Bool.false_ne_true] at h
    rcases hl1 : lookupS st.refs r with _ | cur
    · rw [hl1] at h
      simp only [Prod.mk.injEq] at h
      exact h.2.symm
    · rw [hl1] at h
      rcases hl2 : lookupA st.commits v with _ | obj
      · rw [hl2] at h
        simp only [Prod.mk.injEq] at h
        exact h.2.symm
      · rw [hl2] at h
        by_cases hpar : obj.parentSha = cur
        · simp only [hpar, if_true, Prod.mk.injEq] at h
          exact absurd h.1 (by simp)
        · simp only [hpar, if_false, Prod.mk.injEq] at h
          exact h.2.symm
  · rw [hhd, if_pos rfl] at h
    simp only [Prod.mk.injEq] at h
    exact h.2.symm

theorem createBranch_eq (branch fromBranch : String) (st : RemoteState) :
    createBranch branch fromBranch st =
      if st.failures.headD false then
        (.error .remoteFault, st.stamp (.branchE branch))
      else
        match lookupS st.refs ("heads/" ++ fromBranch) with
        | none => (.error .notFound, st.stamp (.branchE branch))
        | some sha =>
          match lookupS st.refs ("heads/" ++ branch) with
          | some _ => (.error .remoteFault, st.stamp (.branchE branch))
          | none =>
            (.ok (), { (st.stamp (Ev.branchE branch)) with
              refs := ("heads/" ++ branch, sha) :: st.refs }) := by
  obtain ⟨b1, t1, c1, r1, p1, ns, np, au, fl, ev⟩ := st
  cases fl with
  | nil =>
    rcases hl1 : lookupS r1 ("heads/" ++ fromBranch) with _ | sha <;>
      rcases hl2 : lookupS r1 ("heads/" ++ branch) with _ | old <;>
      simp [createBranch, RemoteState.consume, RemoteState.log, RemoteState.stamp, hl1, hl2]
  | cons x rest =>
    cases x <;>
      rcases hl1 : lookupS r1 ("heads/" ++ fromBranch) with _ | sha <;>
      rcases hl2 : lookupS r1 ("heads/" ++ branch) with _ | old <;>
      simp [createBranch, RemoteState.consume, RemoteState.log, RemoteState.stamp, hl1, hl2]

theorem createBranch_ok {branch fromBranch : String} {st st' : RemoteState} {u : Unit}
    (h : createBranch branch fromBranch st = (.ok u, st')) :
    ∃ sha, lookupS st.refs ("heads/" ++ fromBranch) = some sha ∧
      lookupS st.refs ("heads/" ++ branch) = none ∧
      st' = { (st.stamp (Ev.branchE branch)) with
        refs := ("heads/" ++ branch, sha) :: st.refs } := by
  rw [createBranch_eq] at h
  cases hhd : st.failures.headD false
  · rw [hhd, if_neg Bool.false_ne_true] at h
    rcases hl1 : lookupS st.refs ("heads/" ++ fromBranch) with _ | sha
    · rw [hl1] at h
      simp at h
    · rw [hl1] at h
      rcases hl2 : lookupS st.refs ("heads/" ++ branch) with _ | old
      · rw [hl2] at h
        simp only [Prod.mk.injEq] at h
        exact ⟨sha, rfl, rfl, h.2.symm⟩
      · rw [hl2] at h
        simp at h
  · rw [hhd, if_pos rfl] at h
    simp at h

theorem createBranch_err {branch fromBranch : String} {st st' : RemoteState} {e : GhError}
    (h : createBranch branch fromBranch st = (.error e, st')) :
    st' = st.stamp (.branchE branch) := by
  rw [createBranch_eq] at h
  cases hhd : st.failures.headD false
  · rw [hhd, if_neg Bool.false_ne_true] at h
    rcases hl1 : lookupS st.refs ("heads/" ++ fromBranch) with _ | sha
    · rw [hl1] at h
      simp only [Prod.mk.injEq] at h
      exact h.2.symm
    · rw [hl1] at h
      rcases hl2 : lookupS st.refs ("heads/" ++ branch) with _ | old
      · rw [hl2] at h
        simp at h
      · rw [hl2] at h
        simp only [Prod.mk.injEq] at h
        exact h.2.symm
  · rw [hhd, if_pos rfl] at h
    simp only [Prod.mk.injEq] at h
    exact h.2.symm

theorem createPullRequest_eq (title head base body : String) (st : RemoteState) :
    createPullRequest title head base body st =
      if st.failures.headD false then
        (.error .remoteFault, st.stamp (.prE st.nextPr))
      else
        (.ok ⟨st.nextPr, head, base, title, body⟩,
          { (st.stamp (Ev.prE st.nextPr)) with
            pulls := st.pulls ++ [⟨st.nextPr, head, base, title, body⟩],
            nextPr := st.nextPr + 1 }) := by
  obtain ⟨b1, t1, c1, r1, p1, ns, np, au, fl, ev⟩ := st
  cases fl with
  | nil =>
    simp [createPullRequest, RemoteState.consume, RemoteState.log, RemoteState.stamp]
  | cons x rest =>
    cases x <;>
      simp [createPullRequest, RemoteState.consume, RemoteState.log, RemoteState.stamp]

theorem createPullRequest_ok {title head base body : String} {st st' : RemoteState}
    {q : PullObj} (h : createPullRequest title head base body st = (.ok q, st')) :
    q = ⟨st.nextPr, head, base, title, body⟩ ∧
    st' = { (st.stamp (Ev.prE st.nextPr)) with
      pulls := st.pulls ++ [(⟨st.nextPr, head, base, title, body⟩ : PullObj)],
      nextPr := st.nextPr + 1 } := by
  rw [createPullRequest_eq] at h
  cases hhd : st.failures.headD false
  · rw [hhd, if_neg Bool.false_ne_true] at h
    simp only [Prod.mk.injEq, Except.ok.injEq] at h
    exact ⟨h.1.symm, h.2.symm⟩
  · rw [hhd, if_pos rfl] at h
    simp at h

theorem createPullRequest_err {title head base body : String} {st st' : RemoteState}
    {e : GhError} (h : createPullRequest title head base body st = (.error e, st')) :
    st' = st.stamp (.prE st.nextPr) := by
  rw [createPullRequest_eq] at h
  cases hhd : st.failures.headD false
  · rw [hhd, if_neg Bool.false_ne_true] at h
    simp at h
  · rw [hhd, if_pos rfl] at h
    simp only [Prod.mk.injEq] at h
    exact h.2.symm

theorem createOrUpdateFileInRepo_snd (targetPath content message branch : String)
    (sha : Option Nat) (st : RemoteState) :
    (createOrUpdateFileInRepo targetPath content message branch sha st).2 =
      st.stamp (.putE branch targetPath content) := by
  obtain ⟨b1, t1, c1, r1, p1, ns, np, au, fl, ev⟩ := st
  cases fl with
  | nil =>
    simp [createOrUpdateFileInRepo, RemoteState.consume, RemoteState.log, RemoteState.stamp]
  | cons x rest =>
    cases x <;>
      simp [createOrUpdateFileInRepo, RemoteState.consume, RemoteState.log, RemoteState.stamp]

theorem getContents_eq (targetPath branch : String) (st : RemoteState) :
    getContents targetPath branch st =
      if st.failures.headD false then (.error .remoteFault, st.stamp .readE)
      else
        match contentLookup st branch targetPath with
        | some fc => (.ok (.file fc.1 fc.2), st.stamp .readE)
        | none => (.ok (.listing []), st.stamp .readE) := by
  obtain ⟨b1, t1, c1, r1, p1, ns, np, au, fl, ev⟩ := st
  cases fl with
  | nil => rfl
  | cons x rest => cases x <;> rfl

theorem getRef_eq (r : String) (st : RemoteState) :
    getRef r st =
      if st.failures.headD false then (.error .remoteFault, st.stamp .readE)
      else
        match lookupS st.refs r with
        | some sha => (.ok sha, st.stamp .readE)
        | none => (.error .notFound, st.stamp .readE) := by
  obtain ⟨b1, t1, c1, r1, p1, ns, np, au, fl, ev⟩ := st
  cases fl with
  | nil =>
    rcases hl : lookupS r1 r with _ | sha <;>
      simp [getRef, RemoteState.consume, RemoteState.log, RemoteState.stamp, hl]
  | cons x rest =>
    cases x <;>
      rcases hl : lookupS r1 r with _ | sha <;>
      simp [getRef, RemoteState.consume, RemoteState.log, RemoteState.stamp, hl]

/-! ### Hits across a whole item list -/

theorem segDisjoint_symm {a b : List String} (h : SegDisjoint a b) : SegDisjoint b a :=
  ⟨h.2, h.1⟩

theorem splitPath_ne_nil (p : String) : splitPath p ≠ [] := by
  unfold splitPath
  split
  · simp
  · next l hne => exact hne

theorem foldItems_hits (newItems : List TreeEntry) :
    ∀ (entries : List TreeEntry) (st : RemoteState) {es' : List TreeEntry}
      {st' : RemoteState},
      foldItems newItems (entries, st) = (es', st') →
      TreesLt st → EntriesLt entries st.nextSha →
      (∀ it ∈ newItems, it.sha < st.nextSha) →
      newItems.Pairwise (fun a b => SegDisjoint (splitPath a.path) (splitPath b.path)) →
      ∀ it ∈ newItems, ∀ lastSeg, (splitPath it.path).getLast? = some lastSeg →
        resolve st'.trees es' (splitPath it.path) =
          some ⟨lastSeg, it.mode, it.type, it.sha⟩ := by
  induction newItems with
  | nil =>
    intro entries st es' st' h _ _ _ _ it hit
    simp at hit
  | cons a rest ih =>
    intro entries st es' st' h hT hE hsha hpw it hit lastSeg hlast
    unfold foldItems at h
    simp only [List.foldl_cons] at h
    rcases h1 : insertSegs st entries (splitPath a.path) a.mode a.type a.sha with ⟨e₁, st₁⟩
    rw [h1] at h
    obtain ⟨hT₁, hE₁⟩ := insertSegs_wf _ _ _ _ _ _ h1 hT hE (hsha a (by simp))
    have hle : st.nextSha ≤ st₁.nextSha :=
      (insertSegs_state _ _ _ _ _ _ h1).2.2.2.2.2.2.2.2.1
    rcases List.mem_cons.1 hit with rfl | hit'
    · have hhit := insertSegs_hit _ _ _ _ _ _ h1 hT hE (hsha it (by simp)) hlast
      have hframe := foldItems_frame rest e₁ st₁ h hT₁ hE₁
        (fun it₂ hit₂ => lt_of_lt_of_le (hsha it₂ (by simp [hit₂])) hle)
        (splitPath it.path)
        (fun it₂ hit₂ => segDisjoint_symm (List.rel_of_pairwise_cons hpw hit₂))
      rw [hframe, hhit]
    · exact ih e₁ st₁ h hT₁ hE₁
        (fun it₂ hit₂ => lt_of_lt_of_le (hsha it₂ (by simp [hit₂])) hle)
        (List.Pairwise.of_cons hpw) it hit' lastSeg hlast

/-! ### The blob loop of the chat-log sync -/

theorem createBlobsLoop_ok (files : List (String × String)) :
    ∀ (dir : String) (st : RemoteState) {items : List TreeEntry} {st' : RemoteState},
      createBlobsLoop dir files st = (.ok items, st') →
      st'.trees = st.trees ∧ st'.commits = st.commits ∧ st'.refs = st.refs ∧
      st'.pulls = st.pulls ∧ st'.nextPr = st.nextPr ∧ st'.authUser = st.authUser ∧
      st.nextSha ≤ st'.nextSha ∧
      (∃ l, st'.blobs = l ++ st.blobs ∧ ∀ p ∈ l, st.nextSha ≤ p.1 ∧ p.1 < st'.nextSha) ∧
      ∃ shas : List Nat, shas.length = files.length ∧
        items = (files.zip shas).map
          (fun fs => ⟨posixJoin [dir, fs.1.1], "100644", "blob", fs.2⟩) ∧
        ∀ fs ∈ files.zip shas,
          lookupA st'.blobs fs.2 = some fs.1.2 ∧ fs.2 < st'.nextSha := by
  induction files with
  | nil =>
    intro dir st items st' h
    unfold createBlobsLoop at h
    simp only [Prod.mk.injEq, Except.ok.injEq] at h
    obtain ⟨h1, h2⟩ := h
    subst h2
    refine ⟨rfl, rfl, rfl, rfl, rfl, rfl, le_refl _, ⟨[], by simp, by simp⟩,
      [], rfl, ?_, by simp⟩
    simp [← h1]
  | cons f rest ih =>
    intro dir st items st' h
    rcases hb : createBlob f.2 st with ⟨x1, st₁⟩
    simp only [createBlobsLoop, hb] at h
    cases x1 with
    | error e =>
      have h' : ((Except.error e : Except GhError (List TreeEntry)), st₁)
          = (Except.ok items, st') := h
      simp at h'
    | ok sha =>
      have h' : (match createBlobsLoop dir rest st₁ with
          | (Except.error e, st) => (Except.error e, st)
          | (Except.ok items, st) =>
            (Except.ok
              (({ path := posixJoin [dir, f.1], mode := "100644", type := "blob",
                  sha := sha } : TreeEntry) :: items), st))
          = (Except.ok items, st') := h
      rcases hl : createBlobsLoop dir rest st₁ with ⟨x2, st₂⟩
      rw [hl] at h'
      cases x2 with
      | error e =>
        have h'' : ((Except.error e : Except GhError (List TreeEntry)), st₂)
            = (Except.ok items, st') := h'
        simp at h''
      | ok items' =>
        have h'' : (Except.ok
            (({ path := posixJoin [dir, f.1], mode := "100644", type := "blob",
                sha := sha } : TreeEntry) :: items'), st₂)
            = (Except.ok items, st') := h'
        simp only [Prod.mk.injEq, Except.ok.injEq] at h''
        obtain ⟨h1, h2⟩ := h''
        subst h2
        obtain ⟨hsha, hst₁⟩ := createBlob_ok hb
        subst hsha
        obtain ⟨htr, hcm, hrf, hpl, hnp, hau, hle, ⟨l₂, hbl₂, hbk₂⟩,
          shas', hlen, hitems', hfs⟩ := ih dir st₁ hl
        have hst₁blobs : st₁.blobs = (st.nextSha, f.2) :: st.blobs := by
          rw [hst₁]
        have hst₁rest : st₁.trees = st.trees ∧ st₁.commits = st.commits ∧
            st₁.refs = st.refs ∧ st₁.pulls = st.pulls ∧ st₁.nextPr = st.nextPr ∧
            st₁.authUser = st.authUser ∧ st₁.nextSha = st.nextSha + 1 := by
          rw [hst₁]; exact ⟨rfl, rfl, rfl, rfl, rfl, rfl, rfl⟩
        refine ⟨htr.trans hst₁rest.1, hcm.trans hst₁rest.2.1, hrf.trans hst₁rest.2.2.1,
          hpl.trans hst₁rest.2.2.2.1, hnp.trans hst₁rest.2.2.2.2.1,
          hau.trans hst₁rest.2.2.2.2.2.1, ?_, ?_, st.nextSha :: shas', ?_, ?_, ?_⟩
        · calc st.nextSha ≤ st.nextSha + 1 := Nat.le_succ _
            _ = st₁.nextSha := hst₁rest.2.2.2.2.2.2.symm
            _ ≤ st₂.nextSha := hle
        · refine ⟨l₂ ++ [(st.nextSha, f.2)], ?_, ?_⟩
          · rw [hbl₂, hst₁blobs]
            simp
          · intro p hp
            have h6 := hst₁rest.2.2.2.2.2.2
            rcases List.mem_append.1 hp with hp | hp
            · obtain ⟨ha, hb2⟩ := hbk₂ p hp
              omega
            · simp at hp
              subst hp
              simp only []
              omega
        · simp [hlen]
        · rw [← h1, hitems']
          simp [List.zip_cons_cons]
        · intro fs hfs'
          rcases List.mem_cons.1 (by simpa [List.zip_cons_cons] using hfs') with h9 | h9
          · subst h9
            constructor
            · show lookupA st₂.blobs st.nextSha = some f.2
              rw [hbl₂]
              have hkey : ∀ p ∈ l₂, st.nextSha + 1 ≤ p.1 := by
                intro p hp
                have := hbk₂ p hp
                have h6 := hst₁rest.2.2.2.2.2.2
                omega
              rw [lookupA_append_ge hkey (Nat.lt_succ_self _), hst₁blobs,
                lookupA_cons_self]
            · show st.nextSha < st₂.nextSha
              have h6 := hst₁rest.2.2.2.2.2.2
              omega
          · exact hfs fs h9

theorem foldItems_append (a b : List TreeEntry) (acc : List TreeEntry × RemoteState) :
    foldItems (a ++ b) acc = foldItems b (foldItems a acc) := by
  unfold foldItems
  rw [List.foldl_append]

theorem mem_zip_left {α β : Type} (l : List α) :
    ∀ (l' : List β), l.length ≤ l'.length → ∀ a ∈ l, ∃ b, (a, b) ∈ l.zip l' := by
  induction l with
  | nil =>
    intro l' _ a ha
    simp at ha
  | cons x xs ih =>
    intro l' hlen a ha
    cases l' with
    | nil => simp at hlen
    | cons y ys =>
      rcases List.mem_cons.1 ha with rfl | ha'
      · exact ⟨y, by rw [List.zip_cons_cons]; exact List.mem_cons_self _ _⟩
      · obtain ⟨b, hb⟩ := ih ys (by simp at hlen; omega) a ha'
        exact ⟨b, by rw [List.zip_cons_cons]; exact List.mem_cons_of_mem _ hb⟩

theorem getLast_of_ne_nil {α : Type} (l : List α) (h : l ≠ []) :
    ∃ a, l.getLast? = some a :=
  ⟨l.getLast h, List.getLast?_eq_getLast l h⟩

/-- Success characterisation of the tree-sync chat-log handler: when the
call reports a commit id, the branch ref was moved to a single fresh
commit whose parent is the head that was read, whose tree carries every
filtered local `.chat` file at its remote path with its content, and
well-formedness is preserved. -/
theorem handleSaveAndUploadChatLog_ok {pn uid : String}
    {lfs : List (String × String)} {st₀ : RemoteState}
    {res : ChatSyncResult} {st' : RemoteState} {cNew : Nat}
    (h : handleSaveAndUploadChatLog pn uid lfs st₀ = (res, st'))
    (hwf : WF st₀)
    (hpw : (lfs.filter (fun f => strEndsWith f.1 ".chat")).Pairwise (fun f g =>
      SegDisjoint (splitPath (posixJoin [posixJoin [pn, uid, ".chat"], f.1]))
        (splitPath (posixJoin [posixJoin [pn, uid, ".chat"], g.1]))))
    (hc : res.commit_sha = some cNew) :
    res.status = "success" ∧ WF st' ∧ st₀.nextSha ≤ cNew ∧
    ∃ h0, lookupS st₀.refs "heads/main" = some h0 ∧
      st'.refs = setS st₀.refs "heads/main" cNew ∧
      lookupS st'.refs "heads/main" = some cNew ∧
      st'.commits.length = st₀.commits.length + 1 ∧
      ∃ tNew rootEntries,
        lookupA st'.commits cNew =
          some ⟨tNew, h0, "Sync chat logs from " ++ pn ++ " for " ++ uid⟩ ∧
        lookupA st'.trees tNew = some rootEntries ∧
        ∀ f ∈ lfs.filter (fun f => strEndsWith f.1 ".chat"),
          ∃ e : TreeEntry,
            resolve st'.trees rootEntries
              (splitPath (posixJoin [posixJoin [pn, uid, ".chat"], f.1])) = some e ∧
            e.type = "blob" ∧ lookupA st'.blobs e.sha = some f.2 := by
  simp only [handleSaveAndUploadChatLog] at h
  split at h
  · simp only [Prod.mk.injEq] at h
    rw [← h.1] at hc
    have hc2 : (none : Option Nat) = some cNew := hc
    simp at hc2
  split at h
  · simp only [Prod.mk.injEq] at h
    rw [← h.1] at hc
    have hc2 : (none : Option Nat) = some cNew := hc
    simp at hc2
  rename_i latestCommitSha st₁ heq₁
  split at h
  · simp only [Prod.mk.injEq] at h
    rw [← h.1] at hc
    have hc2 : (none : Option Nat) = some cNew := hc
    simp at hc2
  rename_i latestCommit st₂ heq₂
  split at h
  · simp only [Prod.mk.injEq] at h
    rw [← h.1] at hc
    have hc2 : (none : Option Nat) = some cNew := hc
    simp at hc2
  rename_i baseTree st₃ heq₃
  split at h
  · simp only [Prod.mk.injEq] at h
    rw [← h.1] at hc
    have hc2 : (none : Option Nat) = some cNew := hc
    simp at hc2
  rename_i newFileItems st₄ heq₄
  split at h
  · simp only [Prod.mk.injEq] at h
    rw [← h.1] at hc
    have hc2 : (none : Option Nat) = some cNew := hc
    simp at hc2
  rename_i newTreeSha st₅ heq₅
  split at h
  · simp only [Prod.mk.injEq] at h
    rw [← h.1] at hc
    have hc2 : (none : Option Nat) = some cNew := hc
    simp at hc2
  rename_i newCommitSha st₆ heq₆
  split at h
  · simp only [Prod.mk.injEq] at h
    rw [← h.1] at hc
    have hc2 : (none : Option Nat) = some cNew := hc
    simp at hc2
  rename_i u st₇ heq₇
  simp only [Prod.mk.injEq] at h
  obtain ⟨hres, hst'⟩ := h
  subst hst'
  rw [← hres] at hc ⊢
  have hc' : some newCommitSha = some cNew := hc
  obtain rfl : newCommitSha = cNew := Option.some.inj hc'
  have hst₁ : st₁ = st₀.stamp .readE := by
    have h2 := getRef_snd "heads/main" st₀
    rw [heq₁] at h2
    exact h2
  have hh0 : lookupS st₀.refs "heads/main" = some latestCommitSha :=
    getRef_ok_lookup heq₁
  subst hst₁
  have hst₂ : st₂ = (st₀.stamp .readE).stamp .readE := by
    have h2 := getCommit_snd latestCommitSha (st₀.stamp .readE)
    rw [heq₂] at h2
    exact h2
  have hcmt0 := getCommit_ok_lookup heq₂
  have hcmt : lookupA st₀.commits latestCommitSha = some latestCommit := hcmt0
  subst hst₂
  have hst₃ : st₃ = ((st₀.stamp .readE).stamp .readE).stamp .readE := by
    have h2 := getTree_snd latestCommit.treeSha ((st₀.stamp .readE).stamp .readE)
    rw [heq₃] at h2
    exact h2
  have hbt0 := getTree_ok_lookup heq₃
  have hbt : lookupA st₀.trees latestCommit.treeSha = some baseTree := hbt0
  subst hst₃
  obtain ⟨hT4, hC4, hR4, hP4, hNp4, hAu4, hle4, ⟨lb, hblobs4, hlb⟩,
    shas, hlen, hitems, hfs⟩ := createBlobsLoop_ok _ _ _ heq₄
  have hT40 : st₄.trees = st₀.trees := hT4
  have hC40 : st₄.commits = st₀.commits := hC4
  have hR40 : st₄.refs = st₀.refs := hR4
  have hP40 : st₄.pulls = st₀.pulls := hP4
  have hNp40 : st₄.nextPr = st₀.nextPr := hNp4
  have hle40 : st₀.nextSha ≤ st₄.nextSha := hle4
  have hblobs40 : st₄.blobs = lb ++ st₀.blobs := hblobs4
  have hlb0 : ∀ p ∈ lb, st₀.nextSha ≤ p.1 ∧ p.1 < st₄.nextSha := hlb
  obtain ⟨base, es', stF, hbase, hfold, hroot, hst₅⟩ := createTree_ok heq₅
  rw [hT40, hbt] at hbase
  obtain rfl : baseTree = base := Option.some.inj hbase
  rw [foldItems_append] at hfold
  rcases hfk : foldItems
      (baseTree.filter
        (fun item => ! strStartsWith item.path (posixJoin [pn, uid, ".chat"] ++ "/")))
      (baseTree, st₄.stamp .treeE) with ⟨eK, stK⟩
  rw [hfk] at hfold
  have hle4S : st₀.nextSha ≤ (st₄.stamp .treeE).nextSha := hle40
  have hTstS : TreesLt (st₄.stamp .treeE) := by
    intro p hp
    have hp0 : p ∈ st₀.trees := by
      have he : (st₄.stamp .treeE).trees = st₀.trees := hT40
      rwa [he] at hp
    obtain ⟨h1, h2⟩ := hwf.2.1 p hp0
    exact ⟨lt_of_lt_of_le h1 hle4S, EntriesLt_mono hle4S h2⟩
  have hEbase : EntriesLt baseTree (st₄.stamp .treeE).nextSha := by
    have hmem := lookupA_mem hbt
    exact EntriesLt_mono hle4S (hwf.2.1 _ hmem).2
  have hkeep : ∀ it ∈ baseTree.filter
      (fun item => ! strStartsWith item.path (posixJoin [pn, uid, ".chat"] ++ "/")),
      it.sha < (st₄.stamp .treeE).nextSha := by
    intro it hit
    exact hEbase it (List.mem_of_mem_filter hit)
  obtain ⟨hTK, hEK⟩ := foldItems_wf _ _ _ hfk hTstS hEbase hkeep
  obtain ⟨hbK, hcK, hrK, hpK, hnpK, hauK, hevK, hflK, hleK, lK, htrK, hlK⟩ :=
    foldItems_state _ _ _ hfk
  have hleK' : st₄.nextSha ≤ stK.nextSha := hleK
  have hnewsha : ∀ it ∈ newFileItems, it.sha < stK.nextSha := by
    intro it hit
    rw [hitems] at hit
    obtain ⟨fs, hfsm, rfl⟩ := List.mem_map.1 hit
    exact lt_of_lt_of_le (hfs fs hfsm).2 hleK'
  have hlenle : (lfs.filter (fun f => strEndsWith f.1 ".chat")).length ≤ shas.length :=
    le_of_eq hlen.symm
  have hmapfst : ((lfs.filter (fun f => strEndsWith f.1 ".chat")).zip shas).map Prod.fst =
      lfs.filter (fun f => strEndsWith f.1 ".chat") :=
    List.map_fst_zip _ _ hlenle
  have hpw' := hpw
  rw [← hmapfst] at hpw'
  have hpwz := List.pairwise_map.1 hpw'
  have hpwN : newFileItems.Pairwise
      (fun a b => SegDisjoint (splitPath a.path) (splitPath b.path)) := by
    rw [hitems]
    exact List.pairwise_map.2 hpwz
  obtain ⟨hTF, hEF⟩ := foldItems_wf _ _ _ hfold hTK hEK hnewsha
  obtain ⟨hbF, hcF, hrF, hpF, hnpF, hauF, hevF, hflF, hleF, lF, htrF, hlF⟩ :=
    foldItems_state _ _ _ hfold
  have hits := foldItems_hits _ _ _ hfold hTK hEK hnewsha hpwN
  obtain ⟨hcS, hst₆⟩ := createCommit_ok heq₆
  obtain ⟨cur, cobj, hcur, hcobj2, hparc, hst₇⟩ := updateRef_ok heq₇
  have hFr : stF.nextSha = newTreeSha := hroot.symm
  have hn5 : st₅.nextSha = newTreeSha + 1 := by
    rw [hst₅]
  have hn6 : st₆.nextSha = newTreeSha + 2 := by
    rw [hst₆]
    show st₅.nextSha + 1 = newTreeSha + 2
    rw [hn5]
  have hn7 : st₇.nextSha = newTreeSha + 2 := by
    rw [hst₇]
    show st₆.nextSha = newTreeSha + 2
    exact hn6
  have hcS' : newCommitSha = newTreeSha + 1 := by
    rw [hcS, hn5]
  have hr50 : st₅.refs = st₀.refs := by
    rw [hst₅]
    show stF.refs = st₀.refs
    rw [hrF, hrK]
    show st₄.refs = st₀.refs
    exact hR40
  have hr60 : st₆.refs = st₀.refs := by
    rw [hst₆]
    show st₅.refs = st₀.refs
    exact hr50
  have hrf7 : st₇.refs = setS st₀.refs "heads/main" newCommitSha := by
    rw [hst₇]
    show setS st₆.refs "heads/main" newCommitSha = setS st₀.refs "heads/main" newCommitSha
    rw [hr60]
  have hb50 : st₅.blobs = lb ++ st₀.blobs := by
    rw [hst₅]
    show stF.blobs = lb ++ st₀.blobs
    rw [hbF, hbK]
    show st₄.blobs = lb ++ st₀.blobs
    exact hblobs40
  have hb70 : st₇.blobs = lb ++ st₀.blobs := by
    rw [hst₇]
    show st₆.blobs = lb ++ st₀.blobs
    rw [hst₆]
    show st₅.blobs = lb ++ st₀.blobs
    exact hb50
  have hb74 : st₇.blobs = st₄.blobs := by
    rw [hb70, hblobs40]
  have hc50 : st₅.commits = st₀.commits := by
    rw [hst₅]
    show stF.commits = st₀.commits
    rw [hcF, hcK]
    show st₄.commits = st₀.commits
    exact hC40
  have hc7 : st₇.commits =
      (newCommitSha, (⟨newTreeSha, latestCommitSha,
        "Sync chat logs from " ++ pn ++ " for " ++ uid⟩ : CommitObj)) :: st₀.commits := by
    rw [hst₇]
    show st₆.commits = (newCommitSha, (⟨newTreeSha, latestCommitSha,
      "Sync chat logs from " ++ pn ++ " for " ++ uid⟩ : CommitObj)) :: st₀.commits
    rw [hst₆]
    show (st₅.nextSha, (⟨newTreeSha, latestCommitSha,
      "Sync chat logs from " ++ pn ++ " for " ++ uid⟩ : CommitObj)) :: st₅.commits = _
    rw [← hcS, hc50]
  have htr7 : st₇.trees = (newTreeSha, es') :: stF.trees := by
    rw [hst₇]
    show st₆.trees = (newTreeSha, es') :: stF.trees
    rw [hst₆]
    show st₅.trees = (newTreeSha, es') :: stF.trees
    rw [hst₅]
  have hp70 : st₇.pulls = st₀.pulls := by
    rw [hst₇]
    show st₆.pulls = st₀.pulls
    rw [hst₆]
    show st₅.pulls = st₀.pulls
    rw [hst₅]
    show stF.pulls = st₀.pulls
    rw [hpF, hpK]
    show st₄.pulls = st₀.pulls
    exact hP40
  have hq70 : st₇.nextPr = st₀.nextPr := by
    rw [hst₇]
    show st₆.nextPr = st₀.nextPr
    rw [hst₆]
    show st₅.nextPr = st₀.nextPr
    rw [hst₅]
    show stF.nextPr = st₀.nextPr
    rw [hnpF, hnpK]
    show st₄.nextPr = st₀.nextPr
    exact hNp40
  have hKF : stK.nextSha ≤ stF.nextSha := hleF
  refine ⟨rfl, ?_, ?_, latestCommitSha, hh0, hrf7, ?_, ?_, newTreeSha, es', ?_, ?_, ?_⟩
  · refine ⟨?_, ?_, ?_, ?_, ?_⟩
    · intro p hp
      rw [hb70] at hp
      rw [hn7]
      rcases List.mem_append.1 hp with hp | hp
      · obtain ⟨h1, h2⟩ := hlb0 p hp
        omega
      · have := hwf.1 p hp
        omega
    · intro p hp
      rw [htr7] at hp
      rcases List.mem_cons.1 hp with rfl | hp
      · constructor
        · show newTreeSha < st₇.nextSha
          rw [hn7]
          omega
        · show EntriesLt es' st₇.nextSha
          rw [hn7]
          exact EntriesLt_mono (by omega) hEF
      · obtain ⟨h1, h2⟩ := hTF p hp
        constructor
        · rw [hn7]
          omega
        · rw [hn7]
          exact EntriesLt_mono (by omega) h2
    · intro p hp
      rw [hc7] at hp
      rw [hn7]
      rcases List.mem_cons.1 hp with rfl | hp
      · show newCommitSha < newTreeSha + 2
        omega
      · have := hwf.2.2.1 p hp
        omega
    · rw [hrf7, hn7]
      exact setS_lt (fun p hp => by have := hwf.2.2.2.1 p hp; omega) (by omega)
    · intro q hq
      rw [hp70] at hq
      rw [hq70]
      exact hwf.2.2.2.2 q hq
  · omega
  · rw [hrf7]
    exact lookupS_setS_self newCommitSha hh0
  · rw [hc7]
    simp
  · rw [hc7]
    exact lookupA_cons_self _ _ _
  · rw [htr7]
    exact lookupA_cons_self _ _ _
  · intro f hf
    obtain ⟨s, hmem⟩ := mem_zip_left _ shas hlenle f hf
    have hitmem : (⟨posixJoin [posixJoin [pn, uid, ".chat"], f.1],
        "100644", "blob", s⟩ : TreeEntry) ∈ newFileItems := by
      rw [hitems]
      exact List.mem_map_of_mem _ hmem
    obtain ⟨lastSeg, hlast⟩ := getLast_of_ne_nil _
      (splitPath_ne_nil (posixJoin [posixJoin [pn, uid, ".chat"], f.1]))
    have hresv := hits _ hitmem lastSeg hlast
    have hl1 : ∀ p ∈ [((newTreeSha : Nat), es')], stF.nextSha ≤ p.1 := by
      intro p hp
      have hp' : p = (newTreeSha, es') := by simpa using hp
      rw [hp']
      show stF.nextSha ≤ newTreeSha
      omega
    have hstep : resolve st₇.trees es'
        (splitPath (posixJoin [posixJoin [pn, uid, ".chat"], f.1])) =
        resolve stF.trees es'
        (splitPath (posixJoin [posixJoin [pn, uid, ".chat"], f.1])) := by
      rw [htr7]
      exact resolve_append_ge hl1 hTF
        (splitPath (posixJoin [posixJoin [pn, uid, ".chat"], f.1])) es' hEF
    refine ⟨⟨lastSeg, "100644", "blob", s⟩, ?_, rfl, ?_⟩
    · rw [hstep]
      exact hresv
    · show lookupA st₇.blobs s = some f.2
      rw [hb74]
      exact (hfs (f, s) hmem).1

theorem createBlobsLoop_err (files : List (String × String)) :
    ∀ (dir : String) (st : RemoteState) {e : GhError} {st' : RemoteState},
      createBlobsLoop dir files st = (.error e, st') →
      st'.trees = st.trees ∧ st'.commits = st.commits ∧ st'.refs = st.refs ∧
      st'.pulls = st.pulls ∧ st.nextSha ≤ st'.nextSha ∧
      ∃ l, st'.blobs = l ++ st.blobs ∧ ∀ p ∈ l, st.nextSha ≤ p.1 := by
  induction files with
  | nil =>
    intro dir st e st' h
    unfold createBlobsLoop at h
    simp at h
  | cons f rest ih =>
    intro dir st e st' h
    rcases hb : createBlob f.2 st with ⟨x1, st₁⟩
    simp only [createBlobsLoop, hb] at h
    cases x1 with
    | error e1 =>
      have h' : ((Except.error e1 : Except GhError (List TreeEntry)), st₁)
          = (Except.error e, st') := h
      simp only [Prod.mk.injEq, Except.error.injEq] at h'
      obtain ⟨he, hst⟩ := h'
      subst hst
      have hst₁ := createBlob_err hb
      subst hst₁
      exact ⟨rfl, rfl, rfl, rfl, le_refl _, [], by simp [RemoteState.stamp], by simp⟩
    | ok sha =>
      have h' : (match createBlobsLoop dir rest st₁ with
          | (Except.error e, st) => (Except.error e, st)
          | (Except.ok items, st) =>
            (Except.ok
              (({ path := posixJoin [dir, f.1], mode := "100644", type := "blob",
                  sha := sha } : TreeEntry) :: items), st))
          = ((Except.error e : Except GhError (List TreeEntry)), st') := h
      rcases hl : createBlobsLoop dir rest st₁ with ⟨x2, st₂⟩
      rw [hl] at h'
      cases x2 with
      | error e2 =>
        have h'' : ((Except.error e2 : Except GhError (List TreeEntry)), st₂)
            = (Except.error e, st') := h'
        simp only [Prod.mk.injEq, Except.error.injEq] at h''
        obtain ⟨he, hst⟩ := h''
        subst hst
        obtain ⟨hsha, hst₁⟩ := createBlob_ok hb
        obtain ⟨ht, hcm, hrf, hpl, hle, l₂, hbl, hbk⟩ := ih dir st₁ hl
        have hst₁blobs : st₁.blobs = (st.nextSha, f.2) :: st.blobs := by
          rw [hst₁]
        have hst₁rest : st₁.trees = st.trees ∧ st₁.commits = st.commits ∧
            st₁.refs = st.refs ∧ st₁.pulls = st.pulls ∧
            st₁.nextSha = st.nextSha + 1 := by
          rw [hst₁]; exact ⟨rfl, rfl, rfl, rfl, rfl⟩
        refine ⟨ht.trans hst₁rest.1, hcm.trans hst₁rest.2.1, hrf.trans hst₁rest.2.2.1,
          hpl.trans hst₁rest.2.2.2.1, ?_, l₂ ++ [(st.nextSha, f.2)], ?_, ?_⟩
        · have h6 := hst₁rest.2.2.2.2
          omega
        · rw [hbl, hst₁blobs]
          simp
        · intro p hp
          have h6 := hst₁rest.2.2.2.2
          rcases List.mem_append.1 hp with hp | hp
          · have := hbk p hp
            omega
          · simp at hp
            subst hp
            simp only []
            omega
      | ok items =>
        have h'' : ((Except.ok
            (({ path := posixJoin [dir, f.1], mode := "100644", type := "blob",
                sha := sha } : TreeEntry) :: items) : Except GhError (List TreeEntry)), st₂)
            = (Except.error e, st') := h'
        simp at h''

/-- Failure characterisation of the tree-sync chat-log handler: when the
call reports no commit id, the branch ref is exactly as before, and the
object stores have only gained objects with fresh ids, so every
pre-existing blob, tree and commit is untouched. -/
theorem handleSaveAndUploadChatLog_noCommit {pn uid : String}
    {lfs : List (String × String)} {st₀ : RemoteState}
    {res : ChatSyncResult} {st' : RemoteState}
    (h : handleSaveAndUploadChatLog pn uid lfs st₀ = (res, st'))
    (hc : res.commit_sha = none) :
    st'.refs = st₀.refs ∧
    (∃ l, st'.blobs = l ++ st₀.blobs ∧ ∀ p ∈ l, st₀.nextSha ≤ p.1) ∧
    (∃ l, st'.trees = l ++ st₀.trees ∧ ∀ p ∈ l, st₀.nextSha ≤ p.1) ∧
    (∃ l, st'.commits = l ++ st₀.commits ∧ ∀ p ∈ l, st₀.nextSha ≤ p.1) := by
  simp only [handleSaveAndUploadChatLog] at h
  split at h
  · simp only [Prod.mk.injEq] at h
    obtain ⟨hres, hst'⟩ := h
    subst hst'
    exact ⟨rfl, ⟨[], by simp, by simp⟩, ⟨[], by simp, by simp⟩, ⟨[], by simp, by simp⟩⟩
  split at h
  · rename_i e₁ stE heq₁
    simp only [Prod.mk.injEq] at h
    obtain ⟨hres, hst'⟩ := h
    subst hst'
    have hsnd := getRef_snd "heads/main" st₀
    rw [heq₁] at hsnd
    have hstE : stE = st₀.stamp .readE := hsnd
    subst hstE
    exact ⟨rfl, ⟨[], by simp [RemoteState.stamp], by simp⟩,
      ⟨[], by simp [RemoteState.stamp], by simp⟩,
      ⟨[], by simp [RemoteState.stamp], by simp⟩⟩
  rename_i latestCommitSha st₁ heq₁
  have hst₁ : st₁ = st₀.stamp .readE := by
    have h2 := getRef_snd "heads/main" st₀
    rw [heq₁] at h2
    exact h2
  subst hst₁
  split at h
  · rename_i e₂ stE heq₂
    simp only [Prod.mk.injEq] at h
    obtain ⟨hres, hst'⟩ := h
    subst hst'
    have hsnd := getCommit_snd latestCommitSha (st₀.stamp .readE)
    rw [heq₂] at hsnd
    have hstE : stE = (st₀.stamp .readE).stamp .readE := hsnd
    subst hstE
    exact ⟨rfl, ⟨[], by simp [RemoteState.stamp], by simp⟩,
      ⟨[], by simp [RemoteState.stamp], by simp⟩,
      ⟨[], by simp [RemoteState.stamp], by simp⟩⟩
  rename_i latestCommit st₂ heq₂
  have hst₂ : st₂ = (st₀.stamp .readE).stamp .readE := by
    have h2 := getCommit_snd latestCommitSha (st₀.stamp .readE)
    rw [heq₂] at h2
    exact h2
  subst hst₂
  split at h
  · rename_i e₃ stE heq₃
    simp only [Prod.mk.injEq] at h
    obtain ⟨hres, hst'⟩ := h
    subst hst'
    have hsnd := getTree_snd latestCommit.treeSha ((st₀.stamp .readE).stamp .readE)
    rw [heq₃] at hsnd
    have hstE : stE = ((st₀.stamp .readE).stamp .readE).stamp .readE := hsnd
    subst hstE
    exact ⟨rfl, ⟨[], by simp [RemoteState.stamp], by simp⟩,
      ⟨[], by simp [RemoteState.stamp], by simp⟩,
      ⟨[], by simp [RemoteState.stamp], by simp⟩⟩
  rename_i baseTree st₃ heq₃
  have hst₃ : st₃ = ((st₀.stamp .readE).stamp .readE).stamp .readE := by
    have h2 := getTree_snd latestCommit.treeSha ((st₀.stamp .readE).stamp .readE)
    rw [heq₃] at h2
    exact h2
  subst hst₃
  split at h
  · rename_i e₄ stE heq₄
    simp only [Prod.mk.injEq] at h
    obtain ⟨hres, hst'⟩ := h
    subst hst'
    obtain ⟨ht, hcm, hrf, hpl, hle, l₂, hbl, hbk⟩ := createBlobsLoop_err _ _ _ heq₄
    refine ⟨?_, ⟨l₂, ?_, ?_⟩, ⟨[], ?_, by simp⟩, ⟨[], ?_, by simp⟩⟩
    · exact hrf
    · exact hbl
    · intro p hp
      exact hbk p hp
    · rw [List.nil_append]
      exact ht
    · rw [List.nil_append]
      exact hcm
  rename_i newFileItems st₄ heq₄
  obtain ⟨hT4, hC4, hR4, hP4, hNp4, hAu4, hle4, ⟨lb, hblobs4, hlb⟩,
    shas, hlen, hitems, hfs⟩ := createBlobsLoop_ok _ _ _ heq₄
  have hT40 : st₄.trees = st₀.trees := hT4
  have hC40 : st₄.commits = st₀.commits := hC4
  have hR40 : st₄.refs = st₀.refs := hR4
  have hle40 : st₀.nextSha ≤ st₄.nextSha := hle4
  have hblobs40 : st₄.blobs = lb ++ st₀.blobs := hblobs4
  have hlb0 : ∀ p ∈ lb, st₀.nextSha ≤ p.1 ∧ p.1 < st₄.nextSha := hlb
  split at h
  · rename_i e₅ stE heq₅
    simp only [Prod.mk.injEq] at h
    obtain ⟨hres, hst'⟩ := h
    subst hst'
    have hstE := createTree_err heq₅
    subst hstE
    refine ⟨?_, ⟨lb, ?_, ?_⟩, ⟨[], ?_, by simp⟩, ⟨[], ?_, by simp⟩⟩
    · show st₄.refs = st₀.refs
      exact hR40
    · show st₄.blobs = lb ++ st₀.blobs
      exact hblobs40
    · intro p hp
      exact (hlb0 p hp).1
    · rw [List.nil_append]
      show st₄.trees = st₀.trees
      exact hT40
    · rw [List.nil_append]
      show st₄.commits = st₀.commits
      exact hC40
  rename_i newTreeSha st₅ heq₅
  obtain ⟨base, es', stF, hbase, hfold, hroot, hst₅⟩ := createTree_ok heq₅
  rw [foldItems_append] at hfold
  rcases hfk : foldItems
      (baseTree.filter
        (fun item => ! strStartsWith item.path (posixJoin [pn, uid, ".chat"] ++ "/")))
      (base, st₄.stamp .treeE) with ⟨eK, stK⟩
  rw [hfk] at hfold
  obtain ⟨hbK, hcK, hrK, hpK, hnpK, hauK, hevK, hflK, hleK, lK, htrK, hlK⟩ :=
    foldItems_state _ _ _ hfk
  obtain ⟨hbF, hcF, hrF, hpF, hnpF, hauF, hevF, hflF, hleF, lF, htrF, hlF⟩ :=
    foldItems_state _ _ _ hfold
  have hleK' : st₄.nextSha ≤ stK.nextSha := hleK
  have hlK' : ∀ p ∈ lK, st₄.nextSha ≤ p.1 := hlK
  have hr50 : st₅.refs = st₀.refs := by
    rw [hst₅]
    show stF.refs = st₀.refs
    rw [hrF, hrK]
    show st₄.refs = st₀.refs
    exact hR40
  have hb5 : st₅.blobs = lb ++ st₀.blobs := by
    rw [hst₅]
    show stF.blobs = lb ++ st₀.blobs
    rw [hbF, hbK]
    show st₄.blobs = lb ++ st₀.blobs
    exact hblobs40
  have hc50 : st₅.commits = st₀.commits := by
    rw [hst₅]
    show stF.commits = st₀.commits
    rw [hcF, hcK]
    show st₄.commits = st₀.commits
    exact hC40
  have htr5 : st₅.trees = ((newTreeSha, es') :: (lF ++ lK)) ++ st₀.trees := by
    rw [hst₅]
    show (newTreeSha, es') :: stF.trees = ((newTreeSha, es') :: (lF ++ lK)) ++ st₀.trees
    rw [htrF, htrK]
    show (newTreeSha, es') :: (lF ++ (lK ++ st₄.trees)) =
      ((newTreeSha, es') :: (lF ++ lK)) ++ st₀.trees
    rw [hT40]
    simp [List.append_assoc]
  have htr5b : ∀ p ∈ (newTreeSha, es') :: (lF ++ lK), st₀.nextSha ≤ p.1 := by
    intro p hp
    rcases List.mem_cons.1 hp with rfl | hp
    · show st₀.nextSha ≤ newTreeSha
      omega
    · rcases List.mem_append.1 hp with hp | hp
      · have := hlF p hp
        omega
      · have := hlK' p hp
        omega
  split at h
  · rename_i e₆ stE heq₆
    simp only [Prod.mk.injEq] at h
    obtain ⟨hres, hst'⟩ := h
    subst hst'
    have hstE := createCommit_err heq₆
    subst hstE
    refine ⟨?_, ⟨lb, ?_, ?_⟩, ⟨(newTreeSha, es') :: (lF ++ lK), ?_, htr5b⟩,
      ⟨[], ?_, by simp⟩⟩
    · show st₅.refs = st₀.refs
      exact hr50
    · show st₅.blobs = lb ++ st₀.blobs
      exact hb5
    · intro p hp
      exact (hlb0 p hp).1
    · show st₅.trees = ((newTreeSha, es') :: (lF ++ lK)) ++ st₀.trees
      exact htr5
    · rw [List.nil_append]
      show st₅.commits = st₀.commits
      exact hc50
  rename_i newCommitSha st₆ heq₆
  obtain ⟨hcS, hst₆⟩ := createCommit_ok heq₆
  have hn5 : st₅.nextSha = newTreeSha + 1 := by
    rw [hst₅]
  split at h
  · rename_i e₇ stE heq₇
    simp only [Prod.mk.injEq] at h
    obtain ⟨hres, hst'⟩ := h
    subst hst'
    have hstE := updateRef_err heq₇
    subst hstE
    refine ⟨?_, ⟨lb, ?_, ?_⟩, ⟨(newTreeSha, es') :: (lF ++ lK), ?_, htr5b⟩,
      ⟨[(st₅.nextSha, ⟨newTreeSha, latestCommitSha,
        "Sync chat logs from " ++ pn ++ " for " ++ uid⟩)], ?_, ?_⟩⟩
    · show st₆.refs = st₀.refs
      rw [hst₆]
      show st₅.refs = st₀.refs
      exact hr50
    · show st₆.blobs = lb ++ st₀.blobs
      rw [hst₆]
      show st₅.blobs = lb ++ st₀.blobs
      exact hb5
    · intro p hp
      exact (hlb0 p hp).1
    · show st₆.trees = ((newTreeSha, es') :: (lF ++ lK)) ++ st₀.trees
      rw [hst₆]
      show st₅.trees = ((newTreeSha, es') :: (lF ++ lK)) ++ st₀.trees
      exact htr5
    · show st₆.commits = _ ++ st₀.commits
      rw [hst₆]
      show (st₅.nextSha, (⟨newTreeSha, latestCommitSha,
        "Sync chat logs from " ++ pn ++ " for " ++ uid⟩ : CommitObj)) :: st₅.commits = _
      rw [hc50]
      rfl
    · intro p hp
      simp at hp
      subst hp
      show st₀.nextSha ≤ st₅.nextSha
      omega
  rename_i u st₇ heq₇
  simp only [Prod.mk.injEq] at h
  obtain ⟨hres, hst'⟩ := h
  rw [← hres] at hc
  have hc2 : (some newCommitSha : Option Nat) = none := hc
  simp at hc2

theorem validateSyncPromptArgs_ok {a : SyncPromptArgs} {pn pm pc : String}
    (h : validateSyncPromptArgs a = .ok (pn, pm, pc)) :
    a.projectName = some pn ∧ a.promptName = some pm ∧ a.promptContent = some pc := by
  unfold validateSyncPromptArgs at h
  rcases h1 : a.projectName with _ | x <;> rcases h2 : a.promptName with _ | y <;>
    rcases h3 : a.promptContent with _ | z <;> rw [h1, h2, h3] at h <;> simp at h
  obtain ⟨hx, hy, hz⟩ := h
  subst hx
  subst hy
  subst hz
  exact ⟨rfl, rfl, rfl⟩

/-- Success characterisation of sync_prompt: when the call reports a
commit id, the three arguments passed validation, the branch ref was
moved to a single fresh commit whose parent is the head that was read,
and the new tree resolves the target path to a blob holding the prompt
content. -/
theorem handleSyncPrompt_ok {args : SyncPromptArgs} {st₀ : RemoteState}
    {res : SyncPromptResult} {st' : RemoteState} {cNew : Nat}
    (h : handleSyncPrompt args st₀ = (res, st'))
    (hwf : WF st₀)
    (hc : res.commit_sha = some cNew) :
    res.status = "success" ∧ WF st' ∧ st₀.nextSha ≤ cNew ∧
    ∃ pn pm pc, args.projectName = some pn ∧ args.promptName = some pm ∧
      args.promptContent = some pc ∧
      res.github_path = some (posixJoin ["synced_prompts", pn, pm ++ ".md"]) ∧
      ∃ h0, lookupS st₀.refs "heads/main" = some h0 ∧
        st'.refs = setS st₀.refs "heads/main" cNew ∧
        lookupS st'.refs "heads/main" = some cNew ∧
        st'.commits.length = st₀.commits.length + 1 ∧
        ∃ tNew rootEntries obj,
          lookupA st'.commits cNew = some obj ∧ obj.treeSha = tNew ∧
          obj.parentSha = h0 ∧
          lookupA st'.trees tNew = some rootEntries ∧
          ∃ e : TreeEntry,
            resolve st'.trees rootEntries
              (splitPath (posixJoin ["synced_prompts", pn, pm ++ ".md"])) = some e ∧
            e.type = "blob" ∧ lookupA st'.blobs e.sha = some pc := by
  simp only [handleSyncPrompt] at h
  split at h
  · simp only [Prod.mk.injEq] at h
    rw [← h.1] at hc
    have hc2 : (none : Option Nat) = some cNew := hc
    simp at hc2
  rename_i pn pm pc heqV
  split at h
  · simp only [Prod.mk.injEq] at h
    rw [← h.1] at hc
    have hc2 : (none : Option Nat) = some cNew := hc
    simp at hc2
  rename_i resp st₁ heq₀
  have hst₁ : st₁ = st₀.stamp .readE := by
    have h2 := getContents_snd (posixJoin ["synced_prompts", pn, pm ++ ".md"]) "main" st₀
    rw [heq₀] at h2
    exact h2
  subst hst₁
  split at h
  · simp only [Prod.mk.injEq] at h
    rw [← h.1] at hc
    have hc2 : (none : Option Nat) = some cNew := hc
    simp at hc2
  rename_i latestCommitSha st₂ heq₁
  have hst₂ : st₂ = (st₀.stamp .readE).stamp .readE := by
    have h2 := getRef_snd "heads/main" (st₀.stamp .readE)
    rw [heq₁] at h2
    exact h2
  subst hst₂
  have hh0 : lookupS st₀.refs "heads/main" = some latestCommitSha := by
    have h2 := getRef_ok_lookup heq₁
    exact h2
  split at h
  · simp only [Prod.mk.injEq] at h
    rw [← h.1] at hc
    have hc2 : (none : Option Nat) = some cNew := hc
    simp at hc2
  rename_i latestCommit st₃ heq₂
  have hst₃ : st₃ = ((st₀.stamp .readE).stamp .readE).stamp .readE := by
    have h2 := getCommit_snd latestCommitSha ((st₀.stamp .readE).stamp .readE)
    rw [heq₂] at h2
    exact h2
  subst hst₃
  split at h
  · simp only [Prod.mk.injEq] at h
    rw [← h.1] at hc
    have hc2 : (none : Option Nat) = some cNew := hc
    simp at hc2
  rename_i blobSha st₄ heq₃
  obtain ⟨hsha, hst₄⟩ := createBlob_ok heq₃
  have hsha' : blobSha = st₀.nextSha := hsha
  have hb4 : st₄.blobs = (st₀.nextSha, pc) :: st₀.blobs := by rw [hst₄]; rfl
  have ht4 : st₄.trees = st₀.trees := by rw [hst₄]; rfl
  have hc4 : st₄.commits = st₀.commits := by rw [hst₄]; rfl
  have hr4 : st₄.refs = st₀.refs := by rw [hst₄]; rfl
  have hp4 : st₄.pulls = st₀.pulls := by rw [hst₄]; rfl
  have hq4 : st₄.nextPr = st₀.nextPr := by rw [hst₄]; rfl
  have hn4 : st₄.nextSha = st₀.nextSha + 1 := by rw [hst₄]; rfl
  split at h
  · simp only [Prod.mk.injEq] at h
    rw [← h.1] at hc
    have hc2 : (none : Option Nat) = some cNew := hc
    simp at hc2
  rename_i newTreeSha st₅ heq₅
  obtain ⟨base, es', stF, hbase, hfold, hroot, hst₅⟩ := createTree_ok heq₅
  rw [ht4] at hbase
  have hTstS : TreesLt (st₄.stamp .treeE) := by
    intro p hp
    have hp0 : p ∈ st₀.trees := by
      have he : (st₄.stamp .treeE).trees = st₀.trees := ht4
      rwa [he] at hp
    obtain ⟨h1, h2⟩ := hwf.2.1 p hp0
    constructor
    · show p.1 < st₄.nextSha
      omega
    · have h3 : EntriesLt p.2 st₄.nextSha := EntriesLt_mono (by omega) h2
      exact h3
  have hEbase : EntriesLt base (st₄.stamp .treeE).nextSha := by
    have hmem := lookupA_mem hbase
    have h3 : EntriesLt base st₄.nextSha :=
      EntriesLt_mono (by omega) (hwf.2.1 _ hmem).2
    exact h3
  have hitemsha : ∀ it ∈ [(⟨posixJoin ["synced_prompts", pn, pm ++ ".md"],
      "100644", "blob", blobSha⟩ : TreeEntry)],
      it.sha < (st₄.stamp .treeE).nextSha := by
    intro it hit
    simp at hit
    subst hit
    show blobSha < st₄.nextSha
    omega
  obtain ⟨hTF, hEF⟩ := foldItems_wf _ _ _ hfold hTstS hEbase hitemsha
  obtain ⟨hbF, hcF, hrF, hpF, hnpF, hauF, hevF, hflF, hleF, lF, htrF, hlF⟩ :=
    foldItems_state _ _ _ hfold
  have hleF' : st₄.nextSha ≤ stF.nextSha := hleF
  have hpwN : ([(⟨posixJoin ["synced_prompts", pn, pm ++ ".md"],
      "100644", "blob", blobSha⟩ : TreeEntry)]).Pairwise
      (fun a b => SegDisjoint (splitPath a.path) (splitPath b.path)) := by
    simp
  have hits := foldItems_hits _ _ _ hfold hTstS hEbase hitemsha hpwN
  split at h
  · simp only [Prod.mk.injEq] at h
    rw [← h.1] at hc
    have hc2 : (none : Option Nat) = some cNew := hc
    simp at hc2
  rename_i newCommitSha st₆ heq₆
  obtain ⟨hcS, hst₆⟩ := createCommit_ok heq₆
  split at h
  · simp only [Prod.mk.injEq] at h
    rw [← h.1] at hc
    have hc2 : (none : Option Nat) = some cNew := hc
    simp at hc2
  rename_i u st₇ heq₇
  obtain ⟨cur, cobj, hcur, hcobj2, hparc, hst₇⟩ := updateRef_ok heq₇
  simp only [Prod.mk.injEq] at h
  obtain ⟨hres, hst'⟩ := h
  subst hst'
  rw [← hres] at hc ⊢
  have hc' : some newCommitSha = some cNew := hc
  obtain rfl : newCommitSha = cNew := Option.some.inj hc'
  have hFr : stF.nextSha = newTreeSha := hroot.symm
  have hn5 : st₅.nextSha = newTreeSha + 1 := by
    rw [hst₅]
  have hn6 : st₆.nextSha = newTreeSha + 2 := by
    rw [hst₆]
    show st₅.nextSha + 1 = newTreeSha + 2
    rw [hn5]
  have hn7 : st₇.nextSha = newTreeSha + 2 := by
    rw [hst₇]
    show st₆.nextSha = newTreeSha + 2
    exact hn6
  have hcS' : newCommitSha = newTreeSha + 1 := by
    rw [hcS, hn5]
  have hr50 : st₅.refs = st₀.refs := by
    rw [hst₅]
    show stF.refs = st₀.refs
    rw [hrF]
    show st₄.refs = st₀.refs
    exact hr4
  have hr60 : st₆.refs = st₀.refs := by
    rw [hst₆]
    show st₅.refs = st₀.refs
    exact hr50
  have hrf7 : st₇.refs = setS st₀.refs "heads/main" newCommitSha := by
    rw [hst₇]
    show setS st₆.refs "heads/main" newCommitSha = setS st₀.refs "heads/main" newCommitSha
    rw [hr60]
  have hb50 : st₅.blobs = (st₀.nextSha, pc) :: st₀.blobs := by
    rw [hst₅]
    show stF.blobs = (st₀.nextSha, pc) :: st₀.blobs
    rw [hbF]
    show st₄.blobs = (st₀.nextSha, pc) :: st₀.blobs
    exact hb4
  have hb70 : st₇.blobs = (st₀.nextSha, pc) :: st₀.blobs := by
    rw [hst₇]
    show st₆.blobs = (st₀.nextSha, pc) :: st₀.blobs
    rw [hst₆]
    show st₅.blobs = (st₀.nextSha, pc) :: st₀.blobs
    exact hb50
  have hc50 : st₅.commits = st₀.commits := by
    rw [hst₅]
    show stF.commits = st₀.commits
    rw [hcF]
    show st₄.commits = st₀.commits
    exact hc4
  obtain ⟨M, hc6⟩ : ∃ M, st₆.commits =
      (st₅.nextSha, (⟨newTreeSha, latestCommitSha, M⟩ : CommitObj)) :: st₅.commits :=
    ⟨_, by rw [hst₆]⟩
  have hc7 : st₇.commits =
      (newCommitSha, (⟨newTreeSha, latestCommitSha, M⟩ : CommitObj)) :: st₀.commits := by
    rw [hst₇]
    show st₆.commits =
      (newCommitSha, (⟨newTreeSha, latestCommitSha, M⟩ : CommitObj)) :: st₀.commits
    rw [hc6, ← hcS, hc50]
  have htr7 : st₇.trees = (newTreeSha, es') :: stF.trees := by
    rw [hst₇]
    show st₆.trees = (newTreeSha, es') :: stF.trees
    rw [hst₆]
    show st₅.trees = (newTreeSha, es') :: stF.trees
    rw [hst₅]
  have hp70 : st₇.pulls = st₀.pulls := by
    rw [hst₇]
    show st₆.pulls = st₀.pulls
    rw [hst₆]
    show st₅.pulls = st₀.pulls
    rw [hst₅]
    show stF.pulls = st₀.pulls
    rw [hpF]
    show st₄.pulls = st₀.pulls
    exact hp4
  have hq70 : st₇.nextPr = st₀.nextPr := by
    rw [hst₇]
    show st₆.nextPr = st₀.nextPr
    rw [hst₆]
    show st₅.nextPr = st₀.nextPr
    rw [hst₅]
    show stF.nextPr = st₀.nextPr
    rw [hnpF]
    show st₄.nextPr = st₀.nextPr
    exact hq4
  obtain ⟨hvp, hvm, hvc⟩ := validateSyncPromptArgs_ok heqV
  refine ⟨rfl, ?_, ?_, pn, pm, pc, hvp, hvm, hvc, rfl, latestCommitSha, hh0,
    hrf7, ?_, ?_, newTreeSha, es', ⟨newTreeSha, latestCommitSha, M⟩, ?_, rfl, rfl,
    ?_, ?_⟩
  · refine ⟨?_, ?_, ?_, ?_, ?_⟩
    · intro p hp
      rw [hb70] at hp
      rw [hn7]
      rcases List.mem_cons.1 hp with rfl | hp
      · show st₀.nextSha < newTreeSha + 2
        omega
      · have := hwf.1 p hp
        omega
    · intro p hp
      rw [htr7] at hp
      rcases List.mem_cons.1 hp with rfl | hp
      · constructor
        · show newTreeSha < st₇.nextSha
          rw [hn7]
          omega
        · show EntriesLt es' st₇.nextSha
          rw [hn7]
          exact EntriesLt_mono (by omega) hEF
      · obtain ⟨h1, h2⟩ := hTF p hp
        constructor
        · rw [hn7]
          omega
        · rw [hn7]
          exact EntriesLt_mono (by omega) h2
    · intro p hp
      rw [hc7] at hp
      rw [hn7]
      rcases List.mem_cons.1 hp with rfl | hp
      · show newCommitSha < newTreeSha + 2
        omega
      · have := hwf.2.2.1 p hp
        omega
    · rw [hrf7, hn7]
      exact setS_lt (fun p hp => by have := hwf.2.2.2.1 p hp; omega) (by omega)
    · intro q hq
      rw [hp70] at hq
      rw [hq70]
      exact hwf.2.2.2.2 q hq
  · omega
  · rw [hrf7]
    exact lookupS_setS_self newCommitSha hh0
  · rw [hc7]
    simp
  · rw [hc7]
    exact lookupA_cons_self _ _ _
  · rw [htr7]
    exact lookupA_cons_self _ _ _
  · obtain ⟨lastSeg, hlast⟩ := getLast_of_ne_nil _
      (splitPath_ne_nil (posixJoin ["synced_prompts", pn, pm ++ ".md"]))
    have hresv := hits (⟨posixJoin ["synced_prompts", pn, pm ++ ".md"],
      "100644", "blob", blobSha⟩ : TreeEntry) (by simp) lastSeg hlast
    have hl1 : ∀ p ∈ [((newTreeSha : Nat), es')], stF.nextSha ≤ p.1 := by
      intro p hp
      have hp' : p = (newTreeSha, es') := by simpa using hp
      rw [hp']
      show stF.nextSha ≤ newTreeSha
      omega
    have hstep : resolve st₇.trees es'
        (splitPath (posixJoin ["synced_prompts", pn, pm ++ ".md"])) =
        resolve stF.trees es'
        (splitPath (posixJoin ["synced_prompts", pn, pm ++ ".md"])) := by
      rw [htr7]
      exact resolve_append_ge hl1 hTF
        (splitPath (posixJoin ["synced_prompts", pn, pm ++ ".md"])) es' hEF
    refine ⟨⟨lastSeg, "100644", "blob", blobSha⟩, ?_, rfl, ?_⟩
    · rw [hstep]
      exact hresv
    · show lookupA st₇.blobs blobSha = some pc
      rw [hb70, hsha']
      exact lookupA_cons_self _ _ _

/-- Failure characterisation of sync_prompt: when the call reports no
commit id, the branch ref is exactly as before and the object stores have
only gained objects with fresh ids. -/
theorem handleSyncPrompt_noCommit {args : SyncPromptArgs} {st₀ : RemoteState}
    {res : SyncPromptResult} {st' : RemoteState}
    (h : handleSyncPrompt args st₀ = (res, st'))
    (hc : res.commit_sha = none) :
    st'.refs = st₀.refs ∧
    (∃ l, st'.blobs = l ++ st₀.blobs ∧ ∀ p ∈ l, st₀.nextSha ≤ p.1) ∧
    (∃ l, st'.trees = l ++ st₀.trees ∧ ∀ p ∈ l, st₀.nextSha ≤ p.1) ∧
    (∃ l, st'.commits = l ++ st₀.commits ∧ ∀ p ∈ l, st₀.nextSha ≤ p.1) := by
  simp only [handleSyncPrompt] at h
  split at h
  · simp only [Prod.mk.injEq] at h
    obtain ⟨hres, hst'⟩ := h
    subst hst'
    exact ⟨rfl, ⟨[], by simp, by simp⟩, ⟨[], by simp, by simp⟩, ⟨[], by simp, by simp⟩⟩
  rename_i pn pm pc heqV
  split at h
  · rename_i e₀ stE heq₀
    simp only [Prod.mk.injEq] at h
    obtain ⟨hres, hst'⟩ := h
    subst hst'
    have hsnd := getContents_snd (posixJoin ["synced_prompts", pn, pm ++ ".md"]) "main" st₀
    rw [heq₀] at hsnd
    have hstE : stE = st₀.stamp .readE := hsnd
    subst hstE
    exact ⟨rfl, ⟨[], by simp [RemoteState.stamp], by simp⟩,
      ⟨[], by simp [RemoteState.stamp], by simp⟩,
      ⟨[], by simp [RemoteState.stamp], by simp⟩⟩
  rename_i resp st₁ heq₀
  have hst₁ : st₁ = st₀.stamp .readE := by
    have h2 := getContents_snd (posixJoin ["synced_prompts", pn, pm ++ ".md"]) "main" st₀
    rw [heq₀] at h2
    exact h2
  subst hst₁
  split at h
  · rename_i e₁ stE heq₁
    simp only [Prod.mk.injEq] at h
    obtain ⟨hres, hst'⟩ := h
    subst hst'
    have hsnd := getRef_snd "heads/main" (st₀.stamp .readE)
    rw [heq₁] at hsnd
    have hstE : stE = (st₀.stamp .readE).stamp .readE := hsnd
    subst hstE
    exact ⟨rfl, ⟨[], by simp [RemoteState.stamp], by simp⟩,
      ⟨[], by simp [RemoteState.stamp], by simp⟩,
      ⟨[], by simp [RemoteState.stamp], by simp⟩⟩
  rename_i latestCommitSha st₂ heq₁
  have hst₂ : st₂ = (st₀.stamp .readE).stamp .readE := by
    have h2 := getRef_snd "heads/main" (st₀.stamp .readE)
    rw [heq₁] at h2
    exact h2
  subst hst₂
  split at h
  · rename_i e₂ stE heq₂
    simp only [Prod.mk.injEq] at h
    obtain ⟨hres, hst'⟩ := h
    subst hst'
    have hsnd := getCommit_snd latestCommitSha ((st₀.stamp .readE).stamp .readE)
    rw [heq₂] at hsnd
    have hstE : stE = ((st₀.stamp .readE).stamp .readE).stamp .readE := hsnd
    subst hstE
    exact ⟨rfl, ⟨[], by simp [RemoteState.stamp], by simp⟩,
      ⟨[], by simp [RemoteState.stamp], by simp⟩,
      ⟨[], by simp [RemoteState.stamp], by simp⟩⟩
  rename_i latestCommit st₃ heq₂
  have hst₃ : st₃ = ((st₀.stamp .readE).stamp .readE).stamp .readE := by
    have h2 := getCommit_snd latestCommitSha ((st₀.stamp .readE).stamp .readE)
    rw [heq₂] at h2
    exact h2
  subst hst₃
  split at h
  · rename_i e₃ stE heq₃
    simp only [Prod.mk.injEq] at h
    obtain ⟨hres, hst'⟩ := h
    subst hst'
    have hstE := createBlob_err heq₃
    subst hstE
    exact ⟨rfl, ⟨[], by simp [RemoteState.stamp], by simp⟩,
      ⟨[], by simp [RemoteState.stamp], by simp⟩,
      ⟨[], by simp [RemoteState.stamp], by simp⟩⟩
  rename_i blobSha st₄ heq₃
  obtain ⟨hsha, hst₄⟩ := createBlob_ok heq₃
  have hb4 : st₄.blobs = (st₀.nextSha, pc) :: st₀.blobs := by rw [hst₄]; rfl
  have ht4 : st₄.trees = st₀.trees := by rw [hst₄]; rfl
  have hc4 : st₄.commits = st₀.commits := by rw [hst₄]; rfl
  have hr4 : st₄.refs = st₀.refs := by rw [hst₄]; rfl
  have hn4 : st₄.nextSha = st₀.nextSha + 1 := by rw [hst₄]; rfl
  split at h
  · rename_i e₅ stE heq₅
    simp only [Prod.mk.injEq] at h
    obtain ⟨hres, hst'⟩ := h
    subst hst'
    have hstE := createTree_err heq₅
    subst hstE
    refine ⟨?_, ⟨[(st₀.nextSha, pc)], ?_, ?_⟩, ⟨[], ?_, by simp⟩, ⟨[], ?_, by simp⟩⟩
    · show st₄.refs = st₀.refs
      exact hr4
    · show st₄.blobs = [(st₀.nextSha, pc)] ++ st₀.blobs
      rw [hb4]
      rfl
    · intro p hp
      simp at hp
      subst hp
      simp
    · rw [List.nil_append]
      show st₄.trees = st₀.trees
      exact ht4
    · rw [List.nil_append]
      show st₄.commits = st₀.commits
      exact hc4
  rename_i newTreeSha st₅ heq₅
  obtain ⟨base, es', stF, hbase, hfold, hroot, hst₅⟩ := createTree_ok heq₅
  obtain ⟨hbF, hcF, hrF, hpF, hnpF, hauF, hevF, hflF, hleF, lF, htrF, hlF⟩ :=
    foldItems_state _ _ _ hfold
  have hleF' : st₄.nextSha ≤ stF.nextSha := hleF
  have hlF' : ∀ p ∈ lF, st₄.nextSha ≤ p.1 := hlF
  have hr50 : st₅.refs = st₀.refs := by
    rw [hst₅]
    show stF.refs = st₀.refs
    rw [hrF]
    show st₄.refs = st₀.refs
    exact hr4
  have hb50 : st₅.blobs = (st₀.nextSha, pc) :: st₀.blobs := by
    rw [hst₅]
    show stF.blobs = (st₀.nextSha, pc) :: st₀.blobs
    rw [hbF]
    show st₄.blobs = (st₀.nextSha, pc) :: st₀.blobs
    exact hb4
  have hc50 : st₅.commits = st₀.commits := by
    rw [hst₅]
    show stF.commits = st₀.commits
    rw [hcF]
    show st₄.commits = st₀.commits
    exact hc4
  have htr5 : st₅.trees = ((newTreeSha, es') :: lF) ++ st₀.trees := by
    rw [hst₅]
    show (newTreeSha, es') :: stF.trees = ((newTreeSha, es') :: lF) ++ st₀.trees
    rw [htrF]
    show (newTreeSha, es') :: (lF ++ st₄.trees) = ((newTreeSha, es') :: lF) ++ st₀.trees
    rw [ht4]
    simp
  have htr5b : ∀ p ∈ (newTreeSha, es') :: lF, st₀.nextSha ≤ p.1 := by
    intro p hp
    rcases List.mem_cons.1 hp with rfl | hp
    · show st₀.nextSha ≤ newTreeSha
      omega
    · have := hlF' p hp
      omega
  split at h
  · rename_i e₆ stE heq₆
    simp only [Prod.mk.injEq] at h
    obtain ⟨hres, hst'⟩ := h
    subst hst'
    have hstE := createCommit_err heq₆
    subst hstE
    refine ⟨?_, ⟨[(st₀.nextSha, pc)], ?_, ?_⟩,
      ⟨(newTreeSha, es') :: lF, ?_, htr5b⟩, ⟨[], ?_, by simp⟩⟩
    · show st₅.refs = st₀.refs
      exact hr50
    · show st₅.blobs = [(st₀.nextSha, pc)] ++ st₀.blobs
      rw [hb50]
      rfl
    · intro p hp
      simp at hp
      subst hp
      simp
    · show st₅.trees = ((newTreeSha, es') :: lF) ++ st₀.trees
      exact htr5
    · rw [List.nil_append]
      show st₅.commits = st₀.commits
      exact hc50
  rename_i newCommitSha st₆ heq₆
  obtain ⟨hcS, hst₆⟩ := createCommit_ok heq₆
  obtain ⟨M, hc6⟩ : ∃ M, st₆.commits =
      (st₅.nextSha, (⟨newTreeSha, latestCommitSha, M⟩ : CommitObj)) :: st₅.commits :=
    ⟨_, by rw [hst₆]⟩
  have hn5 : st₅.nextSha = newTreeSha + 1 := by
    rw [hst₅]
  split at h
  · rename_i e₇ stE heq₇
    simp only [Prod.mk.injEq] at h
    obtain ⟨hres, hst'⟩ := h
    subst hst'
    have hstE := updateRef_err heq₇
    subst hstE
    refine ⟨?_, ⟨[(st₀.nextSha, pc)], ?_, ?_⟩,
      ⟨(newTreeSha, es') :: lF, ?_, htr5b⟩,
      ⟨[(st₅.nextSha, (⟨newTreeSha, latestCommitSha, M⟩ : CommitObj))], ?_, ?_⟩⟩
    · show st₆.refs = st₀.refs
      rw [hst₆]
      show st₅.refs = st₀.refs
      exact hr50
    · show st₆.blobs = [(st₀.nextSha, pc)] ++ st₀.blobs
      rw [hst₆]
      show st₅.blobs = [(st₀.nextSha, pc)] ++ st₀.blobs
      rw [hb50]
      rfl
    · intro p hp
      simp at hp
      subst hp
      simp
    · show st₆.trees = ((newTreeSha, es') :: lF) ++ st₀.trees
      rw [hst₆]
      show st₅.trees = ((newTreeSha, es') :: lF) ++ st₀.trees
      exact htr5
    · show st₆.commits = _ ++ st₀.commits
      rw [hc6, hc50]
      rfl
    · intro p hp
      simp at hp
      subst hp
      show st₀.nextSha ≤ st₅.nextSha
      omega
  rename_i u st₇ heq₇
  simp only [Prod.mk.injEq] at h
  obtain ⟨hres, hst'⟩ := h
  rw [← hres] at hc
  have hc2 : (some newCommitSha : Option Nat) = none := hc
  simp at hc2

theorem lookupS_mem {α : Type} {l : List (String × α)} {k : String} {v : α}
    (h : lookupS l k = some v) : (k, v) ∈ l := by
  unfold lookupS at h
  rcases hf : l.find? (fun p => p.1 = k) with _ | p
  · rw [hf] at h; simp at h
  · rw [hf] at h
    simp at h
    have hmem := List.mem_of_find?_eq_some hf
    have hp := List.find?_some hf
    simp at hp
    rcases p with ⟨k', v'⟩
    simp at hp h
    subst hp; subst h
    exact hmem

theorem lookupS_cons_self {α : Type} (l : List (String × α)) (k : String) (v : α) :
    lookupS ((k, v) :: l) k = some v := by
  simp [lookupS, List.find?_cons_of_pos]

theorem validateSuggestRunbookArgs_ok {a : SuggestRunbookArgs} {c tf : String}
    (h : validateSuggestRunbookArgs a = .ok (c, tf)) :
    a.content = some c ∧ a.target_folder = some tf := by
  unfold validateSuggestRunbookArgs at h
  rcases h1 : a.content with _ | x <;> rcases h2 : a.target_folder with _ | y <;>
    rw [h1, h2] at h <;> simp at h
  split at h
  · simp at h
    obtain ⟨hx, hy⟩ := h
    subst hx
    subst hy
    exact ⟨rfl, rfl⟩
  · simp at h

theorem validateCreateSpecArgs_ok {a : CreateSpecArgs} {sn c : String}
    (h : validateCreateSpecArgs a = .ok (sn, c)) :
    a.spec_name = some sn ∧ a.content = some c := by
  unfold validateCreateSpecArgs at h
  rcases h1 : a.spec_name with _ | x <;> rcases h2 : a.content with _ | y <;>
    rw [h1, h2] at h <;> simp at h
  obtain ⟨hx, hy⟩ := h
  subst hx
  subst hy
  exact ⟨rfl, rfl⟩

/-! ## Claim theorems -/

/-- C1: the chat-log sync is claimed to prune every previously synced path
under the scope prefix that is not re-upserted in the call.  In the code
the base-tree listing is one level deep, so the prefix filter never
matches and, through base-tree inheritance, a stale scoped file stays
reachable from the new commit: syncing only `new.chat` leaves
`proj/user/.chat/old.chat` resolving to its old blob from the new head. -/
theorem C1_staleScopedChatSurvives :
    (handleSaveAndUploadChatLog "proj" "user" [("new.chat", "nc")] cexState).1.status
      = "success" ∧
    (handleSaveAndUploadChatLog "proj" "user" [("new.chat", "nc")] cexState).1.commit_sha
      = some 25 ∧
    lookupS (handleSaveAndUploadChatLog "proj" "user"
      [("new.chat", "nc")] cexState).2.refs "heads/main" = some 25 ∧
    lookupA (handleSaveAndUploadChatLog "proj" "user"
      [("new.chat", "nc")] cexState).2.commits 25 =
      some ⟨24, 10, "Sync chat logs from proj for user"⟩ ∧
    lookupA (handleSaveAndUploadChatLog "proj" "user"
      [("new.chat", "nc")] cexState).2.trees 24 =
      some [⟨"proj", "040000", "tree", 23⟩, ⟨"README.md", "100644", "blob", 9⟩] ∧
    resolve (handleSaveAndUploadChatLog "proj" "user"
      [("new.chat", "nc")] cexState).2.trees
      [⟨"proj", "040000", "tree", 23⟩, ⟨"README.md", "100644", "blob", 9⟩]
      ["proj", "user", ".chat", "old.chat"] = some ⟨"old.chat", "100644", "blob", 4⟩ ∧
    lookupA (handleSaveAndUploadChatLog "proj" "user"
      [("new.chat", "nc")] cexState).2.blobs 4 = some "old content" :=
  ⟨rfl, rfl, rfl, rfl, rfl, rfl, rfl⟩

/-- C4 (amended): when the filtered change set is empty the chat-log sync
short-circuits before any remote call and returns success with NO commit
identifier and the state unchanged; it does not report the branch's
current head. -/
theorem C4_emptyChangeSetNoCommit (pn uid : String) (lfs : List (String × String))
    (st₀ : RemoteState)
    (h : (lfs.filter (fun f => strEndsWith f.1 ".chat")).isEmpty = true) :
    handleSaveAndUploadChatLog pn uid lfs st₀ =
      ({ status := "success", message := "No chat log files found locally to sync.",
         commit_sha := none, commit_url := none }, st₀) := by
  simp only [handleSaveAndUploadChatLog]
  rw [if_pos h]

theorem C4_emptyChangeSetNoCommit_witness :
    (([("notes.md", "c")] : List (String × String)).filter
      (fun f => strEndsWith f.1 ".chat")).isEmpty = true ∧
    handleSaveAndUploadChatLog "p" "u" [("notes.md", "c")] cexState =
      ({ status := "success", message := "No chat log files found locally to sync.",
         commit_sha := none, commit_url := none }, cexState) :=
  ⟨by decide, C4_emptyChangeSetNoCommit "p" "u" [("notes.md", "c")] cexState (by decide)⟩

/-- C4 counterexample: on the concrete remote the branch head is commit
10, yet the empty-set sync reports no commit identifier at all, so the
result's commit identifier does not equal the current head. -/
theorem C4_commitShaIsNoneNotHead :
    lookupS cexState.refs "heads/main" = some 10 ∧
    (handleSaveAndUploadChatLog "p" "u" [] cexState).1.commit_sha = none ∧
    (handleSaveAndUploadChatLog "p" "u" [] cexState).1.commit_sha ≠ some 10 :=
  ⟨rfl, rfl, by decide⟩

/-- C5 (amended): every caller-facing handler returns a flat result whose
status is drawn from a fixed set; the git-database handlers use only
"success" and "error", but the current single-PUT chat-log handler also
returns "partial_success" when the local save worked and the upload
failed. -/
theorem C5_flatStatusSets :
    (∀ env : SaveUploadEnv, (saveAndUploadChatLogStatus env).status = "success" ∨
      (saveAndUploadChatLogStatus env).status = "error" ∨
      (saveAndUploadChatLogStatus env).status = "partial_success") ∧
    (∀ (pn uid : String) (lfs : List (String × String)) (st₀ : RemoteState),
      (handleSaveAndUploadChatLog pn uid lfs st₀).1.status = "success" ∨
      (handleSaveAndUploadChatLog pn uid lfs st₀).1.status = "error") ∧
    (∀ (args : SyncPromptArgs) (st₀ : RemoteState),
      (handleSyncPrompt args st₀).1.status = "success" ∨
      (handleSyncPrompt args st₀).1.status = "error") ∧
    (∀ (args : SuggestRunbookArgs) (now : Nat) (st₀ : RemoteState),
      (handleSuggestRunbook args now st₀).1.status = "success" ∨
      (handleSuggestRunbook args now st₀).1.status = "error") ∧
    (∀ (args : CreateSpecArgs) (st₀ : RemoteState),
      (handleCreateSpec args st₀).1.status = "success" ∨
      (handleCreateSpec args st₀).1.status = "error") := by
  refine ⟨?_, ?_, ?_, ?_, ?_⟩
  · intro env
    unfold saveAndUploadChatLogStatus
    repeat' split
    all_goals simp
  · intro pn uid lfs st₀
    simp only [handleSaveAndUploadChatLog]
    repeat' split
    all_goals simp [chatLogErr]
  · intro args st₀
    simp only [handleSyncPrompt]
    repeat' split
    all_goals simp [syncPromptErr]
  · intro args now st₀
    simp only [handleSuggestRunbook]
    repeat' split
    all_goals simp [suggestErr]
  · intro args st₀
    simp only [handleCreateSpec]
    repeat' split
    all_goals simp [createSpecErr]

/-- C5 counterexample: a configured-token run whose upload request fails
with an HTTP error yields the status "partial_success", which is neither
"success" nor "error". -/
theorem C5_partialSuccessStatus :
    (saveAndUploadChatLogStatus
      ⟨"cursor", true, false, true, .httpFail "502 Bad Gateway" "backend down"⟩).status
      = "partial_success" ∧
    ("partial_success" : String) ≠ "success" ∧
    ("partial_success" : String) ≠ "error" :=
  ⟨rfl, by decide, by decide⟩

/-- C6 (amended): the contents GET wrapper turns a 404 into an empty
listing returned to the caller, but the ref read re-throws its 404: a
missing ref surfaces as an error, not as a "does not exist" result. -/
theorem C6_404TranslationSplit :
    (∀ (p b : String) (st : RemoteState), st.failures.headD false = false →
      contentLookup st b p = none →
      getContents p b st = (.ok (.listing []), st.stamp .readE)) ∧
    (∀ (r : String) (st : RemoteState), st.failures.headD false = false →
      lookupS st.refs r = none →
      getRef r st = (.error .notFound, st.stamp .readE)) := by
  constructor
  · intro p b st hf hl
    rw [getContents_eq, hf, if_neg Bool.false_ne_true, hl]
  · intro r st hf hl
    rw [getRef_eq, hf, if_neg Bool.false_ne_true, hl]

theorem C6_404TranslationSplit_witness :
    cexState.failures.headD false = false ∧
    contentLookup cexState "main" "nope.md" = none ∧
    lookupS cexState.refs "heads/nope" = none ∧
    getContents "nope.md" "main" cexState =
      (.ok (.listing []), cexState.stamp .readE) ∧
    getRef "heads/nope" cexState = (.error .notFound, cexState.stamp .readE) :=
  ⟨rfl, rfl, rfl,
    C6_404TranslationSplit.1 "nope.md" "main" cexState (by decide) (by decide),
    C6_404TranslationSplit.2 "heads/nope" cexState (by decide) (by decide)⟩

/-- C6 counterexample: on the concrete remote a missing path yields an
empty-listing success from the contents read, while a missing ref yields
a raised not-found error rather than a "does not exist" result. -/
theorem C6_refRead404IsError :
    (getContents "nope.md" "main" cexState).1 = .ok (.listing []) ∧
    (getRef "heads/nope" cexState).1 = .error .notFound ∧
    (∀ v : Nat, (Except.error GhError.notFound : Except GhError Nat) ≠ .ok v) :=
  ⟨rfl, rfl, fun v h => Except.noConfusion h⟩

/-- C8 (amended): the sync-prompt handler performs no change-set
validation beyond the zod presence check on its three string fields;
in particular a ".." project name passes validation, is normalised by the
posix join to a path outside the declared synced_prompts scope, and the
write succeeds silently. -/
theorem C8_presenceOnlyValidation :
    (∀ pn pm pc : String,
      validateSyncPromptArgs ⟨some pn, some pm, some pc⟩ = .ok (pn, pm, pc)) ∧
    posixJoin ["synced_prompts", "..", "escape.md"] = "escape.md" ∧
    (handleSyncPrompt ⟨some "..", some "escape", some "body"⟩ cexState).1.status
      = "success" ∧
    (handleSyncPrompt ⟨some "..", some "escape", some "body"⟩ cexState).1.github_path
      = some "escape.md" ∧
    (strStartsWith "escape.md" "synced_prompts/") = false :=
  ⟨fun pn pm pc => rfl, rfl, rfl, rfl, rfl⟩

/-- C8 counterexample: a change set whose path escapes the declared scope
prefix (project name "..") does not fail with any validation error; the
handler reports success, the target path is joined to the repository
root, and the new root tree binds `escape.md` outside `synced_prompts`. -/
theorem C8_scopeEscapeSucceeds :
    (handleSyncPrompt ⟨some "..", some "escape", some "body"⟩ cexState).1.status
      = "success" ∧
    (handleSyncPrompt ⟨some "..", some "escape", some "body"⟩ cexState).1.commit_sha
      = some 22 ∧
    lookupA (handleSyncPrompt ⟨some "..", some "escape", some "body"⟩ cexState).2.trees
      21 = some [⟨"proj", "040000", "tree", 1⟩, ⟨"README.md", "100644", "blob", 9⟩,
        ⟨"escape.md", "100644", "blob", 20⟩] ∧
    lookupA (handleSyncPrompt ⟨some "..", some "escape", some "body"⟩ cexState).2.blobs
      20 = some "body" :=
  ⟨rfl, rfl, rfl, rfl⟩

/-- C9: search_runbook processes exactly the first five items of the
search response (each mapped to its fetched content or a per-item failure
note) and reports the backend's total match count separately in the
message. -/
theorem C9_searchTopFiveWithTotal :
    (∀ (fetch : String → FetchOutcome) (m : String),
      handleSearchRunbook fetch (.error m) =
        { results := [], total_count := none,
          message := "An error occurred during runbook search: " ++ m }) ∧
    (∀ (fetch : String → FetchOutcome) (s : SearchResults),
      (handleSearchRunbook fetch (.ok s)).results =
        (s.items.take 5).map (processItem fetch) ∧
      (handleSearchRunbook fetch (.ok s)).results.length ≤ 5 ∧
      (handleSearchRunbook fetch (.ok s)).total_count = some s.total_count ∧
      (handleSearchRunbook fetch (.ok s)).message =
        "Found and processed " ++ toString ((s.items.take 5).length)
          ++ " results out of " ++ toString s.total_count ++ " total." ∧
      ∀ it ∈ s.items.take 5,
        (∃ c, fetch it.path = .fileContent c ∧
          processItem fetch it = ⟨it.path, it.fragment.getD "No snippet available",
            some c, it.html_url, none⟩) ∨
        ((processItem fetch it).full_content = none ∧
          ∃ m, (processItem fetch it).message = some m)) := by
  constructor
  · intro fetch m
    rfl
  · intro fetch s
    refine ⟨rfl, ?_, rfl, ?_, ?_⟩
    · show ((s.items.take 5).map (processItem fetch)).length ≤ 5
      rw [List.length_map, List.length_take]
      omega
    · show "Found and processed "
        ++ toString ((s.items.take 5).map (processItem fetch)).length
        ++ " results out of " ++ toString s.total_count ++ " total." = _
      rw [List.length_map]
    · intro it hit
      cases hf : fetch it.path with
      | fileContent c =>
        left
        exact ⟨c, rfl, by simp [processItem, hf]⟩
      | notFile =>
        right
        constructor
        · simp [processItem, hf]
        · exact ⟨"Could not fetch full content. Unexpected response type or missing content.",
            by simp [processItem, hf]⟩
      | fetchError m =>
        right
        constructor
        · simp [processItem, hf]
        · exact ⟨"Error fetching content: " ++ m, by simp [processItem, hf]⟩

/-- C7: whenever a chat-log sync reports a commit (the update succeeded,
which under the non-force ref-update precondition means no contention),
the branch head moves to the reported fresh commit, that commit's parent
is the head that was read, and the head strictly advances (never
rewinds): the new head is a strict descendant of the previous one. -/
theorem C7_headAdvancesToChild (pn uid : String) (lfs : List (String × String))
    (st₀ : RemoteState) (res : ChatSyncResult) (st' : RemoteState) (c : Nat)
    (h : handleSaveAndUploadChatLog pn uid lfs st₀ = (res, st'))
    (hwf : WF st₀)
    (hpw : (lfs.filter (fun f => strEndsWith f.1 ".chat")).Pairwise (fun f g =>
      SegDisjoint (splitPath (posixJoin [posixJoin [pn, uid, ".chat"], f.1]))
        (splitPath (posixJoin [posixJoin [pn, uid, ".chat"], g.1]))))
    (hc : res.commit_sha = some c) :
    ∃ h0, lookupS st₀.refs "heads/main" = some h0 ∧
      lookupS st'.refs "heads/main" = some c ∧
      (∃ t m, lookupA st'.commits c = some ⟨t, h0, m⟩) ∧
      h0 < c := by
  obtain ⟨hs, hwf', hle, h0, hh0, hset, hlk, hlen, tN, rE, hcm, htr, hres⟩ :=
    handleSaveAndUploadChatLog_ok h hwf hpw hc
  have hmem := lookupS_mem hh0
  have hb := hwf.2.2.2.1 _ hmem
  have hb' : h0 < st₀.nextSha := hb
  exact ⟨h0, hh0, hlk, ⟨tN, _, hcm⟩, by omega⟩

theorem C7_headAdvancesToChild_witness :
    WF cexState ∧
    ((([("a.chat", "x")] : List (String × String)).filter
      (fun f => strEndsWith f.1 ".chat")).Pairwise (fun f g =>
        SegDisjoint (splitPath (posixJoin [posixJoin ["proj", "user", ".chat"], f.1]))
          (splitPath (posixJoin [posixJoin ["proj", "user", ".chat"], g.1])))) ∧
    (handleSaveAndUploadChatLog "proj" "user" [("a.chat", "x")] cexState).1.commit_sha
      = some 25 ∧
    (∃ h0, lookupS cexState.refs "heads/main" = some h0 ∧
      lookupS (handleSaveAndUploadChatLog "proj" "user"
        [("a.chat", "x")] cexState).2.refs "heads/main" = some 25 ∧
      (∃ t m, lookupA (handleSaveAndUploadChatLog "proj" "user"
        [("a.chat", "x")] cexState).2.commits 25 = some ⟨t, h0, m⟩) ∧
      h0 < 25) :=
  ⟨by unfold WF TreesLt EntriesLt; decide, by decide, rfl,
    C7_headAdvancesToChild "proj" "user" [("a.chat", "x")] cexState _ _ 25 rfl
      (by unfold WF TreesLt EntriesLt; decide) (by decide) rfl⟩

/-- C2: both git-database sync handlers are atomic.  Either the call
reports a commit — then the branch moved to exactly one fresh commit
whose tree carries every requested path at its new content — or it
reports none, and the branch head is unchanged while the object stores
gained only fresh-keyed objects, so no pre-existing object (and hence no
reachable path) was touched. -/
theorem C2_atomicSync :
    (∀ (pn uid : String) (lfs : List (String × String)) (st₀ : RemoteState)
      (res : ChatSyncResult) (st' : RemoteState),
      handleSaveAndUploadChatLog pn uid lfs st₀ = (res, st') → WF st₀ →
      (lfs.filter (fun f => strEndsWith f.1 ".chat")).Pairwise (fun f g =>
        SegDisjoint (splitPath (posixJoin [posixJoin [pn, uid, ".chat"], f.1]))
          (splitPath (posixJoin [posixJoin [pn, uid, ".chat"], g.1]))) →
      (∃ c, res.commit_sha = some c ∧
        (∃ h0, lookupS st₀.refs "heads/main" = some h0 ∧
          st'.refs = setS st₀.refs "heads/main" c ∧
          st'.commits.length = st₀.commits.length + 1 ∧
          ∃ tNew rootEntries,
            lookupA st'.commits c =
              some ⟨tNew, h0, "Sync chat logs from " ++ pn ++ " for " ++ uid⟩ ∧
            lookupA st'.trees tNew = some rootEntries ∧
            ∀ f ∈ lfs.filter (fun f => strEndsWith f.1 ".chat"),
              ∃ e : TreeEntry, resolve st'.trees rootEntries
                  (splitPath (posixJoin [posixJoin [pn, uid, ".chat"], f.1])) = some e ∧
                e.type = "blob" ∧ lookupA st'.blobs e.sha = some f.2)) ∨
      (res.commit_sha = none ∧ st'.refs = st₀.refs ∧
        (∃ l, st'.blobs = l ++ st₀.blobs ∧ ∀ p ∈ l, st₀.nextSha ≤ p.1) ∧
        (∃ l, st'.trees = l ++ st₀.trees ∧ ∀ p ∈ l, st₀.nextSha ≤ p.1) ∧
        (∃ l, st'.commits = l ++ st₀.commits ∧ ∀ p ∈ l, st₀.nextSha ≤ p.1))) ∧
    (∀ (args : SyncPromptArgs) (st₀ : RemoteState) (res : SyncPromptResult)
      (st' : RemoteState),
      handleSyncPrompt args st₀ = (res, st') → WF st₀ →
      (∃ c, res.commit_sha = some c ∧
        ∃ pn pm pc, args.projectName = some pn ∧ args.promptName = some pm ∧
          args.promptContent = some pc ∧
          ∃ h0, lookupS st₀.refs "heads/main" = some h0 ∧
            st'.refs = setS st₀.refs "heads/main" c ∧
            st'.commits.length = st₀.commits.length + 1 ∧
            ∃ tNew rootEntries obj,
              lookupA st'.commits c = some obj ∧ obj.treeSha = tNew ∧
              obj.parentSha = h0 ∧
              lookupA st'.trees tNew = some rootEntries ∧
              ∃ e : TreeEntry, resolve st'.trees rootEntries
                  (splitPath (posixJoin ["synced_prompts", pn, pm ++ ".md"])) = some e ∧
                e.type = "blob" ∧ lookupA st'.blobs e.sha = some pc) ∨
      (res.commit_sha = none ∧ st'.refs = st₀.refs ∧
        (∃ l, st'.blobs = l ++ st₀.blobs ∧ ∀ p ∈ l, st₀.nextSha ≤ p.1) ∧
        (∃ l, st'.trees = l ++ st₀.trees ∧ ∀ p ∈ l, st₀.nextSha ≤ p.1) ∧
        (∃ l, st'.commits = l ++ st₀.commits ∧ ∀ p ∈ l, st₀.nextSha ≤ p.1))) := by
  constructor
  · intro pn uid lfs st₀ res st' h hwf hpw
    rcases hc : res.commit_sha with _ | c
    · right
      exact ⟨rfl, handleSaveAndUploadChatLog_noCommit h hc⟩
    · left
      obtain ⟨hs, hwf', hle, h0, hh0, hset, hlk, hlen, tN, rE, hcm, htr, hres⟩ :=
        handleSaveAndUploadChatLog_ok h hwf hpw hc
      exact ⟨c, rfl, h0, hh0, hset, hlen, tN, rE, hcm, htr, hres⟩
  · intro args st₀ res st' h hwf
    rcases hc : res.commit_sha with _ | c
    · right
      exact ⟨rfl, handleSyncPrompt_noCommit h hc⟩
    · left
      obtain ⟨hs, hwf', hle, pn, pm, pc, hvp, hvm, hvc, hgp, h0, hh0, hset, hlk,
        hlen, tN, rE, obj, hcm, hts, hps, htr, hres⟩ := handleSyncPrompt_ok h hwf hc
      exact ⟨c, rfl, pn, pm, pc, hvp, hvm, hvc, h0, hh0, hset, hlen,
        tN, rE, obj, hcm, hts, hps, htr, hres⟩

theorem C2_atomicSync_witness :
    WF cexState ∧
    ((([("a.chat", "x")] : List (String × String)).filter
      (fun f => strEndsWith f.1 ".chat")).Pairwise (fun f g =>
        SegDisjoint (splitPath (posixJoin [posixJoin ["proj", "user", ".chat"], f.1]))
          (splitPath (posixJoin [posixJoin ["proj", "user", ".chat"], g.1])))) ∧
    ((∃ c, (handleSaveAndUploadChatLog "proj" "user"
        [("a.chat", "x")] cexState).1.commit_sha = some c ∧
      (∃ h0, lookupS cexState.refs "heads/main" = some h0 ∧
        (handleSaveAndUploadChatLog "proj" "user"
          [("a.chat", "x")] cexState).2.refs = setS cexState.refs "heads/main" c ∧
        (handleSaveAndUploadChatLog "proj" "user"
          [("a.chat", "x")] cexState).2.commits.length = cexState.commits.length + 1 ∧
        ∃ tNew rootEntries,
          lookupA (handleSaveAndUploadChatLog "proj" "user"
            [("a.chat", "x")] cexState).2.commits c =
            some ⟨tNew, h0, "Sync chat logs from " ++ "proj" ++ " for " ++ "user"⟩ ∧
          lookupA (handleSaveAndUploadChatLog "proj" "user"
            [("a.chat", "x")] cexState).2.trees tNew = some rootEntries ∧
          ∀ f ∈ ([("a.chat", "x")] : List (String × String)).filter
              (fun f => strEndsWith f.1 ".chat"),
            ∃ e : TreeEntry, resolve (handleSaveAndUploadChatLog "proj" "user"
                [("a.chat", "x")] cexState).2.trees rootEntries
                (splitPath (posixJoin [posixJoin ["proj", "user", ".chat"], f.1]))
                = some e ∧
              e.type = "blob" ∧ lookupA (handleSaveAndUploadChatLog "proj" "user"
                [("a.chat", "x")] cexState).2.blobs e.sha = some f.2)) ∨
     ((handleSaveAndUploadChatLog "proj" "user"
        [("a.chat", "x")] cexState).1.commit_sha = none ∧
      (handleSaveAndUploadChatLog "proj" "user"
        [("a.chat", "x")] cexState).2.refs = cexState.refs ∧
      (∃ l, (handleSaveAndUploadChatLog "proj" "user"
        [("a.chat", "x")] cexState).2.blobs = l ++ cexState.blobs ∧
        ∀ p ∈ l, cexState.nextSha ≤ p.1) ∧
      (∃ l, (handleSaveAndUploadChatLog "proj" "user"
        [("a.chat", "x")] cexState).2.trees = l ++ cexState.trees ∧
        ∀ p ∈ l, cexState.nextSha ≤ p.1) ∧
      (∃ l, (handleSaveAndUploadChatLog "proj" "user"
        [("a.chat", "x")] cexState).2.commits = l ++ cexState.commits ∧
        ∀ p ∈ l, cexState.nextSha ≤ p.1))) :=
  ⟨by unfold WF TreesLt EntriesLt; decide, by decide,
    C2_atomicSync.1 "proj" "user" [("a.chat", "x")] cexState _ _ rfl
      (by unfold WF TreesLt EntriesLt; decide) (by decide)⟩

theorem createOrUpdateFileInRepo_ok {tp c m b : String} {sha : Option Nat}
    {st st' : RemoteState} {u : Unit}
    (h : createOrUpdateFileInRepo tp c m b sha st = (.ok u, st')) :
    st' = st.stamp (.putE b tp c) := by
  have h2 := createOrUpdateFileInRepo_snd tp c m b sha st
  rw [h] at h2
  exact h2

/-- C3: the suggest_runbook lifecycle.  Without a pr_number the call
creates a new branch (absent before, present after) and appends a single
new pull request whose number is the fresh pull counter — distinct from
every prior request's — and reports that number; with a pr_number the
call reports the input number, creates no branch and no pull request, and
its single contents PUT targets the existing request's head branch. -/
theorem C3_suggestRunbookLifecycle (args : SuggestRunbookArgs) (now : Nat)
    (st₀ : RemoteState) (res : PrResult) (st' : RemoteState)
    (h : handleSuggestRunbook args now st₀ = (res, st'))
    (hwf : WF st₀) (hev : st₀.events = [])
    (hs : res.status = "success") :
    (args.pr_number = none →
      res.pr_number = some st₀.nextPr ∧
      (∀ q ∈ st₀.pulls, q.number ≠ st₀.nextPr) ∧
      st'.nextPr = st₀.nextPr + 1 ∧
      ∃ hb sha, lookupS st₀.refs ("heads/" ++ hb) = none ∧
        lookupS st'.refs ("heads/" ++ hb) = some sha ∧
        ∃ q : PullObj, st'.pulls = st₀.pulls ++ [q] ∧ q.number = st₀.nextPr ∧
          q.headRef = hb ∧ q.baseRef = "main" ∧
          putBranches st'.events = [hb]) ∧
    (∀ n, args.pr_number = some n →
      res.pr_number = some n ∧ st'.pulls = st₀.pulls ∧ st'.nextPr = st₀.nextPr ∧
      st'.refs = st₀.refs ∧
      ∃ q : PullObj, st₀.pulls.find? (fun x => x.number = n) = some q ∧
        putBranches st'.events = [q.headRef]) := by
  simp only [handleSuggestRunbook] at h
  split at h
  · simp only [Prod.mk.injEq] at h
    rw [← h.1] at hs
    have hs2 : "error" = "success" := hs
    exact absurd hs2 (by decide)
  rename_i content target_folder heqV
  split at h
  · simp only [Prod.mk.injEq] at h
    rw [← h.1] at hs
    have hs2 : "error" = "success" := hs
    exact absurd hs2 (by decide)
  rename_i username st₁ heqM
  have hst₁ : st₁ = st₀.stamp .getMeE := by
    have h2 := getMe_snd st₀
    rw [heqM] at h2
    exact h2
  subst hst₁
  split at h
  · -- no pr_number: create branch, put the file, open a PR
    rename_i heqN
    split at h
    · simp only [Prod.mk.injEq] at h
      rw [← h.1] at hs
      have hs2 : "error" = "success" := hs
      exact absurd hs2 (by decide)
    rename_i u₂ st₂ heqB
    split at h
    · simp only [Prod.mk.injEq] at h
      rw [← h.1] at hs
      have hs2 : "error" = "success" := hs
      exact absurd hs2 (by decide)
    rename_i u₃ st₃ heqP
    split at h
    · simp only [Prod.mk.injEq] at h
      rw [← h.1] at hs
      have hs2 : "error" = "success" := hs
      exact absurd hs2 (by decide)
    rename_i newPr st₄ heqPR
    simp only [Prod.mk.injEq] at h
    obtain ⟨hres, hst'⟩ := h
    subst hst'
    obtain ⟨sha, hfrom, hnone, hst₂⟩ := createBranch_ok heqB
    subst hst₂
    have hst₃ := createOrUpdateFileInRepo_ok heqP
    subst hst₃
    obtain ⟨hq, hst₄⟩ := createPullRequest_ok heqPR
    subst hst₄
    constructor
    · intro _
      refine ⟨?_, ?_, ?_,
        orDefault args.branch_name ("suggest-runbook-" ++ toString now), sha,
        ?_, ?_, newPr, ?_, ?_, ?_, ?_, ?_⟩
      · rw [← hres, hq]
        rfl
      · intro q hq2
        have := hwf.2.2.2.2 q hq2
        omega
      · rfl
      · exact hnone
      · show lookupS ((("heads/" ++
          orDefault args.branch_name ("suggest-runbook-" ++ toString now), sha))
          :: st₀.refs) ("heads/" ++
          orDefault args.branch_name ("suggest-runbook-" ++ toString now)) = some sha
        exact lookupS_cons_self _ _ _
      · rw [hq]
        rfl
      · rw [hq]
        rfl
      · rw [hq]
      · rw [hq]
      · simp [putBranches, RemoteState.stamp, hev]
    · intro n heqN2
      rw [heqN] at heqN2
      exact absurd heqN2 (by simp)
  · -- pr_number given: read the PR, read the file, put to its head branch
    rename_i n heqN
    split at h
    · simp only [Prod.mk.injEq] at h
      rw [← h.1] at hs
      have hs2 : "error" = "success" := hs
      exact absurd hs2 (by decide)
    rename_i pr st₂ heqPR2
    have hfind0 := getPullRequest_ok_find heqPR2
    have hfind : st₀.pulls.find? (fun x => x.number = n) = some pr := hfind0
    have hst₂ : st₂ = (st₀.stamp .getMeE).stamp .readE := by
      have h2 := getPullRequest_snd n (st₀.stamp .getMeE)
      rw [heqPR2] at h2
      exact h2
    subst hst₂
    split at h
    · simp only [Prod.mk.injEq] at h
      rw [← h.1] at hs
      have hs2 : "error" = "success" := hs
      exact absurd hs2 (by decide)
    rename_i resp st₃ heqC
    have hst₃ : st₃ = ((st₀.stamp .getMeE).stamp .readE).stamp .readE := by
      have h2 := getContents_snd (posixJoin [target_folder,
        (match args.filename_slug with
          | some s => if s = "" then
              genSlug (injectAuthorIntoFrontmatter content username) now else s
          | none => genSlug (injectAuthorIntoFrontmatter content username) now)
        ++ ".md"]) pr.headRef ((st₀.stamp .getMeE).stamp .readE)
      rw [heqC] at h2
      exact h2
    subst hst₃
    split at h
    · simp only [Prod.mk.injEq] at h
      rw [← h.1] at hs
      have hs2 : "error" = "success" := hs
      exact absurd hs2 (by decide)
    rename_i u₄ st₄ heqP
    have hst₄ := createOrUpdateFileInRepo_ok heqP
    subst hst₄
    simp only [Prod.mk.injEq] at h
    obtain ⟨hres, hst'⟩ := h
    subst hst'
    constructor
    · intro hNone
      rw [heqN] at hNone
      exact absurd hNone (by simp)
    · intro n' heqN2
      rw [heqN] at heqN2
      obtain rfl : n' = n := (Option.some.inj heqN2).symm
      refine ⟨?_, rfl, rfl, rfl, pr, hfind, ?_⟩
      · rw [← hres]
      · simp [putBranches, RemoteState.stamp, hev]

theorem C3_suggestRunbookLifecycle_witness :
    WF cexState ∧ cexState.events = [] ∧
    (handleSuggestRunbook cexSuggestArgs 99 cexState).1.status = "success" ∧
    ((cexSuggestArgs.pr_number = none →
      (handleSuggestRunbook cexSuggestArgs 99 cexState).1.pr_number
        = some cexState.nextPr ∧
      (∀ q ∈ cexState.pulls, q.number ≠ cexState.nextPr) ∧
      (handleSuggestRunbook cexSuggestArgs 99 cexState).2.nextPr
        = cexState.nextPr + 1 ∧
      ∃ hb sha, lookupS cexState.refs ("heads/" ++ hb) = none ∧
        lookupS (handleSuggestRunbook cexSuggestArgs 99 cexState).2.refs
          ("heads/" ++ hb) = some sha ∧
        ∃ q : PullObj,
          (handleSuggestRunbook cexSuggestArgs 99 cexState).2.pulls
            = cexState.pulls ++ [q] ∧
          q.number = cexState.nextPr ∧ q.headRef = hb ∧ q.baseRef = "main" ∧
          putBranches (handleSuggestRunbook cexSuggestArgs 99 cexState).2.events
            = [hb]) ∧
    (∀ n, cexSuggestArgs.pr_number = some n →
      (handleSuggestRunbook cexSuggestArgs 99 cexState).1.pr_number = some n ∧
      (handleSuggestRunbook cexSuggestArgs 99 cexState).2.pulls = cexState.pulls ∧
      (handleSuggestRunbook cexSuggestArgs 99 cexState).2.nextPr = cexState.nextPr ∧
      (handleSuggestRunbook cexSuggestArgs 99 cexState).2.refs = cexState.refs ∧
      ∃ q : PullObj, cexState.pulls.find? (fun x => x.number = n) = some q ∧
        putBranches (handleSuggestRunbook cexSuggestArgs 99 cexState).2.events
          = [q.headRef])) :=
  ⟨by unfold WF TreesLt EntriesLt; decide, rfl, rfl,
    C3_suggestRunbookLifecycle cexSuggestArgs 99 cexState _ _ rfl
      (by unfold WF TreesLt EntriesLt; decide) rfl rfl⟩

/-- C10: suggest_runbook and create_spec never upload the caller's raw
content: the authenticated user is fetched before any write occurs in the
trace, and the single uploaded body of a successful call is exactly the
frontmatter-injection function applied to the input content with that
user. -/
theorem C10_authorInjectedBeforeUpload :
    (∀ (args : SuggestRunbookArgs) (now : Nat) (st₀ : RemoteState)
      (res : PrResult) (st' : RemoteState),
      handleSuggestRunbook args now st₀ = (res, st') → st₀.events = [] →
      res.status = "success" →
      ∃ c tf, args.content = some c ∧ args.target_folder = some tf ∧
        uploadedBodies st'.events = [injectAuthorIntoFrontmatter c st₀.authUser] ∧
        writesBeforeGetMe st'.events = false) ∧
    (∀ (args : CreateSpecArgs) (st₀ : RemoteState) (res : PrResult)
      (st' : RemoteState),
      handleCreateSpec args st₀ = (res, st') → st₀.events = [] →
      res.status = "success" →
      ∃ sn c, args.spec_name = some sn ∧ args.content = some c ∧
        uploadedBodies st'.events = [injectAuthorIntoFrontmatter c st₀.authUser] ∧
        writesBeforeGetMe st'.events = false) := by
  constructor
  · intro args now st₀ res st' h hev hs
    simp only [handleSuggestRunbook] at h
    split at h
    · simp only [Prod.mk.injEq] at h
      rw [← h.1] at hs
      have hs2 : "error" = "success" := hs
      exact absurd hs2 (by decide)
    rename_i content target_folder heqV
    obtain ⟨hvc, hvt⟩ := validateSuggestRunbookArgs_ok heqV
    split at h
    · simp only [Prod.mk.injEq] at h
      rw [← h.1] at hs
      have hs2 : "error" = "success" := hs
      exact absurd hs2 (by decide)
    rename_i username st₁ heqM
    have husr : username = st₀.authUser := getMe_ok_user heqM
    subst husr
    have hst₁ : st₁ = st₀.stamp .getMeE := by
      have h2 := getMe_snd st₀
      rw [heqM] at h2
      exact h2
    subst hst₁
    split at h
    · rename_i heqN
      split at h
      · simp only [Prod.mk.injEq] at h
        rw [← h.1] at hs
        have hs2 : "error" = "success" := hs
        exact absurd hs2 (by decide)
      rename_i u₂ st₂ heqB
      split at h
      · simp only [Prod.mk.injEq] at h
        rw [← h.1] at hs
        have hs2 : "error" = "success" := hs
        exact absurd hs2 (by decide)
      rename_i u₃ st₃ heqP
      split at h
      · simp only [Prod.mk.injEq] at h
        rw [← h.1] at hs
        have hs2 : "error" = "success" := hs
        exact absurd hs2 (by decide)
      rename_i newPr st₄ heqPR
      simp only [Prod.mk.injEq] at h
      obtain ⟨hres, hst'⟩ := h
      subst hst'
      obtain ⟨sha, hfrom, hnone, hst₂⟩ := createBranch_ok heqB
      subst hst₂
      have hst₃ := createOrUpdateFileInRepo_ok heqP
      subst hst₃
      obtain ⟨hq, hst₄⟩ := createPullRequest_ok heqPR
      subst hst₄
      refine ⟨content, target_folder, hvc, hvt, ?_, ?_⟩
      · simp [uploadedBodies, RemoteState.stamp, hev]
      · simp [writesBeforeGetMe, RemoteState.stamp, hev]
    · rename_i n heqN
      split at h
      · simp only [Prod.mk.injEq] at h
        rw [← h.1] at hs
        have hs2 : "error" = "success" := hs
        exact absurd hs2 (by decide)
      rename_i pr st₂ heqPR2
      have hst₂ : st₂ = (st₀.stamp .getMeE).stamp .readE := by
        have h2 := getPullRequest_snd n (st₀.stamp .getMeE)
        rw [heqPR2] at h2
        exact h2
      subst hst₂
      split at h
      · simp only [Prod.mk.injEq] at h
        rw [← h.1] at hs
        have hs2 : "error" = "success" := hs
        exact absurd hs2 (by decide)
      rename_i resp st₃ heqC
      have hst₃ : st₃ = ((st₀.stamp .getMeE).stamp .readE).stamp .readE := by
        have h2 := getContents_snd (posixJoin [target_folder,
          (match args.filename_slug with
            | some s => if s = "" then
                genSlug (injectAuthorIntoFrontmatter content st₀.authUser) now else s
            | none => genSlug (injectAuthorIntoFrontmatter content st₀.authUser) now)
          ++ ".md"]) pr.headRef ((st₀.stamp .getMeE).stamp .readE)
        rw [heqC] at h2
        exact h2
      subst hst₃
      split at h
      · simp only [Prod.mk.injEq] at h
        rw [← h.1] at hs
        have hs2 : "error" = "success" := hs
        exact absurd hs2 (by decide)
      rename_i u₄ st₄ heqP
      have hst₄ := createOrUpdateFileInRepo_ok heqP
      subst hst₄
      simp only [Prod.mk.injEq] at h
      obtain ⟨hres, hst'⟩ := h
      subst hst'
      refine ⟨content, target_folder, hvc, hvt, ?_, ?_⟩
      · simp [uploadedBodies, RemoteState.stamp, hev]
      · simp [writesBeforeGetMe, RemoteState.stamp, hev]
  · intro args st₀ res st' h hev hs
    simp only [handleCreateSpec] at h
    split at h
    · simp only [Prod.mk.injEq] at h
      rw [← h.1] at hs
      have hs2 : "error" = "success" := hs
      exact absurd hs2 (by decide)
    rename_i spec_name content heqV
    obtain ⟨hvs, hvc⟩ := validateCreateSpecArgs_ok heqV
    split at h
    · simp only [Prod.mk.injEq] at h
      rw [← h.1] at hs
      have hs2 : "error" = "success" := hs
      exact absurd hs2 (by decide)
    rename_i username st₁ heqM
    have husr : username = st₀.authUser := getMe_ok_user heqM
    subst husr
    have hst₁ : st₁ = st₀.stamp .getMeE := by
      have h2 := getMe_snd st₀
      rw [heqM] at h2
      exact h2
    subst hst₁
    split at h
    · simp only [Prod.mk.injEq] at h
      rw [← h.1] at hs
      have hs2 : "error" = "success" := hs
      exact absurd hs2 (by decide)
    rename_i u₂ st₂ heqB
    obtain ⟨sha, hfrom, hnone, hst₂⟩ := createBranch_ok heqB
    split at h
    · simp only [Prod.mk.injEq] at h
      rw [← h.1] at hs
      have hs2 : "error" = "success" := hs
      exact absurd hs2 (by decide)
    rename_i refSha st₃ heqR
    have hst₃ : st₃ = st₂.stamp .readE := by
      have h2 := getRef_snd "heads/main" st₂
      rw [heqR] at h2
      exact h2
    subst hst₃
    split at h
    · simp only [Prod.mk.injEq] at h
      rw [← h.1] at hs
      have hs2 : "error" = "success" := hs
      exact absurd hs2 (by decide)
    rename_i baseCommit st₄ heqC
    have hst₄ : st₄ = (st₂.stamp .readE).stamp .readE := by
      have h2 := getCommit_snd refSha (st₂.stamp .readE)
      rw [heqC] at h2
      exact h2
    subst hst₄
    split at h
    · simp only [Prod.mk.injEq] at h
      rw [← h.1] at hs
      have hs2 : "error" = "success" := hs
      exact absurd hs2 (by decide)
    rename_i blobSha st₅ heqBl
    obtain ⟨hsha, hst₅⟩ := createBlob_ok heqBl
    subst hst₅
    split at h
    · simp only [Prod.mk.injEq] at h
      rw [← h.1] at hs
      have hs2 : "error" = "success" := hs
      exact absurd hs2 (by decide)
    rename_i treeSha st₆ heqT
    obtain ⟨base, es', stF, hbase, hfold, hroot, hst₆⟩ := createTree_ok heqT
    obtain ⟨hbF, hcF, hrF, hpF, hnpF, hauF, hevF, hflF, hleF, lF, htrF, hlF⟩ :=
      foldItems_state _ _ _ hfold
    subst hst₆
    split at h
    · simp only [Prod.mk.injEq] at h
      rw [← h.1] at hs
      have hs2 : "error" = "success" := hs
      exact absurd hs2 (by decide)
    rename_i newCommitSha st₇ heqCm
    obtain ⟨hcS, hst₇⟩ := createCommit_ok heqCm
    subst hst₇
    split at h
    · simp only [Prod.mk.injEq] at h
      rw [← h.1] at hs
      have hs2 : "error" = "success" := hs
      exact absurd hs2 (by decide)
    rename_i u₈ st₈ heqU
    obtain ⟨cur, cobj, hcur, hcobj2, hparc, hst₈⟩ := updateRef_ok heqU
    subst hst₈
    split at h
    · simp only [Prod.mk.injEq] at h
      rw [← h.1] at hs
      have hs2 : "error" = "success" := hs
      exact absurd hs2 (by decide)
    rename_i newPr st₉ heqPR
    obtain ⟨hq, hst₉⟩ := createPullRequest_ok heqPR
    subst hst₉
    simp only [Prod.mk.injEq] at h
    obtain ⟨hres, hst'⟩ := h
    subst hst'
    refine ⟨spec_name, content, hvs, hvc, ?_, ?_⟩
    · simp [uploadedBodies, RemoteState.stamp, hev, hevF, hst₂]
    · simp [writesBeforeGetMe, RemoteState.stamp, hev, hevF, hst₂]

theorem C10_authorInjectedBeforeUpload_witness :
    cexState.events = [] ∧
    (handleSuggestRunbook cexSuggestArgs 99 cexState).1.status = "success" ∧
    (handleCreateSpec cexSpecArgs cexState).1.status = "success" ∧
    (∃ c tf, cexSuggestArgs.content = some c ∧
      cexSuggestArgs.target_folder = some tf ∧
      uploadedBodies (handleSuggestRunbook cexSuggestArgs 99 cexState).2.events
        = [injectAuthorIntoFrontmatter c cexState.authUser] ∧
      writesBeforeGetMe (handleSuggestRunbook cexSuggestArgs 99 cexState).2.events
        = false) ∧
    (∃ sn c, cexSpecArgs.spec_name = some sn ∧ cexSpecArgs.content = some c ∧
      uploadedBodies (handleCreateSpec cexSpecArgs cexState).2.events
        = [injectAuthorIntoFrontmatter c cexState.authUser] ∧
      writesBeforeGetMe (handleCreateSpec cexSpecArgs cexState).2.events = false) :=
  ⟨rfl, rfl, rfl,
    C10_authorInjectedBeforeUpload.1 cexSuggestArgs 99 cexState _ _ rfl rfl rfl,
    C10_authorInjectedBeforeUpload.2 cexSpecArgs cexState _ _ rfl rfl rfl⟩

end McpPlaybook
